import Mathlib

/-!
# goui: a shallow embedding of the component, layout and window packages

Go values are embedded as follows.

* `int32` values are integers; every `int32` addition, subtraction and
  multiplication of the source is followed by `wrap32`, the two's complement
  wrap-around of Go.  `int` is taken to be 64 bits wide (`wrap64`).
* A Go `string` is seen through `[]rune(s)`: a text is the list of its decoded
  code points.
* A callback field (`OnClick`, `OnCheck`) is `none` for a nil func and
  `some h` for a func named `h`; calling it appends to a trace that the
  handler returns next to the new state.
* Code that can panic (a slice expression out of range, an integer division
  by zero) returns `none`.
* Drawing calls change the canvas only; a `Render` method is embedded by what
  it writes to the component and to the components it holds.
-/

namespace Goui

/-! ## Machine integers -/

/-- Two's complement wrap-around of a mathematical integer into `int32`. -/
def wrap32 (v : Int) : Int := (v + 2147483648) % 4294967296 - 2147483648

/-- Two's complement wrap-around of a mathematical integer into a 64 bit `int`. -/
def wrap64 (v : Int) : Int :=
  (v + 9223372036854775808) % 18446744073709551616 - 9223372036854775808

/-- The integer is a value of type `int32`. -/
def isInt32 (v : Int) : Prop := -2147483648 ≤ v ∧ v ≤ 2147483647

instance (v : Int) : Decidable (isInt32 v) := by
  unfold isInt32; infer_instance

/-! ## layout.Rect (layout/layout.go) -/

/-- The struct `layout.Rect`. -/
structure Rect where
  X : Int
  Y : Int
  Width : Int
  Height : Int
deriving DecidableEq, Repr

/-- All four fields are `int32` values. -/
def Rect.wellTyped (r : Rect) : Prop :=
  isInt32 r.X ∧ isInt32 r.Y ∧ isInt32 r.Width ∧ isInt32 r.Height

instance (r : Rect) : Decidable r.wellTyped := by
  unfold Rect.wellTyped; infer_instance

/-- The method `Rect.Contains`:
`x >= r.X && x < r.X+r.Width && y >= r.Y && y < r.Y+r.Height`. -/
def Rect.Contains (r : Rect) (x y : Int) : Bool :=
  decide (x ≥ r.X) && decide (x < wrap32 (r.X + r.Width)) &&
    decide (y ≥ r.Y) && decide (y < wrap32 (r.Y + r.Height))

/-! ## event.Event (event/event.go) -/

/-- The constants of `event.EventType`, in the order of the `iota` block. -/
inductive EventType where
  | EventMouseMove
  | EventMouseClick
  | EventMouseRelease
  | EventMouseWheel
  | EventKeyPress
  | EventKeyRelease
  | EventChar
  | EventPaint
  | EventResize
  | EventClose
deriving DecidableEq, Repr

/-- The struct `event.MouseEvent`. -/
structure MouseEvent where
  X : Int
  Y : Int
  Button : Int
  Delta : Int
deriving DecidableEq, Repr

/-- The struct `event.KeyEvent`; `VirtualKeyCode` and `Modifiers` are `uint32`,
`Rune` is an `int32`. -/
structure KeyEvent where
  VirtualKeyCode : Nat
  Rune : Int
  Modifiers : Nat
deriving DecidableEq, Repr

/-- The dynamic value of the field `Data interface{}`: a `MouseEvent`, a
`KeyEvent`, or anything else (nil included), for which both type assertions of
the handlers fail. -/
inductive EventData where
  | mouse (m : MouseEvent)
  | key (k : KeyEvent)
  | other
deriving DecidableEq, Repr

/-- The struct `event.Event`; the field `Type` is spelled `Typ`. -/
structure Event where
  Typ : EventType
  Timestamp : Int
  Data : EventData
deriving DecidableEq, Repr

/-- The constant `event.ModShift`. -/
def ModShift : Nat := 1

/-- Name of a callback function value. -/
abbrev Handler := Nat

/-! ## component.Button (component/button.go) -/

/-- The struct `component.Button` with its embedded `BaseComponent`; the font
is not part of the event handling. -/
structure Button where
  Bounds : Rect
  Visible : Bool
  RepaintRequested : Bool
  Text : List Nat
  OnClick : Option Handler
  isHovered : Bool
  isPressed : Bool
deriving DecidableEq, Repr

/-- Result of an event handler: the new state, the callbacks invoked (in
order) and the returned boolean. -/
structure Handled (σ : Type) (κ : Type) where
  state : σ
  calls : List κ
  ret : Bool

/-- The method `Button.OnEvent`. -/
def Button.OnEvent (b : Button) (evt : Event) : Handled Button Handler :=
  if !b.Visible then ⟨b, [], false⟩
  else
    match evt.Typ with
    | .EventMouseMove =>
      match evt.Data with
      | .mouse data =>
        let wasHovered := b.isHovered
        let b1 := { b with isHovered := b.Bounds.Contains data.X data.Y }
        if wasHovered != b1.isHovered then ⟨b1, [], true⟩ else ⟨b1, [], false⟩
      | _ => ⟨b, [], false⟩
    | .EventMouseClick =>
      match evt.Data with
      | .mouse data =>
        if b.Bounds.Contains data.X data.Y then
          ⟨{ b with isPressed := true }, [], true⟩
        else ⟨b, [], false⟩
      | _ => ⟨b, [], false⟩
    | .EventMouseRelease =>
      match evt.Data with
      | .mouse data =>
        let wasPressed := b.isPressed
        let b1 := { b with isPressed := false }
        if wasPressed && b1.Bounds.Contains data.X data.Y then
          match b1.OnClick with
          | some f => ⟨b1, [f], true⟩
          | none => ⟨b1, [], true⟩
        else if wasPressed then ⟨b1, [], true⟩
        else ⟨b1, [], false⟩
      | _ => ⟨b, [], false⟩
    | _ => ⟨b, [], false⟩

/-- Feeding a sequence of events to a button, one `OnEvent` call per event;
the result is the final state and the concatenated callback trace. -/
def Button.run : Button → List Event → Button × List Handler
  | b, [] => (b, [])
  | b, e :: es =>
    let r := b.OnEvent e
    let rest := Button.run r.state es
    (rest.1, r.calls ++ rest.2)

/-- The event is a mouse-down carrying a point inside the rectangle. -/
def Event.isMouseDownInside (e : Event) (r : Rect) : Bool :=
  match e.Typ, e.Data with
  | .EventMouseClick, .mouse m => r.Contains m.X m.Y
  | _, _ => false

/-! ## component.CheckBox (component/checkbox.go) -/

/-- The struct `component.CheckBox`; `OnCheck` takes the new state. -/
structure CheckBox where
  Bounds : Rect
  Visible : Bool
  RepaintRequested : Bool
  Text : List Nat
  Checked : Bool
  OnCheck : Option Handler
  isHovered : Bool
deriving DecidableEq, Repr

/-- The method `CheckBox.OnEvent`; a call `c.OnCheck(v)` is recorded as the
pair of the handler and its argument. -/
def CheckBox.OnEvent (c : CheckBox) (evt : Event) : Handled CheckBox (Handler × Bool) :=
  if !c.Visible then ⟨c, [], false⟩
  else
    match evt.Typ with
    | .EventMouseMove =>
      match evt.Data with
      | .mouse data =>
        let wasHovered := c.isHovered
        let c1 := { c with isHovered := c.Bounds.Contains data.X data.Y }
        if wasHovered != c1.isHovered then ⟨c1, [], true⟩ else ⟨c1, [], false⟩
      | _ => ⟨c, [], false⟩
    | .EventMouseClick =>
      match evt.Data with
      | .mouse data =>
        if c.Bounds.Contains data.X data.Y then
          let c1 := { c with Checked := !c.Checked }
          match c1.OnCheck with
          | some f => ⟨c1, [(f, c1.Checked)], true⟩
          | none => ⟨c1, [], true⟩
        else ⟨c, [], false⟩
      | _ => ⟨c, [], false⟩
    | _ => ⟨c, [], false⟩

/-! ## window.Window.SetFocus (window/window.go) -/

/-- Identity of a component (the pointer stored in the interface value). -/
abbrev CompId := Nat

/-- A call of one of the two focus callbacks of a component. -/
inductive FocusCall where
  | OnBlur (c : CompId)
  | OnFocus (c : CompId)
deriving DecidableEq, Repr

/-- The focus state of `window.Window`: `FocusComp` is nil or a component. -/
structure Window where
  FocusComp : Option CompId
deriving DecidableEq, Repr

/-- The method `Window.SetFocus`, returning the new window and the trace of
the `OnBlur` and `OnFocus` calls it made. -/
def Window.SetFocus (w : Window) (c : Option CompId) : Window × List FocusCall :=
  if w.FocusComp = c then (w, [])
  else
    let blur : List FocusCall :=
      match w.FocusComp with
      | some a => [FocusCall.OnBlur a]
      | none => []
    let w1 : Window := { w with FocusComp := c }
    let focus : List FocusCall :=
      match w1.FocusComp with
      | some b => [FocusCall.OnFocus b]
      | none => []
    (w1, blur ++ focus)

/-! ## component.Panel.FindComponentAt (component/panel.go) -/

/-- A component tree as hit-testing and event dispatch read it.  `panel` is a
value of dynamic type `*Panel`; `card` is a `*Card`, whose field `InnerPanel`
is a panel of its own (`FindComponentAt` does not look into a card, `OnEvent`
does); `leaf` is a component of any other type (Button, Label, CheckBox,
TextBox, TextArea, ProgressBar, LineChart, Image), which holds no other
component. -/
inductive Component where
  | leaf (id : CompId) (Bounds : Rect) (Visible : Bool)
  | panel (id : CompId) (Bounds : Rect) (Visible : Bool) (Children : List Component)
  | card (id : CompId) (Bounds : Rect) (Visible : Bool) (InnerPanel : Component)
deriving Repr

mutual
/-- On a `panel` this is the method `Panel.FindComponentAt`, with `none` for
the nil result.  On a `leaf` and on a `card` (neither is a `*Panel`) it is the
else-branch of the loop body: the child itself when its bounds contain the
point. -/
def Component.FindComponentAt : Component → Int → Int → Option Component
  | .leaf id b v, x, y => if b.Contains x y then some (.leaf id b v) else none
  | .card id b v p, x, y => if b.Contains x y then some (.card id b v p) else none
  | .panel id b v cs, x, y =>
    if !v || !b.Contains x y then none
    else
      match Component.searchChildren cs x y with
      | some found => some found
      | none => some (.panel id b v cs)
/-- The loop `for i := len(p.Children) - 1; i >= 0; i--` of
`Panel.FindComponentAt`: the children after the head are visited before the
head, and the first one that yields a component ends the loop. -/
def Component.searchChildren : List Component → Int → Int → Option Component
  | [], _, _ => none
  | c :: cs, x, y =>
    match Component.searchChildren cs x y with
    | some found => some found
    | none => Component.FindComponentAt c x y
end

mutual
/-- The bounds of the component, or of one of the descendants that
hit-testing can reach (the children of panels; what a card holds is out of
its reach), contain the point. -/
def Component.anyContains : Component → Int → Int → Bool
  | .leaf _ b _, x, y => b.Contains x y
  | .card _ b _ _, x, y => b.Contains x y
  | .panel _ b _ cs, x, y => b.Contains x y || Component.anyContainsList cs x y
/-- The bounds of some component of the list, or of a descendant of one,
contain the point. -/
def Component.anyContainsList : List Component → Int → Int → Bool
  | [], _, _ => false
  | c :: cs, x, y => Component.anyContains c x y || Component.anyContainsList cs x y
end

/-! ## component.TextBox (component/textbox.go) -/

/-- Code points of a string literal: the value of `[]rune(s)`. -/
def runes (s : String) : List Int := s.toList.map (fun c => Int.ofNat c.toNat)

/-- The conversion `string(r)` of a rune, seen as code points: a value that is
not a Unicode scalar value becomes U+FFFD. -/
def runeToString (r : Int) : List Int :=
  if 0 ≤ r ∧ r ≤ 1114111 ∧ ¬ (55296 ≤ r ∧ r ≤ 57343) then [r] else [65533]

/-- The slice expression `runes[:hi]`; `none` is the run-time panic for an
index out of range.  Go checks `hi` against the capacity of the slice, which
for the result of `[]rune(s)` can exceed the length; an index above the
length is taken as out of range here. -/
def sliceTo (rs : List Int) (hi : Int) : Option (List Int) :=
  if 0 ≤ hi ∧ hi ≤ rs.length then some (rs.take hi.toNat) else none

/-- The slice expression `runes[lo:]`; `none` is the run-time panic. -/
def sliceFrom (rs : List Int) (lo : Int) : Option (List Int) :=
  if 0 ≤ lo ∧ lo ≤ rs.length then some (rs.drop lo.toNat) else none

/-- The struct `component.TextBox` with its embedded `BaseComponent`; `Text`
and `Placeholder` are kept as code points, the font is left out. -/
structure TextBox where
  Bounds : Rect
  Visible : Bool
  RepaintRequested : Bool
  Text : List Int
  Placeholder : List Int
  ReadOnly : Bool
  isFocused : Bool
  cursorPos : Int
  selStart : Int
  isDragging : Bool
  pendingMouseX : Int
  cursorBlink : Bool
  lastBlink : Int
deriving DecidableEq, Repr

/-- The method `BaseComponent.RequestRepaint` on a text box. -/
def TextBox.RequestRepaint (t : TextBox) : TextBox := { t with RepaintRequested := true }

/-- The method `TextBox.OnFocus`. -/
def TextBox.OnFocus (t : TextBox) : TextBox :=
  ({ t with isFocused := true, lastBlink := 0, cursorBlink := true }).RequestRepaint

/-- The method `TextBox.OnBlur`. -/
def TextBox.OnBlur (t : TextBox) : TextBox :=
  ({ t with isFocused := false, cursorBlink := false }).RequestRepaint

/-- The `case 0x08` (VK_BACK) of `TextBox.OnEvent`, entered with
`runes = []rune(t.Text)`. -/
def TextBox.backspace (t : TextBox) (rs : List Int) : Option (TextBox × Bool) :=
  if rs.length > 0 then
    if t.selStart ≠ t.cursorPos then
      let start := if t.selStart > t.cursorPos then t.cursorPos else t.selStart
      let stop := if t.selStart > t.cursorPos then t.selStart else t.cursorPos
      match sliceTo rs start, sliceFrom rs stop with
      | some l, some r =>
        some (({ t with Text := l ++ r, cursorPos := start, selStart := start }).RequestRepaint,
          true)
      | _, _ => none
    else if t.cursorPos > 0 then
      match sliceTo rs (t.cursorPos - 1), sliceFrom rs t.cursorPos with
      | some l, some r =>
        some (({ t with Text := l ++ r, cursorPos := t.cursorPos - 1,
                        selStart := t.cursorPos - 1 }).RequestRepaint, true)
      | _, _ => none
    else some (t.RequestRepaint, true)
  else some (t.RequestRepaint, true)

/-- The `case event.EventChar` of `TextBox.OnEvent` after the control
character test. -/
def TextBox.insertRune (t : TextBox) (rs : List Int) (r : Int) : Option (TextBox × Bool) :=
  if t.selStart ≠ t.cursorPos then
    let start := if t.selStart > t.cursorPos then t.cursorPos else t.selStart
    let stop := if t.selStart > t.cursorPos then t.selStart else t.cursorPos
    match sliceTo rs start, sliceFrom rs stop with
    | some l, some rt =>
      some (({ t with Text := l ++ runeToString r ++ rt, cursorPos := start + 1,
                      selStart := start + 1 }).RequestRepaint, true)
    | _, _ => none
  else
    match sliceTo rs t.cursorPos, sliceFrom rs t.cursorPos with
    | some left, some right =>
      some (({ t with Text := left ++ runeToString r ++ right, cursorPos := t.cursorPos + 1,
                      selStart := t.cursorPos + 1 }).RequestRepaint, true)
    | _, _ => none

/-- The method `TextBox.OnEvent`; `none` is a run-time panic, otherwise the
new state and the returned boolean. -/
def TextBox.OnEvent (t : TextBox) (evt : Event) : Option (TextBox × Bool) :=
  if !t.Visible then some (t, false)
  else
    match evt.Typ with
    | .EventMouseClick =>
      match evt.Data with
      | .mouse data =>
        if t.Bounds.Contains data.X data.Y then
          some (({ t with pendingMouseX := data.X, isDragging := true,
                          selStart := -1 }).RequestRepaint, true)
        else some (t, false)
      | _ => some (t, false)
    | .EventMouseMove =>
      if t.isDragging then
        match evt.Data with
        | .mouse data => some (({ t with pendingMouseX := data.X }).RequestRepaint, true)
        | _ => some (t, false)
      else some (t, false)
    | .EventMouseRelease =>
      if t.isDragging then some (({ t with isDragging := false }).RequestRepaint, true)
      else some (t, false)
    | .EventKeyPress =>
      if t.isFocused then
        match evt.Data with
        | .key data =>
          let rs := t.Text
          let isShift := (data.Modifiers &&& ModShift) != 0
          if data.VirtualKeyCode = 0x25 then
            let t1 := if t.cursorPos > 0 then { t with cursorPos := t.cursorPos - 1 } else t
            let t2 := if !isShift then { t1 with selStart := t1.cursorPos } else t1
            some (t2.RequestRepaint, true)
          else if data.VirtualKeyCode = 0x27 then
            let t1 := if t.cursorPos < rs.length then { t with cursorPos := t.cursorPos + 1 }
              else t
            let t2 := if !isShift then { t1 with selStart := t1.cursorPos } else t1
            some (t2.RequestRepaint, true)
          else if t.ReadOnly then some (t, false)
          else if data.VirtualKeyCode = 0x08 then t.backspace rs
          else some (t, false)
        | _ => some (t, false)
      else some (t, false)
    | .EventChar =>
      if t.isFocused && !t.ReadOnly then
        match evt.Data with
        | .key data =>
          if data.Rune < 32 then some (t, false)
          else t.insertRune t.Text data.Rune
        | _ => some (t, false)
      else some (t, false)
    | _ => some (t, false)

/-- The focused, editable text box with text "hello world", anchor 2,
cursor 5. -/
def helloWorldBox : TextBox :=
  ⟨⟨0, 0, 200, 24⟩, true, false, runes "hello world", [], false, true, 5, 2, false, 0, true, 0⟩

/-! ## component.LineChart (component/linechart.go) -/

/-- The struct `component.LineChart`, over the type `α` of the samples
(`float64` in the source; `AddPoint` stores samples and never reads them).
The colours and the Y range are only read by `Render`. -/
structure LineChart (α : Type) where
  Bounds : Rect
  Visible : Bool
  RepaintRequested : Bool
  Data : List α
  MaxPoints : Int
deriving DecidableEq, Repr

/-- The constructor `NewLineChart`. -/
def NewLineChart (α : Type) (width height : Int) : LineChart α :=
  { Bounds := ⟨0, 0, width, height⟩, Visible := true, RepaintRequested := false,
    Data := [], MaxPoints := 100 }

/-- The method `LineChart.AddPoint`: append, drop the first sample when the
length exceeds `MaxPoints`, request a repaint. -/
def LineChart.AddPoint {α : Type} (l : LineChart α) (v : α) : LineChart α :=
  let l1 := { l with Data := l.Data ++ [v] }
  let l2 :=
    if (l1.Data.length : Int) > l1.MaxPoints then { l1 with Data := l1.Data.drop 1 } else l1
  { l2 with RepaintRequested := true }

/-! ## layout.Component and float32 arithmetic -/

/-- A value of the interface `layout.Component`, as an `Arrange` method reads
and writes it: its identity (the key of the `props` maps), its bounds, its
visibility, and `GetPreferredSize` as a function of the current bounds (a
constant for a Button or a Label, the bounds' own size for `BaseComponent` and
`Panel`). -/
structure Child where
  id : CompId
  Bounds : Rect
  Visible : Bool
  preferred : Rect → Int × Int

/-- The method `SetBounds`. -/
def Child.SetBounds (c : Child) (x y width height : Int) : Child :=
  { c with Bounds := ⟨x, y, width, height⟩ }

/-- The method `GetPreferredSize`. -/
def Child.GetPreferredSize (c : Child) : Int × Int := c.preferred c.Bounds

/-- The measuring step shared by the flex passes: the preferred size, each
component replaced by the current bounds' size when it is `<= 0`. -/
def Child.measure (c : Child) : Int × Int :=
  (if c.GetPreferredSize.1 ≤ 0 then c.Bounds.Width else c.GetPreferredSize.1,
   if c.GetPreferredSize.2 ≤ 0 then c.Bounds.Height else c.GetPreferredSize.2)

/-- The `int32` quotient `a / b` of Go: truncated towards zero and wrapped;
`none` is the run-time panic for a zero divisor. -/
def div32 (a b : Int) : Option Int :=
  if b = 0 then none else some (wrap32 (Int.tdiv a b))

/-- The `int32` quotient `a / 2` of Go (the divisor is the constant 2, the
division cannot panic). -/
def half32 (a : Int) : Int := wrap32 (Int.tdiv a 2)

/-- Rounding of a rational to the nearest integer, ties to the even one. -/
def roundHalfEven (q : ℚ) : Int :=
  if q - ⌊q⌋ < 1 / 2 then ⌊q⌋
  else if 1 / 2 < q - ⌊q⌋ then ⌊q⌋ + 1
  else if ⌊q⌋ % 2 = 0 then ⌊q⌋ else ⌊q⌋ + 1

/-- Rounding of a real number to `float32`: the nearest number with a 24 bit
significand, ties to even.  The exponent range is not modelled: the values
that `arrangeRow` and `arrangeColumn` produce have a magnitude between 2^-63
and 2^94 and are normal numbers. -/
def roundF32 (q : ℚ) : ℚ :=
  if q = 0 then 0
  else (roundHalfEven (q / (2 : ℚ) ^ (Int.log 2 |q| - 23)) : ℚ) * (2 : ℚ) ^ (Int.log 2 |q| - 23)

/-- The conversion `int32(f)` of a `float32`: the fraction is discarded; a
value outside `int32` gives the x86 result (the language leaves it to the
implementation). -/
def truncInt32 (q : ℚ) : Int :=
  if isInt32 (if 0 ≤ q then ⌊q⌋ else ⌈q⌉) then (if 0 ≤ q then ⌊q⌋ else ⌈q⌉) else -2147483648

/-- The expression
`int32(float32(remainingSpace) * (float32(grow) / float32(totalGrow)))`. -/
def growExtra (remainingSpace grow totalGrow : Int) : Int :=
  truncInt32 (roundF32 (roundF32 remainingSpace *
    roundF32 (roundF32 grow / roundF32 totalGrow)))

/-! ## layout.FlexLayout (layout/flex.go) -/

/-- The constants of `FlexDirection`. -/
inductive FlexDirection where
  | FlexRow
  | FlexColumn
deriving DecidableEq, Repr

/-- The constants of `FlexJustify`. -/
inductive FlexJustify where
  | FlexStart
  | FlexEnd
  | FlexCenter
  | FlexSpaceBetween
  | FlexSpaceAround
deriving DecidableEq, Repr

/-- The constants of `FlexAlign`. -/
inductive FlexAlign where
  | AlignStart
  | AlignEnd
  | AlignCenter
  | AlignStretch
deriving DecidableEq, Repr

/-- The struct `FlexProps`. -/
structure FlexProps where
  Grow : Int
  Shrink : Int
deriving DecidableEq, Repr

/-- The struct `FlexLayout`; the map `props` is a partial function on
component identities. -/
structure FlexLayout where
  Direction : FlexDirection
  JustifyContent : FlexJustify
  AlignItems : FlexAlign
  Spacing : Int
  Padding : Int
  props : CompId → Option FlexProps

/-- The lookup `if p, ok := l.props[child]; ok { grow = p.Grow }` with the
initial value 0. -/
def FlexLayout.growOf (l : FlexLayout) (c : Child) : Int :=
  match l.props c.id with
  | some p => p.Grow
  | none => 0

/-- The three accumulators of the measuring pass. -/
structure FlexTotals where
  totalFixed : Int
  totalGrow : Int
  visibleCount : Int
deriving DecidableEq, Repr

/-- The measuring loop of `arrangeRow`. -/
def FlexLayout.measureRow (l : FlexLayout) : List Child → FlexTotals → FlexTotals
  | [], acc => acc
  | c :: cs, acc =>
    if !c.Visible then l.measureRow cs acc
    else
      l.measureRow cs
        ⟨wrap32 (acc.totalFixed + c.measure.1), wrap64 (acc.totalGrow + l.growOf c),
          acc.visibleCount + 1⟩

/-- The measuring loop of `arrangeColumn`. -/
def FlexLayout.measureColumn (l : FlexLayout) : List Child → FlexTotals → FlexTotals
  | [], acc => acc
  | c :: cs, acc =>
    if !c.Visible then l.measureColumn cs acc
    else
      l.measureColumn cs
        ⟨wrap32 (acc.totalFixed + c.measure.2), wrap64 (acc.totalGrow + l.growOf c),
          acc.visibleCount + 1⟩

/-- The slice `childSizes`: the measured size at the index of a visible child,
the zero value elsewhere. -/
def childSizes (children : List Child) : List (Int × Int) :=
  children.map (fun c => if c.Visible then c.measure else (0, 0))

/-- The value of `remainingSpace`: the spacing is added to the total, the
total is subtracted from the main extent, a negative result becomes 0. -/
def FlexLayout.remaining (l : FlexLayout) (extent : Int) (t : FlexTotals) : Int :=
  let total :=
    if t.visibleCount > 0 then
      wrap32 (t.totalFixed + wrap32 (wrap32 (t.visibleCount - 1) * l.Spacing))
    else t.totalFixed
  if wrap32 (extent - total) < 0 then 0 else wrap32 (extent - total)

/-- The `switch l.JustifyContent` block: the start of the first child and the
value of `justifyGap`; `none` is a division panic. -/
def FlexLayout.justify (l : FlexLayout) (start : Int) (t : FlexTotals)
    (remainingSpace : Int) : Option (Int × Int) :=
  if t.totalGrow = 0 ∧ remainingSpace > 0 then
    match l.JustifyContent with
    | .FlexStart => some (start, 0)
    | .FlexEnd => some (wrap32 (start + remainingSpace), 0)
    | .FlexCenter => some (wrap32 (start + half32 remainingSpace), 0)
    | .FlexSpaceBetween =>
      if t.visibleCount > 1 then
        (div32 remainingSpace (wrap32 (t.visibleCount - 1))).map (fun gap => (start, gap))
      else some (start, 0)
    | .FlexSpaceAround =>
      if t.visibleCount > 0 then
        (div32 remainingSpace (wrap32 t.visibleCount)).map (fun gap =>
          (wrap32 (start + half32 gap), gap))
      else some (start, 0)
  else some (start, 0)

/-- The main-axis size after the `Apply Grow` step. -/
def FlexLayout.grown (l : FlexLayout) (t : FlexTotals) (remainingSpace : Int) (c : Child)
    (size : Int) : Int :=
  if t.totalGrow > 0 ∧ remainingSpace > 0 then
    wrap32 (size + growExtra remainingSpace (l.growOf c) t.totalGrow)
  else size

/-- The `switch l.AlignItems` block: cross-axis position and size of a child of
measured cross size `size` in the cross range starting at `start` of extent
`extent`. -/
def FlexLayout.align (l : FlexLayout) (start extent size : Int) : Int × Int :=
  match l.AlignItems with
  | .AlignStart => (start, size)
  | .AlignEnd => (wrap32 (wrap32 (start + extent) - size), size)
  | .AlignCenter => (wrap32 (start + half32 (wrap32 (extent - size))), size)
  | .AlignStretch => (start, extent)

/-- The placing loop of `arrangeRow` over the children and their entries of
`childSizes`, from the current value of `currentX`. -/
def FlexLayout.placeRow (l : FlexLayout) (y height : Int) (t : FlexTotals)
    (remainingSpace justifyGap : Int) : List (Child × (Int × Int)) → Int → List Child
  | [], _ => []
  | (c, sz) :: rest, currentX =>
    if !c.Visible then c :: l.placeRow y height t remainingSpace justifyGap rest currentX
    else
      let w := l.grown t remainingSpace c sz.1
      let cross := l.align y height sz.2
      c.SetBounds currentX cross.1 w cross.2 ::
        l.placeRow y height t remainingSpace justifyGap rest
          (wrap32 (currentX + wrap32 (wrap32 (w + l.Spacing) + justifyGap)))

/-- The placing loop of `arrangeColumn`. -/
def FlexLayout.placeColumn (l : FlexLayout) (x width : Int) (t : FlexTotals)
    (remainingSpace justifyGap : Int) : List (Child × (Int × Int)) → Int → List Child
  | [], _ => []
  | (c, sz) :: rest, currentY =>
    if !c.Visible then c :: l.placeColumn x width t remainingSpace justifyGap rest currentY
    else
      let h := l.grown t remainingSpace c sz.2
      let cross := l.align x width sz.1
      c.SetBounds cross.1 currentY cross.2 h ::
        l.placeColumn x width t remainingSpace justifyGap rest
          (wrap32 (currentY + wrap32 (wrap32 (h + l.Spacing) + justifyGap)))

/-- The method `FlexLayout.arrangeRow`: the children after the call, `none`
for a division panic. -/
def FlexLayout.arrangeRow (l : FlexLayout) (children : List Child) (x y width height : Int) :
    Option (List Child) :=
  if children.length = 0 then some children
  else
    let t := l.measureRow children ⟨0, 0, 0⟩
    let remainingSpace := l.remaining width t
    match l.justify x t remainingSpace with
    | none => none
    | some (currentX, justifyGap) =>
      some (l.placeRow y height t remainingSpace justifyGap
        (children.zip (childSizes children)) currentX)

/-- The method `FlexLayout.arrangeColumn`: the children after the call,
`none` for a division panic. -/
def FlexLayout.arrangeColumn (l : FlexLayout) (children : List Child)
    (x y width height : Int) : Option (List Child) :=
  if children.length = 0 then some children
  else
    let t := l.measureColumn children ⟨0, 0, 0⟩
    let remainingSpace := l.remaining height t
    match l.justify y t remainingSpace with
    | none => none
    | some (currentY, justifyGap) =>
      some (l.placeColumn x width t remainingSpace justifyGap
        (children.zip (childSizes children)) currentY)

/-- The method `FlexLayout.Arrange` on a container with the given bounds and
children. -/
def FlexLayout.Arrange (l : FlexLayout) (bounds : Rect) (children : List Child) :
    Option (List Child) :=
  let width := wrap32 (bounds.Width - wrap32 (2 * l.Padding))
  let height := wrap32 (bounds.Height - wrap32 (2 * l.Padding))
  let startX := wrap32 (bounds.X + l.Padding)
  let startY := wrap32 (bounds.Y + l.Padding)
  if l.Direction = FlexDirection.FlexRow then l.arrangeRow children startX startY width height
  else l.arrangeColumn children startX startY width height

/-- The extra main-axis sizes of a row: the widths after the call minus the
measured widths before it. -/
def rowExtras (before after : List Child) : List Int :=
  List.zipWith (fun w0 w1 => w1 - w0) (before.map (fun c => c.measure.1))
    (after.map (fun c => c.Bounds.Width))

/-- The row layout of the example: no spacing, no padding, grow factor 0 for
component 0 and 1 for every other component. -/
def flexExample : FlexLayout :=
  ⟨.FlexRow, .FlexStart, .AlignStart, 0, 0, fun id => if id = 0 then some ⟨0, 0⟩ else some ⟨1, 0⟩⟩

/-- The children of the example: three visible components of preferred size
50 x 20. -/
def flexExampleChildren : List Child :=
  [⟨0, ⟨0, 0, 50, 20⟩, true, fun _ => (50, 20)⟩,
   ⟨1, ⟨0, 0, 50, 20⟩, true, fun _ => (50, 20)⟩,
   ⟨2, ⟨0, 0, 50, 20⟩, true, fun _ => (50, 20)⟩]

/-! ## layout.GridLayout (layout/grid.go) -/

/-- The struct `GridProps`. -/
structure GridProps where
  Row : Int
  Col : Int
  RowSpan : Int
  ColSpan : Int
deriving DecidableEq, Repr

/-- The struct `GridLayout`; the map `props` is a partial function on
component identities. -/
structure GridLayout where
  Rows : Int
  Cols : Int
  Spacing : Int
  Padding : Int
  props : CompId → Option GridProps

/-- The placement used for a child: the entry of `props`, or
`GridProps{Row: 0, Col: 0, RowSpan: 1, ColSpan: 1}` when there is none, with a
zero span replaced by 1. -/
def GridLayout.propsOf (l : GridLayout) (child : Child) : GridProps :=
  let p0 : GridProps :=
    match l.props child.id with
    | some p => p
    | none => ⟨0, 0, 1, 1⟩
  let p1 : GridProps := if p0.RowSpan = 0 then { p0 with RowSpan := 1 } else p0
  if p1.ColSpan = 0 then { p1 with ColSpan := 1 } else p1

/-- The body of the loop of `GridLayout.Arrange` for one child. -/
def GridLayout.place (l : GridLayout) (startX startY cellW cellH : Int) (child : Child) :
    Child :=
  if !child.Visible then child
  else
    let p := l.propsOf child
    let x := wrap32 (startX + wrap32 (wrap32 p.Col * wrap32 (cellW + l.Spacing)))
    let y := wrap32 (startY + wrap32 (wrap32 p.Row * wrap32 (cellH + l.Spacing)))
    let w := wrap32 (wrap32 (wrap32 p.ColSpan * cellW) +
      wrap32 (wrap32 (wrap64 (p.ColSpan - 1)) * l.Spacing))
    let h := wrap32 (wrap32 (wrap32 p.RowSpan * cellH) +
      wrap32 (wrap32 (wrap64 (p.RowSpan - 1)) * l.Spacing))
    child.SetBounds x y w h

/-- The method `GridLayout.Arrange` on a container with the given bounds and
children: the children after the call, `none` for a division panic. -/
def GridLayout.Arrange (l : GridLayout) (bounds : Rect) (children : List Child) :
    Option (List Child) :=
  let width := wrap32 (bounds.Width - wrap32 (2 * l.Padding))
  let height := wrap32 (bounds.Height - wrap32 (2 * l.Padding))
  let startX := wrap32 (bounds.X + l.Padding)
  let startY := wrap32 (bounds.Y + l.Padding)
  if l.Rows = 0 ∨ l.Cols = 0 then some children
  else
    match div32 (wrap32 (width - wrap32 (wrap32 (wrap64 (l.Cols - 1)) * l.Spacing)))
        (wrap32 l.Cols),
      div32 (wrap32 (height - wrap32 (wrap32 (wrap64 (l.Rows - 1)) * l.Spacing)))
        (wrap32 l.Rows) with
    | some cw, some ch =>
      some (children.map
        (l.place startX startY (if cw < 0 then 0 else cw) (if ch < 0 then 0 else ch)))
    | _, _ => none

/-- The cell size in the words of the specification:
`max(0, (extent - 2*padding - spacing*(cells-1)) / cells)`. -/
def gridCellSpec (extent padding spacing cells : Int) : Int :=
  max 0 ((extent - 2 * padding - spacing * (cells - 1)) / cells)

/-- The bounds of a child at (row, col) with spans (rs, cs) in the words of
the specification. -/
def gridBoundsSpec (l : GridLayout) (bounds : Rect) (row col rs cs : Int) : Rect :=
  ⟨bounds.X + l.Padding +
      col * (gridCellSpec bounds.Width l.Padding l.Spacing l.Cols + l.Spacing),
    bounds.Y + l.Padding +
      row * (gridCellSpec bounds.Height l.Padding l.Spacing l.Rows + l.Spacing),
    cs * gridCellSpec bounds.Width l.Padding l.Spacing l.Cols + (cs - 1) * l.Spacing,
    rs * gridCellSpec bounds.Height l.Padding l.Spacing l.Rows + (rs - 1) * l.Spacing⟩

/-- The 3 x 3 grid of the example, without padding, with the given spacing;
component 1 spans two columns from (0, 0), component 2 sits at (2, 1). -/
def gridExample (spacing : Int) : GridLayout :=
  ⟨3, 3, spacing, 0, fun id =>
    if id = 1 then some ⟨0, 0, 1, 2⟩ else if id = 2 then some ⟨2, 1, 0, 0⟩ else none⟩

/-- The children of the grid example: component 0 has no placement. -/
def gridExampleChildren : List Child :=
  [⟨0, ⟨0, 0, 10, 10⟩, true, fun _ => (10, 10)⟩,
   ⟨1, ⟨0, 0, 10, 10⟩, true, fun _ => (10, 10)⟩,
   ⟨2, ⟨0, 0, 10, 10⟩, true, fun _ => (10, 10)⟩]

/-! ## layout.VBoxLayout and layout.HBoxLayout (layout/layout.go) -/

/-- The struct `VBoxLayout`. -/
structure VBoxLayout where
  Spacing : Int
  Padding : Int
deriving DecidableEq, Repr

/-- The struct `HBoxLayout`. -/
structure HBoxLayout where
  Spacing : Int
  Padding : Int
deriving DecidableEq, Repr

/-- The loop of `VBoxLayout.Arrange` over the children that are left, from the
current value of `y`; the children of the container are distinct components. -/
def VBoxLayout.place (l : VBoxLayout) (x width : Int) : List Child → Int → List Child
  | [], _ => []
  | child :: rest, y =>
    if !child.Visible then child :: l.place x width rest y
    else
      let prefH :=
        if child.GetPreferredSize.2 ≤ 0 then child.Bounds.Height else child.GetPreferredSize.2
      child.SetBounds x y width prefH ::
        l.place x width rest (wrap32 (y + wrap32 (prefH + l.Spacing)))

/-- The method `VBoxLayout.Arrange` on a container with the given bounds and
children: the children after the call. -/
def VBoxLayout.Arrange (l : VBoxLayout) (bounds : Rect) (children : List Child) : List Child :=
  l.place (wrap32 (bounds.X + l.Padding)) (wrap32 (bounds.Width - wrap32 (2 * l.Padding)))
    children (wrap32 (bounds.Y + l.Padding))

/-- The loop of `HBoxLayout.Arrange` over the children that are left, from the
current value of `x`. -/
def HBoxLayout.place (l : HBoxLayout) (y height : Int) : List Child → Int → List Child
  | [], _ => []
  | child :: rest, x =>
    if !child.Visible then child :: l.place y height rest x
    else
      let prefW :=
        if child.GetPreferredSize.1 ≤ 0 then child.Bounds.Width else child.GetPreferredSize.1
      child.SetBounds x y prefW height ::
        l.place y height rest (wrap32 (x + wrap32 (prefW + l.Spacing)))

/-- The method `HBoxLayout.Arrange`: the children after the call. -/
def HBoxLayout.Arrange (l : HBoxLayout) (bounds : Rect) (children : List Child) : List Child :=
  l.place (wrap32 (bounds.Y + l.Padding)) (wrap32 (bounds.Height - wrap32 (2 * l.Padding)))
    children (wrap32 (bounds.X + l.Padding))

/-- The preferred size of the child is a constant (a Button, a Label, a
CheckBox) or the size of its current bounds (`BaseComponent`, `Panel`). -/
def Child.prefConstOrBounds (c : Child) : Prop :=
  (∃ k : Int × Int, ∀ r : Rect, c.preferred r = k) ∨
    (∀ r : Rect, c.preferred r = (r.Width, r.Height))

/-- What a layout may do to a child `c`, leaving `o`: the visibility stays,
and an invisible child stays as it is, bounds included. -/
def Child.keptIfInvisible (c o : Child) : Prop :=
  o.Visible = c.Visible ∧ (c.Visible = false → o = c)

/-- Two children of a layout example: a 40 x 30 component whose preferred size
is its bounds' size, and a component of constant preferred size 60 x 20. -/
def boxExampleChildren : List Child :=
  [⟨0, ⟨0, 0, 40, 30⟩, true, fun r => (r.Width, r.Height)⟩,
   ⟨1, ⟨0, 0, 10, 10⟩, true, fun _ => (60, 20)⟩]

/-- Children of a layout example with an invisible component in the middle. -/
def mixedExampleChildren : List Child :=
  [⟨0, ⟨0, 0, 40, 30⟩, true, fun r => (r.Width, r.Height)⟩,
   ⟨1, ⟨7, 7, 7, 7⟩, false, fun _ => (99, 99)⟩,
   ⟨2, ⟨0, 0, 10, 10⟩, true, fun _ => (60, 20)⟩]

/-- The constructor `NewTextBox`. -/
def NewTextBox (width : Int) : TextBox :=
  { Bounds := ⟨0, 0, width, 24⟩, Visible := true, RepaintRequested := false, Text := [],
    Placeholder := [], ReadOnly := false, isFocused := false, cursorPos := 0, selStart := 0,
    isDragging := false, pendingMouseX := 0, cursorBlink := false, lastBlink := 0 }

/-! ## component.TextArea (component/textarea.go) -/

/-- The struct `component.TextArea` with its embedded `BaseComponent`; `Text`
and `Placeholder` are kept as code points, the font is left out. -/
structure TextArea where
  Bounds : Rect
  Visible : Bool
  RepaintRequested : Bool
  Text : List Int
  Placeholder : List Int
  ReadOnly : Bool
  isFocused : Bool
  cursorPos : Int
  selStart : Int
  isDragging : Bool
  pendingMouseX : Int
  pendingMouseY : Int
  cursorBlink : Bool
  lastBlink : Int
  scrollY : Int
  lineHeight : Int
deriving DecidableEq, Repr

/-- The constructor `NewTextArea`. -/
def NewTextArea (width height : Int) : TextArea :=
  { Bounds := ⟨0, 0, width, height⟩, Visible := true, RepaintRequested := false, Text := [],
    Placeholder := [], ReadOnly := false, isFocused := false, cursorPos := 0, selStart := -1,
    isDragging := false, pendingMouseX := 0, pendingMouseY := 0, cursorBlink := false,
    lastBlink := 0, scrollY := 0, lineHeight := 20 }

/-- The method `BaseComponent.RequestRepaint` on a text area. -/
def TextArea.RequestRepaint (t : TextArea) : TextArea := { t with RepaintRequested := true }

/-- The call `strings.Split(s, "\n")` on code points: the lines between the
runes 10; the result is never empty. -/
def splitLines : List Int → List (List Int)
  | [] => [[]]
  | r :: rs =>
    if r = 10 then [] :: splitLines rs
    else
      match splitLines rs with
      | l :: ls => (r :: l) :: ls
      | [] => [[r]]

/-- One round of the loop of `getLineCol` on the rune `r`. -/
def lineColStep (lc : Int × Int) (r : Int) : Int × Int :=
  if r = 10 then (lc.1 + 1, 0) else (lc.1, lc.2 + 1)

/-- The method `TextArea.getLineCol`: the position is cut at the rune count,
then the runes before it are scanned. -/
def TextArea.getLineCol (t : TextArea) (pos : Int) : Int × Int :=
  let pos1 : Int := if pos > t.Text.length then t.Text.length else pos
  (t.Text.take pos1.toNat).foldl lineColStep (0, 0)

/-- The method `TextArea.getPosFromLineCol`. -/
def TextArea.getPosFromLineCol (t : TextArea) (line col : Int) : Int :=
  let lines := splitLines t.Text
  if line < 0 then 0
  else if line ≥ lines.length then t.Text.length
  else
    let pos : Int := ((lines.take line.toNat).map (fun l => (l.length : Int) + 1)).sum
    let lineLen : Int := (lines.getD line.toNat []).length
    let col1 : Int := if col > lineLen then lineLen else col
    pos + col1

/-- The method `TextArea.ensureCursorVisible`. -/
def TextArea.ensureCursorVisible (t : TextArea) : TextArea :=
  let line := (t.getLineCol t.cursorPos).1
  let cursorTop := wrap32 (5 + wrap32 (wrap32 line * t.lineHeight))
  let cursorBottom := wrap32 (cursorTop + t.lineHeight)
  let viewTop := t.scrollY
  let viewBottom := wrap32 (t.scrollY + t.Bounds.Height)
  let t1 : TextArea :=
    if cursorTop < viewTop then { t with scrollY := cursorTop }
    else if cursorBottom > viewBottom then
      { t with scrollY := wrap32 (cursorBottom - t.Bounds.Height) }
    else t
  if t1.scrollY < 0 then { t1 with scrollY := 0 } else t1

/-- The two clamps of `cursorPos` at the head of the key and character cases
of `TextArea.OnEvent`. -/
def TextArea.clampCursor (t : TextArea) : TextArea :=
  let t1 : TextArea :=
    if t.cursorPos > t.Text.length then { t with cursorPos := t.Text.length } else t
  if t1.cursorPos < 0 then { t1 with cursorPos := 0 } else t1

/-- The `case event.EventMouseWheel` of `TextArea.OnEvent` for a mouse
payload: the new value of `scrollY`. -/
def TextArea.wheelScroll (t : TextArea) (data : MouseEvent) : Int :=
  let scrollAmount := wrap32 (wrap32 data.Delta * -1)
  let s1 := if scrollAmount > 0 then wrap32 (t.scrollY + 40) else wrap32 (t.scrollY - 40)
  let s2 := if s1 < 0 then 0 else s1
  let totalHeight := wrap32 (wrap32 (wrap32 (splitLines t.Text).length * t.lineHeight) + 10)
  let s3 :=
    if s2 > wrap32 (totalHeight - t.Bounds.Height) then wrap32 (totalHeight - t.Bounds.Height)
    else s2
  if s3 < 0 then 0 else s3

/-- The `switch data.VirtualKeyCode` of `TextArea.OnEvent`, entered after the
clamps with `runes = []rune(t.Text)`; `none` is a run-time panic. -/
def TextArea.keyPress (t : TextArea) (rs : List Int) (vk : Nat) : Option (TextArea × Bool) :=
  if vk = 8 then
    if t.cursorPos > 0 then
      match sliceTo rs (t.cursorPos - 1), sliceFrom rs t.cursorPos with
      | some l, some r =>
        some ((({ t with Text := l ++ r, cursorPos := t.cursorPos - 1
                }).ensureCursorVisible).RequestRepaint, true)
      | _, _ => none
    else some (t, true)
  else if vk = 37 then
    if t.cursorPos > 0 then
      some ((({ t with cursorPos := t.cursorPos - 1 }).ensureCursorVisible).RequestRepaint,
        true)
    else some (t, true)
  else if vk = 39 then
    if t.cursorPos < rs.length then
      some ((({ t with cursorPos := t.cursorPos + 1 }).ensureCursorVisible).RequestRepaint,
        true)
    else some (t, true)
  else if vk = 38 then
    if (t.getLineCol t.cursorPos).1 > 0 then
      some ((({ t with cursorPos :=
          t.getPosFromLineCol ((t.getLineCol t.cursorPos).1 - 1) (t.getLineCol t.cursorPos).2
        }).ensureCursorVisible).RequestRepaint, true)
    else some (t, true)
  else if vk = 40 then
    if (t.getLineCol t.cursorPos).1 < ((splitLines t.Text).length : Int) - 1 then
      some ((({ t with cursorPos :=
          t.getPosFromLineCol ((t.getLineCol t.cursorPos).1 + 1) (t.getLineCol t.cursorPos).2
        }).ensureCursorVisible).RequestRepaint, true)
    else some (t, true)
  else if vk = 13 then
    match sliceTo rs t.cursorPos, sliceFrom rs t.cursorPos with
    | some l, some r =>
      some ((({ t with Text := l ++ [10] ++ r, cursorPos := t.cursorPos + 1
              }).ensureCursorVisible).RequestRepaint, true)
    | _, _ => none
  else some (t, false)

/-- The method `TextArea.OnEvent`; `none` is a run-time panic, otherwise the
new state and the returned boolean.  The field `ReadOnly` is not read. -/
def TextArea.OnEvent (t : TextArea) (evt : Event) : Option (TextArea × Bool) :=
  if !t.Visible then some (t, false)
  else
    match evt.Typ with
    | .EventMouseClick =>
      match evt.Data with
      | .mouse data =>
        if t.Bounds.Contains data.X data.Y then
          some (({ t with isFocused := true, pendingMouseX := data.X,
                          pendingMouseY := data.Y }).RequestRepaint, true)
        else if t.isFocused then some (({ t with isFocused := false }).RequestRepaint, false)
        else some (t, false)
      | _ => some (t, false)
    | .EventMouseWheel =>
      match evt.Data with
      | .mouse data => some (({ t with scrollY := t.wheelScroll data }).RequestRepaint, true)
      | _ => some (t, false)
    | .EventKeyPress =>
      if t.isFocused then
        match evt.Data with
        | .key data => t.clampCursor.keyPress t.Text data.VirtualKeyCode
        | _ => some (t, false)
      else some (t, false)
    | .EventChar =>
      if t.isFocused then
        match evt.Data with
        | .key data =>
          if data.Rune ≥ 32 then
            match sliceTo t.Text t.clampCursor.cursorPos,
              sliceFrom t.Text t.clampCursor.cursorPos with
            | some l, some r =>
              some ((({ t.clampCursor with Text := l ++ runeToString data.Rune ++ r,
                                           cursorPos := t.clampCursor.cursorPos + 1
                      }).ensureCursorVisible).RequestRepaint, true)
            | _, _ => none
          else some (t.clampCursor, false)
        | _ => some (t, false)
      else some (t, false)
    | _ => some (t, false)

/-- The position of a cursor lies between 0 and the rune count of the text. -/
def cursorInRange (cursorPos : Int) (text : List Int) : Prop :=
  0 ≤ cursorPos ∧ cursorPos ≤ text.length

instance (cursorPos : Int) (text : List Int) : Decidable (cursorInRange cursorPos text) := by
  unfold cursorInRange; infer_instance

/-- Feeding events to a text box, one `OnEvent` call per event; `none` as soon
as one call panics. -/
def TextBox.run : TextBox → List Event → Option TextBox
  | t, [] => some t
  | t, e :: es =>
    match t.OnEvent e with
    | some (t1, _) => TextBox.run t1 es
    | none => none

/-- A focused read-only text box showing "42", the cursor at the end. -/
def readOnlyBox : TextBox :=
  ⟨⟨0, 0, 100, 24⟩, true, false, runes "42", [], true, true, 2, 2, false, 0, true, 0⟩

/-- A focused visible text area with `ReadOnly` set, showing "ab", the cursor
at the end. -/
def readOnlyArea : TextArea :=
  { NewTextArea 100 100 with Text := runes "ab", ReadOnly := true, isFocused := true,
                             cursorPos := 2 }

/-! ## Event dispatch: component.Panel.OnEvent and window.wndProc -/

mutual
/-- The method `OnEvent` of a component of the tree for one event: the
identities of the components whose `OnEvent` runs, in call order, and the
returned boolean.  A `panel` is `Panel.OnEvent`; a `card` is `Card.OnEvent`,
`return c.InnerPanel.OnEvent(evt)`, which does not test the card's `Visible`;
for any other component the returned boolean is given by `h` (what this
component answers to the event). -/
def Component.OnEvent (h : CompId → Bool) : Component → List CompId × Bool
  | .leaf id _ _ => ([id], h id)
  | .card id _ _ p => (id :: (Component.OnEvent h p).1, (Component.OnEvent h p).2)
  | .panel id _ v cs =>
    if !v then ([id], false)
    else (id :: (Component.dispatch h cs).1, (Component.dispatch h cs).2)
/-- The loop `for i := len(p.Children) - 1; i >= 0; i--` of `Panel.OnEvent`:
the children after the head come first; once one has returned true the loop
is over and the head is not called. -/
def Component.dispatch (h : CompId → Bool) : List Component → List CompId × Bool
  | [] => ([], false)
  | c :: cs =>
    if (Component.dispatch h cs).2 then Component.dispatch h cs
    else ((Component.dispatch h cs).1 ++ (Component.OnEvent h c).1, (Component.OnEvent h c).2)
end

mutual
/-- The identities of a component and of its descendants. -/
def Component.ids : Component → List CompId
  | .leaf id _ _ => [id]
  | .card id _ _ p => id :: Component.ids p
  | .panel id _ _ cs => id :: Component.idsList cs
/-- The identities of the components of a list and of their descendants. -/
def Component.idsList : List Component → List CompId
  | [] => []
  | c :: cs => Component.ids c ++ Component.idsList cs
end

/-- The identity of a component. -/
def Component.id : Component → CompId
  | .leaf id _ _ => id
  | .card id _ _ _ => id
  | .panel id _ _ _ => id

/-- The prefix of a list up to and including the first element that
satisfies `p`. -/
def cutAfterFirst {α : Type} (p : α → Bool) : List α → List α
  | [] => []
  | a :: as => if p a then [a] else a :: cutAfterFirst p as

/-- The test of `wndProc` for the events sent to the focused component:
`EventKeyPress`, `EventKeyRelease`, `EventChar` and `EventMouseWheel`. -/
def EventType.toFocused : EventType → Bool
  | .EventKeyPress => true
  | .EventKeyRelease => true
  | .EventChar => true
  | .EventMouseWheel => true
  | _ => false

/-- The dispatch step of `wndProc` for a converted event: the identities of
the components whose `OnEvent` runs.  `focus` is the component that
`w.FocusComp` points to, `root` is `w.Root`. -/
def wndProcDispatch (h : CompId → Bool) (root : Component) (focus : Option Component)
    (evt : Event) : List CompId :=
  if evt.Typ.toFocused then
    match focus with
    | some c => (c.OnEvent h).1
    | none => []
  else (root.OnEvent h).1

/-- A root panel holding one button-like leaf. -/
def dispatchExample : Component :=
  .panel 0 ⟨0, 0, 100, 100⟩ true [.leaf 1 ⟨10, 10, 20, 20⟩ true]

/-- Three leaves under a visible panel; the answers of `dispatchAnswer` make
the leaf 2 the first one to return true. -/
def dispatchThree : Component :=
  .panel 0 ⟨0, 0, 100, 100⟩ true
    [.leaf 1 ⟨0, 0, 10, 10⟩ true, .leaf 2 ⟨0, 0, 10, 10⟩ true, .leaf 3 ⟨0, 0, 10, 10⟩ true]

/-- Only the component 2 consumes the event. -/
def dispatchAnswer (i : CompId) : Bool := decide (i = 2)

/-- A card (id 5, as `NewCard(200, 150, ...)` moved to (20, 20)) whose inner
panel (id 6) holds two buttons (ids 7 and 8), as the cards of the sysmon
example do. -/
def focusedCard : Component :=
  .card 5 ⟨20, 20, 200, 150⟩ true
    (.panel 6 ⟨30, 55, 180, 105⟩ true
      [.leaf 7 ⟨30, 55, 180, 30⟩ true, .leaf 8 ⟨30, 90, 180, 30⟩ true])

/-! ## Render and the RepaintRequested flag -/

/-- The method `Button.Render` as far as the button is concerned: the canvas
calls draw and leave the button alone, the last statement clears the flag. -/
def Button.Render (b : Button) : Button :=
  if !b.Visible then b else { b with RepaintRequested := false }

/-- The method `CheckBox.Render` as far as the check box is concerned. -/
def CheckBox.Render (c : CheckBox) : CheckBox :=
  if !c.Visible then c else { c with RepaintRequested := false }

/-- The struct `component.ProgressBar`: the embedded `BaseComponent`; the
value and the colours are only read by `Render`. -/
structure ProgressBar where
  Bounds : Rect
  Visible : Bool
  RepaintRequested : Bool
deriving DecidableEq, Repr

/-- The constructor `NewProgressBar`. -/
def NewProgressBar (width height : Int) : ProgressBar :=
  { Bounds := ⟨0, 0, width, height⟩, Visible := true, RepaintRequested := false }

/-- The method `BaseComponent.RequestRepaint` on a progress bar (`SetValue`
ends with it). -/
def ProgressBar.RequestRepaint (p : ProgressBar) : ProgressBar :=
  { p with RepaintRequested := true }

/-- The method `ProgressBar.Render` as far as the progress bar is concerned:
after the visibility guard every statement is a canvas call or the
assignment of a local variable; no field is written. -/
def ProgressBar.Render (p : ProgressBar) : ProgressBar :=
  if !p.Visible then p else p

/-- The method `LineChart.Render` as far as the chart is concerned: it
returns after the border when there are fewer than two samples and after the
lines otherwise; no field is written on either path. -/
def LineChart.Render {α : Type} (l : LineChart α) : LineChart α :=
  if !l.Visible then l
  else if l.Data.length < 2 then l
  else l

/-- The `BaseComponent` of the inner panel of a card; its children have no
part in the flags. -/
structure PanelBase where
  Bounds : Rect
  Visible : Bool
  RepaintRequested : Bool
deriving DecidableEq, Repr

/-- The method `Panel.Render` on the `BaseComponent` of the panel: the flag
of a visible panel is cleared after the children are rendered. -/
def PanelBase.Render (p : PanelBase) : PanelBase :=
  if !p.Visible then p else { p with RepaintRequested := false }

/-- The struct `component.Card`. -/
structure Card where
  Bounds : Rect
  Visible : Bool
  RepaintRequested : Bool
  InnerPanel : PanelBase
deriving DecidableEq, Repr

/-- The constructor `NewCard`. -/
def NewCard (width height : Int) : Card :=
  { Bounds := ⟨0, 0, width, height⟩, Visible := true, RepaintRequested := false,
    InnerPanel := ⟨⟨10, 35, wrap32 (width - 20), wrap32 (height - 45)⟩, true, false⟩ }

/-- The method `Card.Render` as far as the card is concerned: the inner panel
is moved and rendered; the flag of the card itself is not written. -/
def Card.Render (c : Card) : Card :=
  if !c.Visible then c
  else
    let inner : PanelBase :=
      { c.InnerPanel with Bounds :=
          ⟨wrap32 (c.Bounds.X + 10), wrap32 (c.Bounds.Y + 35),
            wrap32 (c.Bounds.Width - 20), wrap32 (c.Bounds.Height - 45)⟩ }
    { c with InnerPanel := inner.Render }

/-! ## Layout examples with a padding larger than the container -/

/-- A flex row that stretches its children, with padding 10 and no spacing. -/
def stretchExample : FlexLayout :=
  ⟨.FlexRow, .FlexStart, .AlignStretch, 0, 10, fun _ => none⟩

/-! ## The caret line and the viewport of a text area -/

/-- The caret's line lies inside the viewport, in the words of the
specification: with `line` the line index of the caret,
`scrollY <= 5 + line*lineHeight`,
`5 + (line+1)*lineHeight <= scrollY + Bounds.Height` and `scrollY >= 0`. -/
def TextArea.caretLineVisible (t : TextArea) : Prop :=
  t.scrollY ≤ 5 + (t.getLineCol t.cursorPos).1 * t.lineHeight ∧
  5 + ((t.getLineCol t.cursorPos).1 + 1) * t.lineHeight ≤ t.scrollY + t.Bounds.Height ∧
  0 ≤ t.scrollY

instance (t : TextArea) : Decidable t.caretLineVisible := by
  unfold TextArea.caretLineVisible; infer_instance

/-- A focused text area of height 60 showing four lines, scrolled back to the
top, the caret at the end of the text. -/
def fourLineArea : TextArea :=
  { NewTextArea 100 60 with Text := runes "a\nb\nc\nd", isFocused := true, cursorPos := 7 }

/-! ## Mouse wheel scrolling in the words of the specification -/

/-- The scroll offset after a wheel event in the words of the specification:
a step of 40 (down, that is to a larger offset, for a negative delta, up
otherwise), then the clamp to `[0, contentHeight - viewHeight]` with
`contentHeight = lines * lineHeight + 10`. -/
def wheelScrollSpec (scrollY delta lines lineHeight viewHeight : Int) : Int :=
  max 0 (min (max 0 (if delta < 0 then scrollY + 40 else scrollY - 40))
    (lines * lineHeight + 10 - viewHeight))

/-! ## Render of the text widgets (component/textbox.go, component/textarea.go)

The canvas is an external collaborator: `measure` is the width that
`canvas.MeasureText` returns for a string (given by its code points), `textH`
the height it returns for "Tg", and `now` the value of
`time.Now().UnixNano()`.  Drawing calls change the canvas only. -/

/-- The loop `for i := 0; i <= len(runes); i++` of `TextBox.getIndexFromX`
over the values of `i` that are left; `none` is the panic of `runes[:i-1]`. -/
def TextBox.indexLoop (measure : List Int → Int) (rs : List Int) (localX : Int) :
    List Nat → Option Int
  | [] => some rs.length
  | i :: is =>
    if measure (rs.take i) > localX then
      match sliceTo rs ((i : Int) - 1) with
      | none => none
      | some pre =>
        if wrap32 (localX - measure pre) < wrap32 (measure (rs.take i) - localX) then
          some ((i : Int) - 1)
        else some (i : Int)
    else TextBox.indexLoop measure rs localX is

/-- The method `TextBox.getIndexFromX`. -/
def TextBox.getIndexFromX (t : TextBox) (measure : List Int → Int) (x : Int) : Option Int :=
  let textX := wrap32 (t.Bounds.X + 10)
  let localX := wrap32 (x - textX)
  if localX ≤ 0 then some 0
  else if t.Text.length = 0 then some 0
  else TextBox.indexLoop measure t.Text localX (List.range (t.Text.length + 1))

/-- The block "Handle pending mouse interaction" of `TextBox.Render`. -/
def TextBox.resolvePending (t : TextBox) (measure : List Int → Int) : Option TextBox :=
  if t.isDragging || t.pendingMouseX != 0 then
    if t.isDragging then
      match t.getIndexFromX measure t.pendingMouseX with
      | none => none
      | some idx =>
        if t.selStart = -1 then some { t with cursorPos := idx, selStart := idx }
        else some { t with cursorPos := idx }
    else if t.pendingMouseX != 0 && t.selStart == -1 then
      match t.getIndexFromX measure t.pendingMouseX with
      | none => none
      | some idx => some { t with cursorPos := idx, selStart := idx, pendingMouseX := 0 }
    else some t
  else some t

/-- The block "Draw Selection Highlight" of `TextBox.Render`: it writes no
field; `false` is the panic of one of its two slice expressions
`runes[:start]` and `runes[:end]`.  Go checks the upper index of a slice
expression against the capacity of `runes`, not against its length: the
slice `[]rune(t.Text)` has the capacity `len + spare`, where the spare
capacity is chosen by the Go runtime (for a text of at most 32 runes that
does not escape, the capacity is 32). -/
def TextBox.highlightReturns (t : TextBox) (spare : Nat) : Bool :=
  if t.isFocused && t.selStart != t.cursorPos && t.selStart != -1 then
    let start := if t.selStart > t.cursorPos then t.cursorPos else t.selStart
    let stop := if t.selStart > t.cursorPos then t.selStart else t.cursorPos
    let start1 := if start < 0 then 0 else start
    let stop1 := if stop > t.Text.length then (t.Text.length : Int) else stop
    decide (0 ≤ start1 ∧ start1 ≤ (t.Text.length : Int) + spare) &&
      decide (0 ≤ stop1 ∧ stop1 ≤ (t.Text.length : Int) + spare)
  else true

/-- The blink step of the block "Draw Cursor" of `TextBox.Render`. -/
def TextBox.blink (t : TextBox) (now : Int) : TextBox :=
  if t.isFocused then
    if wrap64 (now - t.lastBlink) > 500000000 then
      ({ t with cursorBlink := !t.cursorBlink, lastBlink := now }).RequestRepaint
    else t
  else t

/-- The method `TextBox.Render` as far as the text box is concerned; `none`
is a run-time panic.  `spare` is the spare capacity of the slice
`[]rune(t.Text)` of the highlight block. -/
def TextBox.Render (t : TextBox) (measure : List Int → Int) (spare : Nat) (now : Int) :
    Option TextBox :=
  if !t.Visible then some t
  else
    match t.resolvePending measure with
    | none => none
    | some t1 =>
      if t1.highlightReturns spare then some { t1.blink now with RepaintRequested := false }
      else none

/-- The function `abs` of textarea.go on `int32`. -/
def absInt32 (x : Int) : Int := if x < 0 then wrap32 (-x) else x

/-- One round of the loop "Linear search for X" of `getIndexFromXY`: the
state is `(bestCol, bestDist)`. -/
def bestColStep (measure : List Int → Int) (rs : List Int) (localX : Int)
    (best : Int × Int) (i : Nat) : Int × Int :=
  if absInt32 (wrap32 (measure (rs.take i) - localX)) < best.2 then
    ((i : Int), absInt32 (wrap32 (measure (rs.take i) - localX)))
  else best

/-- The method `TextArea.getIndexFromXY`: the index and the text area, whose
`lineHeight` is written by `getLineHeight`; `none` is a run-time panic (a
division by zero or a negative line index). -/
def TextArea.getIndexFromXY (t : TextArea) (measure : List Int → Int) (textH : Int)
    (x y : Int) : Option (Int × TextArea) :=
  let localX := wrap32 (x - wrap32 (t.Bounds.X + 5))
  let localY := wrap32 (wrap32 (y - wrap32 (t.Bounds.Y + 5)) + t.scrollY)
  if localY < 0 then some (0, t)
  else
    let t1 : TextArea := { t with lineHeight := wrap32 (textH + 4) }
    match div32 localY t1.lineHeight with
    | none => none
    | some lineIndex =>
      let lines := splitLines t1.Text
      if lineIndex ≥ lines.length then some ((t1.Text.length : Int), t1)
      else if lineIndex < 0 then none
      else
        let rs := lines.getD lineIndex.toNat []
        let best := (List.range (rs.length + 1)).foldl (bestColStep measure rs localX)
          (0, 999999)
        let pos : Int := ((lines.take lineIndex.toNat).map (fun l => (l.length : Int) + 1)).sum
        some (pos + best.1, t1)

/-- The block "Check for pending mouse click" of `TextArea.Render`. -/
def TextArea.resolvePending (t : TextArea) (measure : List Int → Int) (textH : Int) :
    Option TextArea :=
  if t.pendingMouseX != 0 || t.pendingMouseY != 0 then
    match t.getIndexFromXY measure textH t.pendingMouseX t.pendingMouseY with
    | none => none
    | some (idx, t1) => some { t1 with cursorPos := idx, pendingMouseX := 0, pendingMouseY := 0 }
  else some t

/-- The blink step of the block "Draw Cursor" of `TextArea.Render`. -/
def TextArea.blink (t : TextArea) (now : Int) : TextArea :=
  if t.isFocused then
    if wrap64 (now - t.lastBlink) > 500000000 then
      ({ t with cursorBlink := !t.cursorBlink, lastBlink := now }).RequestRepaint
    else t
  else t

/-- The method `TextArea.Render` as far as the text area is concerned: the
pending click, `getLineHeight`, the blink step and the flag; the slices of the
cursor block are guarded and cannot panic. -/
def TextArea.Render (t : TextArea) (measure : List Int → Int) (textH now : Int) :
    Option TextArea :=
  if !t.Visible then some t
  else
    match t.resolvePending measure textH with
    | none => none
    | some t1 =>
      some { ({ t1 with lineHeight := wrap32 (textH + 4) } : TextArea).blink now with
        RepaintRequested := false }

/-- A canvas whose font is 8 pixels wide. -/
def monoMeasure (rs : List Int) : Int := 8 * rs.length

/-- A focused text box showing "hello" after a click at x = 30 and the release
of the button, before the next Render. -/
def clickedBox : TextBox :=
  { NewTextBox 100 with Text := runes "hello", isFocused := true, cursorBlink := true,
                        selStart := -1, pendingMouseX := 30, RepaintRequested := true }

/-- A text area showing "ab" and a second line "cd" after a click at
(21, 30), before the next Render. -/
def clickedArea : TextArea :=
  { NewTextArea 100 100 with Text := runes "ab\ncd", isFocused := true, pendingMouseX := 21,
                             pendingMouseY := 30, RepaintRequested := true }

/-! ## Flex: the justify-content policies in the words of the specification -/

/-- The main-axis position of the first visible child when the total grow
factor is 0 and the leftover is `L > 0`, in the words of the specification:
the start `S` for start and space-between, `S + L` for end, `S + L/2` for
center; space-around applies half of `L/n`. -/
def flexFirstSpec (j : FlexJustify) (S L n : Int) : Int :=
  match j with
  | .FlexStart => S
  | .FlexEnd => S + L
  | .FlexCenter => S + L / 2
  | .FlexSpaceBetween => S
  | .FlexSpaceAround => S + L / n / 2

/-- The additional gap between two consecutive children, in the words of the
specification: `L/(n-1)` for space-between when `n > 1`, `L/n` for
space-around, none for start, end and center. -/
def flexGapSpec (j : FlexJustify) (L n : Int) : Int :=
  match j with
  | .FlexSpaceBetween => if n > 1 then L / (n - 1) else 0
  | .FlexSpaceAround => L / n
  | _ => 0

/-- A flex row without grow factors, with spacing 5 and the given policy. -/
def justifyExample (j : FlexJustify) : FlexLayout :=
  ⟨.FlexRow, j, .AlignStart, 5, 0, fun _ => none⟩

/-! ## component.Panel and component.Card with the state of their children -/

/-- The struct `component.Panel` with children of one widget type `α` (the
layout and the colour have no part in the event handling). -/
structure PanelOf (α : Type) where
  Bounds : Rect
  Visible : Bool
  RepaintRequested : Bool
  Children : List α

/-- The loop `for i := len(p.Children) - 1; i >= 0; i--` of `Panel.OnEvent`
with the state of the children: `step` is the `OnEvent` method of a child; the
children after the head are called first, and once one of them has returned
true the head is left alone. -/
def PanelOf.dispatch {α κ : Type} (step : α → Event → Handled α κ) (evt : Event) :
    List α → Handled (List α) κ
  | [] => ⟨[], [], false⟩
  | c :: cs =>
    if (PanelOf.dispatch step evt cs).ret then
      ⟨c :: (PanelOf.dispatch step evt cs).state, (PanelOf.dispatch step evt cs).calls, true⟩
    else
      ⟨(step c evt).state :: (PanelOf.dispatch step evt cs).state,
        (PanelOf.dispatch step evt cs).calls ++ (step c evt).calls, (step c evt).ret⟩

/-- The method `Panel.OnEvent` with the state of the children. -/
def PanelOf.OnEvent {α κ : Type} (step : α → Event → Handled α κ) (p : PanelOf α)
    (evt : Event) : Handled (PanelOf α) κ :=
  if !p.Visible then ⟨p, [], false⟩
  else
    ⟨{ p with Children := (PanelOf.dispatch step evt p.Children).state },
      (PanelOf.dispatch step evt p.Children).calls, (PanelOf.dispatch step evt p.Children).ret⟩

/-- The struct `component.Card` with the children of its inner panel. -/
structure CardOf (α : Type) where
  Bounds : Rect
  Visible : Bool
  RepaintRequested : Bool
  InnerPanel : PanelOf α

/-- The method `Card.OnEvent`: `return c.InnerPanel.OnEvent(evt)`. -/
def CardOf.OnEvent {α κ : Type} (step : α → Event → Handled α κ) (c : CardOf α)
    (evt : Event) : Handled (CardOf α) κ :=
  ⟨{ c with InnerPanel := (c.InnerPanel.OnEvent step evt).state },
    (c.InnerPanel.OnEvent step evt).calls, (c.InnerPanel.OnEvent step evt).ret⟩

/-- A visible button at (10, 35, 80, 30) whose OnClick is the handler 7. -/
def cardButton : Button := ⟨⟨10, 35, 80, 30⟩, true, false, [], some 7, false, false⟩

/-- A card of size 200 x 100 after `SetVisible(false)`: its inner panel is
still visible and holds the button. -/
def hiddenCard : CardOf Button :=
  ⟨⟨0, 0, 200, 100⟩, false, false, ⟨⟨10, 35, 180, 55⟩, true, false, [cardButton]⟩⟩

/-- A visible panel whose only child is an invisible leaf at (10, 10, 20, 20). -/
def hiddenLeafPanel : Component :=
  .panel 0 ⟨0, 0, 100, 100⟩ true [.leaf 1 ⟨10, 10, 20, 20⟩ false]

/-- A visible panel whose only child is an invisible panel at (10, 10, 20, 20)
holding a visible leaf. -/
def hiddenPanelPanel : Component :=
  .panel 0 ⟨0, 0, 100, 100⟩ true
    [.panel 1 ⟨10, 10, 20, 20⟩ false [.leaf 2 ⟨10, 10, 20, 20⟩ true]]

/-! ## Exchanging the axes -/

/-- The rectangle with the axes exchanged: (y, x, h, w) for (x, y, w, h). -/
def Rect.transpose (r : Rect) : Rect := ⟨r.Y, r.X, r.Height, r.Width⟩

/-- The child with the axes exchanged: its bounds are transposed, and its
preferred width is the preferred height the original child would report (and
the other way round). -/
def Child.transpose (c : Child) : Child :=
  { c with
    Bounds := c.Bounds.transpose,
    preferred := fun r => ((c.preferred r.transpose).2, (c.preferred r.transpose).1) }

/-! ## Lines and positions of a text area -/

/-- The rune index at which the line `l` of the split text starts: the sum of
`len(line) + 1` over the lines before it (the loop of `getPosFromLineCol`). -/
def lineStart (lines : List (List Int)) (l : Nat) : Nat :=
  ((lines.take l).map (fun x => x.length + 1)).sum

/-- A text area showing the line "a" followed by the line "b". -/
def twoLineArea : TextArea := { NewTextArea 100 100 with Text := runes "a\nb" }

/-! ## render.Canvas (render/render.go) -/

/-- The struct `render.Canvas` as far as `FillRect` and `SetPixel` use it:
`Buffer` is a slice of `bufLen` pixels, seen as a function on its indices. -/
structure Canvas where
  Width : Int
  Height : Int
  bufLen : Int
  Buffer : Int → Nat

/-- The assignment `c.Buffer[i] = color`; `none` is the run-time panic for an
index out of range. -/
def Canvas.store (c : Canvas) (i : Int) (color : Nat) : Option Canvas :=
  if 0 ≤ i ∧ i < c.bufLen then some { c with Buffer := Function.update c.Buffer i color }
  else none

/-- The inner loop `for col := int32(0); col < w; col++` of `FillRect` over
the values of `col` that are left. -/
def Canvas.fillCols (color : Nat) (start : Int) : List Nat → Canvas → Option Canvas
  | [], c => some c
  | col :: cols, c =>
    match c.store (wrap32 (start + col)) color with
    | none => none
    | some c1 => Canvas.fillCols color start cols c1

/-- The outer loop `for row := int32(0); row < h; row++` of `FillRect` over
the values of `row` that are left; `start` is computed in `int32`. -/
def Canvas.fillRows (color : Nat) (x y w : Int) : List Nat → Canvas → Option Canvas
  | [], c => some c
  | row :: rows, c =>
    match Canvas.fillCols color (wrap32 (wrap32 (wrap32 (y + row) * c.Width) + x))
        (List.range w.toNat) c with
    | none => none
    | some c1 => Canvas.fillRows color x y w rows c1

/-- The method `Canvas.FillRect`; `none` is a run-time panic. -/
def Canvas.FillRect (c : Canvas) (x y w h : Int) (color : Nat) : Option Canvas :=
  if x ≥ c.Width ∨ y ≥ c.Height then some c
  else if wrap32 (x + w) < 0 ∨ wrap32 (y + h) < 0 then some c
  else
    let w1 := if x < 0 then wrap32 (w + x) else w
    let x1 := if x < 0 then 0 else x
    let h1 := if y < 0 then wrap32 (h + y) else h
    let y1 := if y < 0 then 0 else y
    let w2 := if wrap32 (x1 + w1) > c.Width then wrap32 (c.Width - x1) else w1
    let h2 := if wrap32 (y1 + h1) > c.Height then wrap32 (c.Height - y1) else h1
    Canvas.fillRows color x1 y1 w2 (List.range h2.toNat) c

/-- The method `Canvas.SetPixel`: the index is computed in `int`. -/
def Canvas.SetPixel (c : Canvas) (x y : Int) (color : Nat) : Option Canvas :=
  if x < 0 ∨ x ≥ c.Width ∨ y < 0 ∨ y ≥ c.Height then some c
  else c.store (wrap64 (wrap64 (y * c.Width) + x)) color

/-- The pixel (px, py) lies in the rectangle [x, x+w) x [y, y+h) and on the
canvas. -/
def Canvas.inRect (c : Canvas) (x y w h px py : Int) : Prop :=
  x ≤ px ∧ px < x + w ∧ 0 ≤ px ∧ px < c.Width ∧ y ≤ py ∧ py < y + h ∧ 0 ≤ py ∧ py < c.Height

/-- A black canvas of 65536 x 32769 pixels. -/
def bigCanvas : Canvas := ⟨65536, 32769, 65536 * 32769, fun _ => 0⟩

/-- A black canvas of 4 x 3 pixels. -/
def smallCanvas : Canvas := ⟨4, 3, 12, fun _ => 0⟩

/-! ## Inputs outside the int32 range, and a text area with a stale caret -/

/-- The constructor `NewGridLayout`: no spacing, no padding, an empty map of
placements. -/
def NewGridLayout (rows cols : Int) : GridLayout := ⟨rows, cols, 0, 0, fun _ => none⟩

/-- The method `TextArea.OnFocus`. -/
def TextArea.OnFocus (t : TextArea) : TextArea :=
  ({ t with isFocused := true }).RequestRepaint

/-- Feeding events to a text area, one `OnEvent` call per event; `none` as
soon as one call panics. -/
def TextArea.run : TextArea → List Event → Option TextArea
  | t, [] => some t
  | t, e :: es =>
    match t.OnEvent e with
    | some (t1, _) => TextArea.run t1 es
    | none => none

/-- The text area `NewTextArea(100, 60)` after `OnFocus` and three Enter
keys: three empty lines above the caret, which sits on line 3; the view has
been scrolled to 25. -/
def scrolledArea : TextArea :=
  { NewTextArea 100 60 with Text := [10, 10, 10], isFocused := true, cursorPos := 3,
                            scrollY := 25, RepaintRequested := true }

/-- A text area of height 100 showing ten empty lines (nine newlines), not
scrolled. -/
def tenLineArea : TextArea :=
  { NewTextArea 100 100 with Text := List.replicate 9 10 }

/-! ## Render of Label, Image, Panel and Card with their children
(component/label.go, image.go, panel.go, card.go)

As for the other widgets, the drawing calls change the canvas only. -/

/-- The struct `component.Label` with its embedded `BaseComponent`; the font
is left out. -/
structure Label where
  Bounds : Rect
  Visible : Bool
  RepaintRequested : Bool
  Text : List Int
  FgColor : Nat
deriving DecidableEq, Repr

/-- The method `Label.Render` as far as the label is concerned. -/
def Label.Render (l : Label) : Label :=
  if !l.Visible then l else { l with RepaintRequested := false }

/-- The struct `component.Image` with its embedded `BaseComponent`:
`hasPixels` says that the field `rgba` is not nil; the pixels themselves are
only read by `Render`. -/
structure Image where
  Bounds : Rect
  Visible : Bool
  RepaintRequested : Bool
  hasPixels : Bool
  FilePath : List Int
deriving DecidableEq, Repr

/-- The method `Image.Render` as far as the image is concerned: the loops
read the pixels (inside the decoded picture, whose bounds start at (0, 0))
and call `canvas.SetPixel`; the last statement clears the flag. -/
def Image.Render (c : Image) : Image :=
  if !c.Visible || !c.hasPixels then c else { c with RepaintRequested := false }

/-- The methods of the interface `Component` that a container calls on a
child of type `α`, directly or through its layout: `Render` and `SetBounds`
(`none` is a run-time panic; `SetBounds` of a nested Panel runs a layout),
and, as the record `toChild`, the identity of the child together with
`GetBounds`, `IsVisible` and `GetPreferredSize`. -/
structure ComponentOps (α : Type) where
  Render : α → Option α
  SetBounds : α → Rect → Option α
  toChild : α → Child

/-- The implementations of the interface `layout.Layout`. -/
inductive LayoutImpl where
  | vbox (l : VBoxLayout)
  | hbox (l : HBoxLayout)
  | flex (l : FlexLayout)
  | grid (l : GridLayout)

/-- The method `Arrange` of the layout on the children seen as records: the
arguments of the `SetBounds` calls are the bounds of the records after the
call; `none` is a run-time panic. -/
def LayoutImpl.Arrange : LayoutImpl → Rect → List Child → Option (List Child)
  | .vbox l, bounds, cs => some (l.Arrange bounds cs)
  | .hbox l, bounds, cs => some (l.Arrange bounds cs)
  | .flex l, bounds, cs => l.Arrange bounds cs
  | .grid l, bounds, cs => l.Arrange bounds cs

/-- Whether `Arrange` reaches its loop over the children, in which it calls
`SetBounds` on every visible child: `GridLayout.Arrange` returns before the
loop when `Rows` or `Cols` is 0. -/
def LayoutImpl.reachesLoop : LayoutImpl → Bool
  | .grid l => !(decide (l.Rows = 0 ∨ l.Cols = 0))
  | _ => true

/-- The `SetBounds` calls of a layout on the children themselves: every
visible child receives the bounds its record was given; the children are
distinct components, so the calls do not interfere. -/
def setChildBounds {α : Type} (ops : ComponentOps α) : List α → List Child → Option (List α)
  | a :: as, c :: cs =>
    if (ops.toChild a).Visible then
      match ops.SetBounds a c.Bounds, setChildBounds ops as cs with
      | some a1, some as1 => some (a1 :: as1)
      | _, _ => none
    else
      match setChildBounds ops as cs with
      | some as1 => some (a :: as1)
      | none => none
  | as, _ => some as

/-- The loop `for _, child := range p.Children { child.Render(canvas) }`. -/
def renderChildren {α : Type} (ops : ComponentOps α) : List α → Option (List α)
  | [] => some []
  | a :: as =>
    match ops.Render a, renderChildren ops as with
    | some a1, some as1 => some (a1 :: as1)
    | _, _ => none

/-- The struct `component.Panel` with its children, of type `α`, and its
layout (`none` is the nil interface value); the colour is left out. -/
structure LayoutPanel (α : Type) where
  Bounds : Rect
  Visible : Bool
  RepaintRequested : Bool
  Children : List α
  Layout : Option LayoutImpl

/-- The constructor `NewPanel`. -/
def NewLayoutPanel (α : Type) (x y w h : Int) : LayoutPanel α :=
  { Bounds := ⟨x, y, w, h⟩, Visible := true, RepaintRequested := false, Children := [],
    Layout := none }

/-- The method `Panel.LayoutChildren`. -/
def LayoutPanel.LayoutChildren {α : Type} (ops : ComponentOps α) (p : LayoutPanel α) :
    Option (LayoutPanel α) :=
  match p.Layout with
  | none => some p
  | some l =>
    match l.Arrange p.Bounds (p.Children.map ops.toChild) with
    | none => none
    | some arranged =>
      if l.reachesLoop then
        match setChildBounds ops p.Children arranged with
        | some cs => some { p with Children := cs }
        | none => none
      else some p

/-- The method `Panel.SetBounds`: `BaseComponent.SetBounds`, then
`LayoutChildren`. -/
def LayoutPanel.SetBounds {α : Type} (ops : ComponentOps α) (p : LayoutPanel α) (r : Rect) :
    Option (LayoutPanel α) :=
  ({ p with Bounds := r }).LayoutChildren ops

/-- The method `Panel.SetLayout`. -/
def LayoutPanel.SetLayout {α : Type} (ops : ComponentOps α) (p : LayoutPanel α)
    (l : LayoutImpl) : Option (LayoutPanel α) :=
  ({ p with Layout := some l }).LayoutChildren ops

/-- The method `Panel.Add`. -/
def LayoutPanel.Add {α : Type} (ops : ComponentOps α) (p : LayoutPanel α) (c : α) :
    Option (LayoutPanel α) :=
  ({ p with Children := p.Children ++ [c] }).LayoutChildren ops

/-- The method `Panel.Render`. -/
def LayoutPanel.Render {α : Type} (ops : ComponentOps α) (p : LayoutPanel α) :
    Option (LayoutPanel α) :=
  if !p.Visible then some p
  else
    match renderChildren ops p.Children with
    | some cs => some { p with Children := cs, RepaintRequested := false }
    | none => none

/-- The struct `component.Card` with its inner panel, the children of that
panel and its layout; title and colour are left out. -/
structure LayoutCard (α : Type) where
  Bounds : Rect
  Visible : Bool
  RepaintRequested : Bool
  InnerPanel : LayoutPanel α

/-- The constructor `NewCard`: the inner panel gets the layout
`&layout.VBoxLayout{Spacing: 5}`, which has no child to arrange yet. -/
def NewLayoutCard (α : Type) (width height : Int) : LayoutCard α :=
  { Bounds := ⟨0, 0, width, height⟩, Visible := true, RepaintRequested := false,
    InnerPanel :=
      { NewLayoutPanel α 10 35 (wrap32 (width - 20)) (wrap32 (height - 45)) with
        Layout := some (.vbox ⟨5, 0⟩) } }

/-- The method `Card.Add`. -/
def LayoutCard.Add {α : Type} (ops : ComponentOps α) (c : LayoutCard α) (comp : α) :
    Option (LayoutCard α) :=
  match c.InnerPanel.Add ops comp with
  | some p => some { c with InnerPanel := p }
  | none => none

/-- The method `SetBounds` of a card, which is `BaseComponent.SetBounds`: the
inner panel is left where it is. -/
def LayoutCard.SetBounds {α : Type} (c : LayoutCard α) (r : Rect) : LayoutCard α :=
  { c with Bounds := r }

/-- The bounds that `Card.Render` gives the inner panel. -/
def LayoutCard.innerBounds {α : Type} (c : LayoutCard α) : Rect :=
  ⟨wrap32 (c.Bounds.X + 10), wrap32 (c.Bounds.Y + 35), wrap32 (c.Bounds.Width - 20),
    wrap32 (c.Bounds.Height - 45)⟩

/-- The method `Card.Render`: after the drawing calls,
`c.InnerPanel.SetBounds(...)` and `c.InnerPanel.Render(canvas)`. -/
def LayoutCard.Render {α : Type} (ops : ComponentOps α) (c : LayoutCard α) :
    Option (LayoutCard α) :=
  if !c.Visible then some c
  else
    match c.InnerPanel.SetBounds ops c.innerBounds with
    | none => none
    | some p1 =>
      match p1.Render ops with
      | some p2 => some { c with InnerPanel := p2 }
      | none => none

/-- A Button as a child of a container; `pref` is the value of its
`GetPreferredSize` (the measured text plus (20, 10)). -/
def buttonOps (pref : Int × Int) : ComponentOps Button :=
  { Render := fun b => some b.Render,
    SetBounds := fun b r => some { b with Bounds := r },
    toChild := fun b => ⟨0, b.Bounds, b.Visible, fun _ => pref⟩ }

/-- The button of the card example, as `NewButton` leaves it for a measured
text of 16 x 14 pixels: bounds (0, 0, 36, 24). -/
def plainButton : Button := ⟨⟨0, 0, 36, 24⟩, true, false, [], none, false, false⟩

/-- A focused text box showing "ab" whose anchor 3 and cursor 4 lie behind
the text (the application has shortened the exported field `Text`). -/
def staleBox : TextBox :=
  { NewTextBox 100 with Text := runes "ab", isFocused := true, selStart := 3, cursorPos := 4 }

/-! ## Theorems -/

theorem wrap32_of_isInt32 {v : Int} (h : isInt32 v) : wrap32 v = v := by
  unfold isInt32 at h
  unfold wrap32
  omega

theorem Rect.Contains_iff (r : Rect) (x y : Int) :
    r.Contains x y = true ↔
      r.X ≤ x ∧ x < wrap32 (r.X + r.Width) ∧ r.Y ≤ y ∧ y < wrap32 (r.Y + r.Height) := by
  simp [Rect.Contains, and_assoc]

/-- C1 (counterexample): the rectangle at X = 2147483647 of width 1 and the
point (2147483647, 0) lie in the half-open ranges, yet Contains is false:
the sum X + Width wraps around in int32. -/
theorem C1_Contains_wraps :
    Rect.wellTyped ⟨2147483647, 0, 1, 1⟩ ∧
    ((2147483647 : Int) ≤ 2147483647 ∧ (2147483647 : Int) < 2147483647 + 1 ∧
      (0 : Int) ≤ 0 ∧ (0 : Int) < 0 + 1) ∧
    Rect.Contains ⟨2147483647, 0, 1, 1⟩ 2147483647 0 = false := by
  decide

/-- C1 (amended): for every Rect whose sums X + Width and Y + Height are
int32 values, Contains(x, y) holds exactly when X <= x < X + Width and
Y <= y < Y + Height; it is false at x = X + Width and at y = Y + Height. -/
theorem C1_Contains_half_open (r : Rect) (x y : Int)
    (hw : isInt32 (r.X + r.Width)) (hh : isInt32 (r.Y + r.Height)) :
    (r.Contains x y = true ↔
      r.X ≤ x ∧ x < r.X + r.Width ∧ r.Y ≤ y ∧ y < r.Y + r.Height) ∧
    r.Contains (r.X + r.Width) y = false ∧
    r.Contains x (r.Y + r.Height) = false := by
  refine ⟨?_, ?_, ?_⟩
  · rw [Rect.Contains_iff, wrap32_of_isInt32 hw, wrap32_of_isInt32 hh]
  · rw [← Bool.not_eq_true, Rect.Contains_iff, wrap32_of_isInt32 hw]
    omega
  · rw [← Bool.not_eq_true, Rect.Contains_iff, wrap32_of_isInt32 hh]
    omega

/-- C1 (witness): the amended statement at the rectangle (10, 20, 0, 5), of
zero width, and the point (10, 22). -/
theorem C1_Contains_half_open_witness :
    isInt32 (10 + 0) ∧ isInt32 (20 + 5) ∧
    ((Rect.Contains ⟨10, 20, 0, 5⟩ 10 22 = true ↔
      (10 : Int) ≤ 10 ∧ (10 : Int) < 10 + 0 ∧ (20 : Int) ≤ 22 ∧ (22 : Int) < 20 + 5) ∧
    Rect.Contains ⟨10, 20, 0, 5⟩ (10 + 0) 22 = false ∧
    Rect.Contains ⟨10, 20, 0, 5⟩ 10 (20 + 5) = false) :=
  ⟨by decide, by decide,
    C1_Contains_half_open ⟨10, 20, 0, 5⟩ 10 22 (by decide) (by decide)⟩

/-! ### Button and CheckBox -/

theorem Button.OnEvent_quiet (b : Button) (e : Event) (hp : b.isPressed = false)
    (he : e.isMouseDownInside b.Bounds = false) :
    (b.OnEvent e).calls = [] ∧ (b.OnEvent e).state.isPressed = false ∧
      (b.OnEvent e).state.Bounds = b.Bounds := by
  obtain ⟨ty, ts, data⟩ := e
  cases hv : b.Visible
  · simp [Button.OnEvent, hv, hp]
  · cases ty <;> cases data <;>
      simp [Button.OnEvent, Event.isMouseDownInside, hv, hp] at he ⊢ <;>
      first
        | done
        | simp [he, hp]
        | (split_ifs <;> simp_all)

theorem Button.run_quiet (evs : List Event) :
    ∀ b : Button, b.isPressed = false →
      (∀ e ∈ evs, e.isMouseDownInside b.Bounds = false) → (b.run evs).2 = [] := by
  induction evs with
  | nil => intro b _ _; rfl
  | cons e es ih =>
    intro b hp hall
    obtain ⟨h1, h2, h3⟩ := Button.OnEvent_quiet b e hp (hall e (List.mem_cons_self e es))
    have hrest := ih (b.OnEvent e).state h2 (fun e1 he1 => by
      rw [h3]; exact hall e1 (List.mem_cons_of_mem e he1))
    simp [Button.run, h1, hrest]

/-- C2: for a visible Button with a click handler f, a MouseDown inside the
bounds followed by a MouseUp inside the bounds calls OnClick exactly once and
leaves isPressed false; followed by a MouseUp outside the bounds it calls
nothing and leaves isPressed false; and from a state that is not pressed, a
sequence of events without a MouseDown inside the bounds calls nothing. -/
theorem C2_Button_click (b : Button) (f : Handler) (down up : MouseEvent) (t1 t2 : Int)
    (hv : b.Visible = true) (hf : b.OnClick = some f)
    (hd : b.Bounds.Contains down.X down.Y = true) :
    (b.Bounds.Contains up.X up.Y = true →
      (b.OnEvent ⟨.EventMouseClick, t1, .mouse down⟩).calls ++
        ((b.OnEvent ⟨.EventMouseClick, t1, .mouse down⟩).state.OnEvent
          ⟨.EventMouseRelease, t2, .mouse up⟩).calls = [f] ∧
      ((b.OnEvent ⟨.EventMouseClick, t1, .mouse down⟩).state.OnEvent
          ⟨.EventMouseRelease, t2, .mouse up⟩).state.isPressed = false) ∧
    (b.Bounds.Contains up.X up.Y = false →
      (b.OnEvent ⟨.EventMouseClick, t1, .mouse down⟩).calls ++
        ((b.OnEvent ⟨.EventMouseClick, t1, .mouse down⟩).state.OnEvent
          ⟨.EventMouseRelease, t2, .mouse up⟩).calls = [] ∧
      ((b.OnEvent ⟨.EventMouseClick, t1, .mouse down⟩).state.OnEvent
          ⟨.EventMouseRelease, t2, .mouse up⟩).state.isPressed = false) ∧
    (∀ (b0 : Button) (evs : List Event), b0.isPressed = false →
      (∀ e ∈ evs, e.isMouseDownInside b0.Bounds = false) → (b0.run evs).2 = []) := by
  refine ⟨?_, ?_, fun b0 evs hp hall => Button.run_quiet evs b0 hp hall⟩
  · intro hu
    simp [Button.OnEvent, hv, hf, hd, hu]
  · intro hu
    simp [Button.OnEvent, hv, hf, hd, hu]

/-- C2 (witness): a 100 x 30 button at the origin with handler 7, pressed at
(5, 5) and released at (6, 6). -/
theorem C2_Button_click_witness :
    ((Button.OnEvent ⟨⟨0, 0, 100, 30⟩, true, false, [], some 7, false, false⟩
        ⟨.EventMouseClick, 0, .mouse ⟨5, 5, 1, 0⟩⟩).calls ++
      ((Button.OnEvent ⟨⟨0, 0, 100, 30⟩, true, false, [], some 7, false, false⟩
        ⟨.EventMouseClick, 0, .mouse ⟨5, 5, 1, 0⟩⟩).state.OnEvent
          ⟨.EventMouseRelease, 1, .mouse ⟨6, 6, 1, 0⟩⟩).calls = [7]) :=
  ((C2_Button_click ⟨⟨0, 0, 100, 30⟩, true, false, [], some 7, false, false⟩ 7
    ⟨5, 5, 1, 0⟩ ⟨6, 6, 1, 0⟩ 0 1 rfl rfl (by decide)).1 (by decide)).1

/-- C3: for a visible CheckBox, one MouseDown inside the bounds negates
Checked, returns true and calls OnCheck (when set) exactly once with the new
value; a MouseDown outside the bounds and every MouseUp leave Checked as it
was and call nothing. -/
theorem C3_CheckBox_toggle (c : CheckBox) (m : MouseEvent) (t : Int) (d : EventData)
    (hv : c.Visible = true) :
    (c.Bounds.Contains m.X m.Y = true →
      (c.OnEvent ⟨.EventMouseClick, t, .mouse m⟩).state.Checked = !c.Checked ∧
      (c.OnEvent ⟨.EventMouseClick, t, .mouse m⟩).ret = true ∧
      ∀ f, c.OnCheck = some f →
        (c.OnEvent ⟨.EventMouseClick, t, .mouse m⟩).calls = [(f, !c.Checked)]) ∧
    (c.Bounds.Contains m.X m.Y = false →
      (c.OnEvent ⟨.EventMouseClick, t, .mouse m⟩).state.Checked = c.Checked ∧
      (c.OnEvent ⟨.EventMouseClick, t, .mouse m⟩).calls = []) ∧
    ((c.OnEvent ⟨.EventMouseRelease, t, d⟩).state.Checked = c.Checked ∧
      (c.OnEvent ⟨.EventMouseRelease, t, d⟩).calls = []) := by
  refine ⟨?_, ?_, ?_⟩
  · intro hin
    refine ⟨?_, ?_, ?_⟩
    · simp only [CheckBox.OnEvent, hv, hin]
      cases c.OnCheck <;> simp
    · simp only [CheckBox.OnEvent, hv, hin]
      cases c.OnCheck <;> simp
    · intro f hf
      simp [CheckBox.OnEvent, hv, hin, hf]
  · intro hout
    simp [CheckBox.OnEvent, hv, hout]
  · simp [CheckBox.OnEvent, hv]

/-- C3 (witness): an unchecked 16 x 16 box with handler 3 clicked at (4, 4). -/
theorem C3_CheckBox_toggle_witness :
    (CheckBox.OnEvent ⟨⟨0, 0, 16, 16⟩, true, false, [], false, some 3, false⟩
      ⟨.EventMouseClick, 0, .mouse ⟨4, 4, 1, 0⟩⟩).calls = [(3, true)] :=
  ((C3_CheckBox_toggle ⟨⟨0, 0, 16, 16⟩, true, false, [], false, some 3, false⟩
    ⟨4, 4, 1, 0⟩ 0 .other rfl).1 (by decide)).2.2 3 rfl

/-! ### Focus -/

/-- C4: SetFocus(B) while A holds the focus, A and B different, calls
A.OnBlur() and then B.OnFocus() and stores B; SetFocus(nil) while A holds the
focus calls only A.OnBlur() and stores nil; SetFocus(B) while nobody holds
the focus calls only B.OnFocus(). -/
theorem C4_SetFocus_trace (a b : CompId) (hab : a ≠ b) :
    Window.SetFocus ⟨some a⟩ (some b) =
      (⟨some b⟩, [FocusCall.OnBlur a, FocusCall.OnFocus b]) ∧
    Window.SetFocus ⟨some a⟩ none = (⟨none⟩, [FocusCall.OnBlur a]) ∧
    Window.SetFocus ⟨none⟩ (some b) = (⟨some b⟩, [FocusCall.OnFocus b]) := by
  refine ⟨?_, ?_, ?_⟩
  · simp [Window.SetFocus, hab]
  · simp [Window.SetFocus]
  · simp [Window.SetFocus]

/-- C4 (witness): components 1 and 2. -/
theorem C4_SetFocus_trace_witness :
    Window.SetFocus ⟨some 1⟩ (some 2) =
      (⟨some 2⟩, [FocusCall.OnBlur 1, FocusCall.OnFocus 2]) :=
  (C4_SetFocus_trace 1 2 (by decide)).1

/-! ### Hit-testing -/

theorem Component.searchChildren_eq_reverse (cs : List Component) (x y : Int) :
    Component.searchChildren cs x y =
      cs.reverse.findSome? (fun c => c.FindComponentAt x y) := by
  induction cs with
  | nil => simp [Component.searchChildren]
  | cons c cs ih =>
    rw [Component.searchChildren, ih, List.reverse_cons, List.findSome?_append]
    cases List.findSome? (fun c => c.FindComponentAt x y) cs.reverse with
    | some r => simp
    | none =>
      cases h : c.FindComponentAt x y <;> simp [List.findSome?, h]

theorem Component.searchChildren_append (pre post : List Component) (x y : Int) :
    Component.searchChildren (pre ++ post) x y =
      (Component.searchChildren post x y).or (Component.searchChildren pre x y) := by
  simp only [Component.searchChildren_eq_reverse, List.reverse_append, List.findSome?_append]

mutual
theorem Component.FindComponentAt_none_of_anyContains :
    ∀ (c : Component) (x y : Int), c.anyContains x y = false → c.FindComponentAt x y = none
  | .leaf _ b _, x, y, h => by
    simp only [Component.anyContains] at h
    simp [Component.FindComponentAt, h]
  | .card _ b _ _, x, y, h => by
    simp only [Component.anyContains] at h
    simp [Component.FindComponentAt, h]
  | .panel _ b _ cs, x, y, h => by
    simp only [Component.anyContains, Bool.or_eq_false_iff] at h
    simp [Component.FindComponentAt, h.1]
theorem Component.searchChildren_none_of_anyContains :
    ∀ (cs : List Component) (x y : Int),
      Component.anyContainsList cs x y = false → Component.searchChildren cs x y = none
  | [], _, _, _ => by simp [Component.searchChildren]
  | c :: cs, x, y, h => by
    simp only [Component.anyContainsList, Bool.or_eq_false_iff] at h
    rw [Component.searchChildren, Component.searchChildren_none_of_anyContains cs x y h.2]
    exact Component.FindComponentAt_none_of_anyContains c x y h.1
end

/-- C5 (counterexample): panel P = (0,0,100,100) holds the visible panel
Q = (0,0,10,10), which holds the leaf L = (50,50,10,10).  The point (55,55)
is inside P and inside L, a leaf child of the nested visible panel Q, but
outside Q: FindComponentAt returns P, not L. -/
theorem C5_leaf_outside_nested_panel :
    Rect.Contains ⟨0, 0, 100, 100⟩ 55 55 = true ∧
    Rect.Contains ⟨50, 50, 10, 10⟩ 55 55 = true ∧
    Component.FindComponentAt
      (.panel 0 ⟨0, 0, 100, 100⟩ true
        [.panel 1 ⟨0, 0, 10, 10⟩ true [.leaf 2 ⟨50, 50, 10, 10⟩ true]]) 55 55 =
      some (.panel 0 ⟨0, 0, 100, 100⟩ true
        [.panel 1 ⟨0, 0, 10, 10⟩ true [.leaf 2 ⟨50, 50, 10, 10⟩ true]]) :=
  ⟨by decide, by decide, rfl⟩

/-- C5 (amended): FindComponentAt of a panel P searches the children from
last-added to first-added, recursing into nested panels, and returns the
first component found.  It returns nil when P is invisible or the point is
outside P.  For P visible and the point inside P: it returns P when no child
at any depth contains the point; and it returns the leaf L, not Q, when L is
a child of a nested visible panel Q, the point is inside L and inside Q, and
no child added after Q to P or after L to Q yields a component. -/
theorem C5_FindComponentAt (id : CompId) (b : Rect) (v : Bool) (cs : List Component)
    (x y : Int) :
    Component.searchChildren cs x y =
      cs.reverse.findSome? (fun c => c.FindComponentAt x y) ∧
    ((v = false ∨ b.Contains x y = false) →
      (Component.panel id b v cs).FindComponentAt x y = none) ∧
    (v = true → b.Contains x y = true →
      (Component.panel id b v cs).FindComponentAt x y =
        some ((cs.reverse.findSome? (fun c => c.FindComponentAt x y)).getD
          (Component.panel id b v cs)) ∧
      (Component.anyContainsList cs x y = false →
        (Component.panel id b v cs).FindComponentAt x y = some (Component.panel id b v cs)) ∧
      (∀ (pre post qpre qpost : List Component) (qid lid : CompId) (qb lb : Rect) (lv : Bool),
        cs = pre ++ Component.panel qid qb true (qpre ++ Component.leaf lid lb lv :: qpost)
          :: post →
        qb.Contains x y = true → lb.Contains x y = true →
        Component.searchChildren post x y = none →
        Component.searchChildren qpost x y = none →
        (Component.panel id b v cs).FindComponentAt x y = some (Component.leaf lid lb lv))) := by
  refine ⟨Component.searchChildren_eq_reverse cs x y, ?_, ?_⟩
  · rintro (h | h) <;> simp [Component.FindComponentAt, h]
  · intro hv hb
    refine ⟨?_, ?_, ?_⟩
    · rw [← Component.searchChildren_eq_reverse]
      simp only [Component.FindComponentAt, hv, hb]
      cases Component.searchChildren cs x y <;> simp
    · intro hnone
      simp [Component.FindComponentAt, hv, hb,
        Component.searchChildren_none_of_anyContains cs x y hnone]
    · intro pre post qpre qpost qid lid qb lb lv hcs hq hl hpost hqpost
      have hQ : (Component.panel qid qb true
          (qpre ++ Component.leaf lid lb lv :: qpost)).FindComponentAt x y =
          some (Component.leaf lid lb lv) := by
        have hin : Component.searchChildren (qpre ++ Component.leaf lid lb lv :: qpost) x y =
            some (Component.leaf lid lb lv) := by
          rw [Component.searchChildren_append, Component.searchChildren, hqpost]
          simp [Component.FindComponentAt, hl]
        simp [Component.FindComponentAt, hq, hin]
      have hsearch : Component.searchChildren cs x y = some (Component.leaf lid lb lv) := by
        rw [hcs, Component.searchChildren_append, Component.searchChildren, hpost]
        simp [hQ]
      simp [Component.FindComponentAt, hv, hb, hsearch]

/-- C5 (witness): in P = (0,0,100,100) with the visible panel Q = (10,10,50,50)
holding the leaf L = (20,20,10,10), the point (25,25) yields L. -/
theorem C5_FindComponentAt_witness :
    Component.FindComponentAt
      (.panel 0 ⟨0, 0, 100, 100⟩ true
        [.panel 1 ⟨10, 10, 50, 50⟩ true [.leaf 2 ⟨20, 20, 10, 10⟩ true]]) 25 25 =
      some (.leaf 2 ⟨20, 20, 10, 10⟩ true) :=
  ((C5_FindComponentAt 0 ⟨0, 0, 100, 100⟩ true
    [.panel 1 ⟨10, 10, 50, 50⟩ true [.leaf 2 ⟨20, 20, 10, 10⟩ true]] 25 25).2.2
      rfl (by decide)).2.2 [] [] [] [] 1 2 ⟨10, 10, 50, 50⟩ ⟨20, 20, 10, 10⟩ true rfl
      (by decide) (by decide) rfl rfl

/-! ### TextBox backspace -/

/-- C6: on a focused, visible, editable TextBox whose anchor s and cursor c lie
in [0, n], a Backspace key event returns true and, when s and c differ,
leaves the runes before min(s,c) followed by the runes from max(s,c) on, with
cursorPos and selStart both min(s,c); when s = c and c > 0 it leaves the runes
before c-1 followed by the runes from c on, with the cursor at c-1. -/
theorem C6_TextBox_backspace (t : TextBox) (k : KeyEvent) (ts : Int)
    (hvis : t.Visible = true) (hfoc : t.isFocused = true) (hro : t.ReadOnly = false)
    (hk : k.VirtualKeyCode = 0x08)
    (hs : 0 ≤ t.selStart ∧ t.selStart ≤ t.Text.length)
    (hc : 0 ≤ t.cursorPos ∧ t.cursorPos ≤ t.Text.length) :
    (t.selStart ≠ t.cursorPos →
      t.OnEvent ⟨.EventKeyPress, ts, .key k⟩ =
        some ({ t with
          Text := t.Text.take (min t.selStart t.cursorPos).toNat ++
            t.Text.drop (max t.selStart t.cursorPos).toNat,
          cursorPos := min t.selStart t.cursorPos,
          selStart := min t.selStart t.cursorPos,
          RepaintRequested := true }, true)) ∧
    (t.selStart = t.cursorPos → 0 < t.cursorPos →
      t.OnEvent ⟨.EventKeyPress, ts, .key k⟩ =
        some ({ t with
          Text := t.Text.take (t.cursorPos - 1).toNat ++ t.Text.drop t.cursorPos.toNat,
          cursorPos := t.cursorPos - 1,
          selStart := t.cursorPos - 1,
          RepaintRequested := true }, true)) := by
  have hlen : 0 < t.Text.length ∨ (t.selStart = 0 ∧ t.cursorPos = 0) := by omega
  constructor
  · intro hne
    have hpos : t.Text.length > 0 := by omega
    by_cases hgt : t.selStart > t.cursorPos
    · have hmin : min t.selStart t.cursorPos = t.cursorPos := min_eq_right (le_of_lt hgt)
      have hmax : max t.selStart t.cursorPos = t.selStart := max_eq_left (le_of_lt hgt)
      simp [TextBox.OnEvent, TextBox.backspace, TextBox.RequestRepaint, sliceTo, sliceFrom,
        hvis, hfoc, hro, hk, hne, hpos, hgt, hmin, hmax, hs.1, hs.2, hc.1, hc.2]
    · have hle : t.selStart ≤ t.cursorPos := not_lt.mp hgt
      have hmin : min t.selStart t.cursorPos = t.selStart := min_eq_left hle
      have hmax : max t.selStart t.cursorPos = t.cursorPos := max_eq_right hle
      simp [TextBox.OnEvent, TextBox.backspace, TextBox.RequestRepaint, sliceTo, sliceFrom,
        hvis, hfoc, hro, hk, hne, hpos, hgt, hmin, hmax, hs.1, hs.2, hc.1, hc.2]
  · intro heq hcpos
    have hpos : t.Text.length > 0 := by omega
    have h1 : 1 ≤ t.cursorPos := by omega
    have h2 : t.cursorPos - 1 ≤ t.Text.length := by omega
    simp [TextBox.OnEvent, TextBox.backspace, TextBox.RequestRepaint, sliceTo, sliceFrom,
      hvis, hfoc, hro, hk, heq, hpos, hcpos, hc.1, hc.2, h1, h2]

/-- C6 (witness): the text "abcdef" with anchor 4 and cursor 1 becomes "aef"
with cursor and anchor at 1. -/
theorem C6_TextBox_backspace_witness :
    TextBox.OnEvent
      ⟨⟨0, 0, 100, 24⟩, true, false, runes "abcdef", [], false, true, 1, 4, false, 0, true, 0⟩
      ⟨.EventKeyPress, 0, .key ⟨0x08, 0, 0⟩⟩ =
    some (⟨⟨0, 0, 100, 24⟩, true, true, runes "aef", [], false, true, 1, 1, false, 0, true, 0⟩,
      true) :=
  (C6_TextBox_backspace
    ⟨⟨0, 0, 100, 24⟩, true, false, runes "abcdef", [], false, true, 1, 4, false, 0, true, 0⟩
    ⟨0x08, 0, 0⟩ 0 rfl rfl rfl rfl (by decide) (by decide)).1 (by decide)

/-- C7 (counterexample): Backspace on "hello world" with selection [2,5)
returns a text box whose text is not "heworld". -/
theorem C7_backspace_not_heworld :
    ∃ t1 : TextBox,
      helloWorldBox.OnEvent ⟨.EventKeyPress, 0, .key ⟨0x08, 0, 0⟩⟩ = some (t1, true) ∧
      t1.Text ≠ runes "heworld" :=
  ⟨⟨⟨0, 0, 200, 24⟩, true, true, runes "he world", [], false, true, 2, 2, false, 0, true, 0⟩,
    by decide, by decide⟩

/-- C7 (amended): Backspace on the focused, editable text box with text
"hello world" and selection [2,5) (anchor 2, cursor 5) leaves the text
"he world" (the space at index 5 is kept) and the cursor and anchor at 2. -/
theorem C7_backspace_he_world :
    helloWorldBox.OnEvent ⟨.EventKeyPress, 0, .key ⟨0x08, 0, 0⟩⟩ =
      some (⟨⟨0, 0, 200, 24⟩, true, true, runes "he world", [], false, true, 2, 2, false, 0,
        true, 0⟩, true) := by
  decide

/-! ### LineChart -/

theorem LineChart.AddPoint_MaxPoints {α : Type} (l : LineChart α) (v : α) :
    (l.AddPoint v).MaxPoints = l.MaxPoints := by
  simp only [LineChart.AddPoint]
  split_ifs <;> rfl

theorem LineChart.AddPoint_Data {α : Type} (l : LineChart α) (v : α) :
    (l.AddPoint v).Data =
      if ((l.Data.length + 1 : Nat) : Int) > l.MaxPoints then (l.Data ++ [v]).drop 1
      else l.Data ++ [v] := by
  simp only [LineChart.AddPoint, List.length_append, List.length_singleton]
  split_ifs <;> rfl

theorem LineChart.foldl_AddPoint {α : Type} (m : Nat) (hm : 1 ≤ m) (l : LineChart α)
    (hd : l.Data = []) (hmax : l.MaxPoints = m) (vs : List α) :
    (vs.foldl LineChart.AddPoint l).Data = vs.drop (vs.length - m) ∧
      (vs.foldl LineChart.AddPoint l).MaxPoints = m := by
  induction vs using List.reverseRecOn with
  | nil => simp [hd, hmax]
  | append_singleton vs v ih =>
    obtain ⟨ihd, ihm⟩ := ih
    rw [List.foldl_append, List.foldl_cons, List.foldl_nil]
    refine ⟨?_, by rw [LineChart.AddPoint_MaxPoints, ihm]⟩
    rw [LineChart.AddPoint_Data, ihd, ihm]
    simp only [List.length_drop, List.length_append, List.length_singleton]
    by_cases hk : vs.length < m
    · have h0 : vs.length - m = 0 := by omega
      have h1 : vs.length + 1 - m = 0 := by omega
      have h2 : ¬ (((vs.length - (vs.length - m) + 1 : Nat) : Int) > (m : Int)) := by
        rw [h0]; push_cast; omega
      rw [if_neg h2, h0, h1]
      simp
    · have h2 : (((vs.length - (vs.length - m) + 1 : Nat) : Int) > (m : Int)) := by
        have : vs.length - (vs.length - m) = m := by omega
        rw [this]; push_cast; omega
      rw [if_pos h2]
      have h3 : vs.length + 1 - m = (vs.length - m) + 1 := by omega
      have h4 : vs.length - m + 1 ≤ vs.length := by omega
      have h5 : 1 ≤ (List.drop (vs.length - m) vs).length := by
        rw [List.length_drop]; omega
      rw [h3, List.drop_append_of_le_length h5, List.drop_append_of_le_length h4,
        List.drop_drop]

/-- C8: a chart made by NewLineChart and given MaxPoints = m >= 1 holds, after
AddPoint was called with the values vs in turn, the last min(k, m) of them in
push order (k the number of calls); its length is min(k, m), never more than
m, and after m + 1 calls Data is the list of all values but the first. -/
theorem C8_LineChart_window {α : Type} (m : Nat) (hm : 1 ≤ m) (w h : Int) (vs : List α) :
    (vs.foldl LineChart.AddPoint { NewLineChart α w h with MaxPoints := m }).Data =
      vs.drop (vs.length - min vs.length m) ∧
    (vs.foldl LineChart.AddPoint { NewLineChart α w h with MaxPoints := m }).Data.length =
      min vs.length m ∧
    (vs.foldl LineChart.AddPoint { NewLineChart α w h with MaxPoints := m }).Data.length ≤ m ∧
    (vs.length = m + 1 →
      (vs.foldl LineChart.AddPoint { NewLineChart α w h with MaxPoints := m }).Data =
        vs.tail) := by
  have key := (LineChart.foldl_AddPoint m hm { NewLineChart α w h with MaxPoints := m }
    rfl rfl vs).1
  have hmin : vs.length - min vs.length m = vs.length - m := by omega
  refine ⟨by rw [key, hmin], ?_, ?_, ?_⟩
  · rw [key, List.length_drop]; omega
  · rw [key, List.length_drop]; omega
  · intro hk
    rw [key, hk]
    have : m + 1 - m = 1 := by omega
    rw [this, List.drop_one]

/-- C8 (witness): capacity 3 and the five samples 1, 2, 3, 4, 5 leave
3, 4, 5. -/
theorem C8_LineChart_window_witness :
    ([1, 2, 3, 4, 5].foldl LineChart.AddPoint
      { NewLineChart Nat 200 100 with MaxPoints := (3 : Nat) }).Data = [3, 4, 5] :=
  (C8_LineChart_window 3 (by decide) 200 100 [1, 2, 3, 4, 5]).1

/-! ### float32 arithmetic -/

theorem roundHalfEven_intCast (n : Int) : roundHalfEven (n : ℚ) = n := by
  simp [roundHalfEven]

theorem roundF32_zero : roundF32 0 = 0 := by
  simp [roundF32]

/-- A number m * 2^k with a significand of fewer than 24 bits is a `float32`
value: rounding returns it unchanged. -/
theorem roundF32_exact (m k : Int) (hm : |m| < 2 ^ 24) :
    roundF32 ((m : ℚ) * (2 : ℚ) ^ k) = (m : ℚ) * (2 : ℚ) ^ k := by
  unfold roundF32
  by_cases hq : (m : ℚ) * (2 : ℚ) ^ k = 0
  · simp [hq]
  · rw [if_neg hq]
    have h2k : (0 : ℚ) < (2 : ℚ) ^ k := by positivity
    have habs : |(m : ℚ) * (2 : ℚ) ^ k| = (|m| : ℤ) * (2 : ℚ) ^ k := by
      rw [abs_mul, abs_of_pos h2k, Int.cast_abs]
    set e := Int.log 2 |(m : ℚ) * (2 : ℚ) ^ k| with he
    have hpos : 0 < |(m : ℚ) * (2 : ℚ) ^ k| := abs_pos.mpr hq
    have hlow : (2 : ℚ) ^ e ≤ |(m : ℚ) * (2 : ℚ) ^ k| := by
      have := Int.zpow_log_le_self (b := 2) (by norm_num) hpos
      simpa using this
    have hlt : (2 : ℚ) ^ e < (2 : ℚ) ^ (24 + k) := by
      calc (2 : ℚ) ^ e ≤ |(m : ℚ) * (2 : ℚ) ^ k| := hlow
        _ = (|m| : ℤ) * (2 : ℚ) ^ k := habs
        _ < (2 : ℚ) ^ (24 : ℤ) * (2 : ℚ) ^ k := by
          apply mul_lt_mul_of_pos_right _ h2k
          have : ((|m| : ℤ) : ℚ) < ((2 ^ 24 : ℤ) : ℚ) := by exact_mod_cast hm
          rw [zpow_ofNat]
          exact_mod_cast this
        _ = (2 : ℚ) ^ (24 + k) := by rw [← zpow_add₀ (by norm_num)]
    have hek : e < 24 + k :=
      (zpow_lt_zpow_iff_right₀ (by norm_num : (1 : ℚ) < 2)).mp hlt
    obtain ⟨n, hn⟩ : ∃ n : ℕ, k - (e - 23) = n := ⟨(k - (e - 23)).toNat, by omega⟩
    have hdiv : (m : ℚ) * (2 : ℚ) ^ k / (2 : ℚ) ^ (e - 23) = ((m * 2 ^ n : ℤ) : ℚ) := by
      rw [mul_div_assoc, ← zpow_sub₀ (by norm_num), hn]
      push_cast
      rw [zpow_natCast]
    rw [hdiv, roundHalfEven_intCast]
    push_cast
    rw [mul_assoc, ← zpow_natCast, ← zpow_add₀ (by norm_num), ← hn]
    congr 2
    ring

theorem roundF32_intCast (n : Int) (hn : |n| < 2 ^ 24) : roundF32 (n : ℚ) = n := by
  have h := roundF32_exact n 0 hn
  simpa using h

theorem truncInt32_zero : truncInt32 0 = 0 := by
  simp [truncInt32, isInt32]

theorem growExtra_zero (remainingSpace totalGrow : Int) :
    growExtra remainingSpace 0 totalGrow = 0 := by
  simp [growExtra, roundF32_zero, truncInt32_zero]

/-- With a grow factor 1 out of a total of 2, a leftover below 2^24 is halved
exactly and then truncated: the extra is the floor of L / 2. -/
theorem growExtra_half (L : Int) (h0 : 0 ≤ L) (hL : L < 16777216) :
    growExtra L 1 2 = L / 2 := by
  have habs : |L| < 2 ^ 24 := by rw [abs_of_nonneg h0]; norm_num; exact hL
  have h1 : roundF32 ((1 : Int) : ℚ) = 1 := by
    have := roundF32_intCast 1 (by norm_num); simpa using this
  have h2 : roundF32 ((2 : Int) : ℚ) = 2 := by
    have := roundF32_intCast 2 (by norm_num); simpa using this
  have hhalf : roundF32 ((1 : ℚ) / 2) = 1 / 2 := by
    have := roundF32_exact 1 (-1) (by norm_num)
    simpa [zpow_neg_one] using this
  have hprod : roundF32 ((L : ℚ) * (1 / 2)) = (L : ℚ) * (1 / 2) := by
    have := roundF32_exact L (-1) habs
    simpa [zpow_neg_one] using this
  have hfloor : ⌊(L : ℚ) * (1 / 2)⌋ = L / 2 := by
    have := Rat.floor_intCast_div_natCast L 2
    simpa [div_eq_mul_inv] using this
  have hnn : (0 : ℚ) ≤ (L : ℚ) * (1 / 2) := by
    have : (0 : ℚ) ≤ (L : ℚ) := by exact_mod_cast h0
    positivity
  unfold growExtra
  rw [h1, h2, roundF32_intCast L habs, hhalf, hprod]
  unfold truncInt32
  rw [if_pos hnn, hfloor]
  have hr : isInt32 (L / 2) := by
    unfold isInt32; omega
  rw [if_pos hr]

/-! ### Flex: the sizes handed out on the main axis -/

theorem FlexLayout.placeRow_widths (l : FlexLayout) (y height : Int) (t : FlexTotals)
    (L gap : Int) (cs : List Child) :
    ∀ cur : Int,
      (l.placeRow y height t L gap (cs.zip (childSizes cs)) cur).map
          (fun c => c.Bounds.Width) =
        cs.map (fun c => if c.Visible then l.grown t L c c.measure.1 else c.Bounds.Width) := by
  induction cs with
  | nil => intro cur; simp [childSizes, FlexLayout.placeRow]
  | cons c cs ih =>
    intro cur
    have hz : (c :: cs).zip (childSizes (c :: cs)) =
        (c, if c.Visible then c.measure else (0, 0)) :: cs.zip (childSizes cs) := by
      simp [childSizes]
    rw [hz]
    cases hv : c.Visible
    · simp [FlexLayout.placeRow, hv, ih]
    · simp [FlexLayout.placeRow, hv, ih, Child.SetBounds]

theorem FlexLayout.placeColumn_heights (l : FlexLayout) (x width : Int) (t : FlexTotals)
    (L gap : Int) (cs : List Child) :
    ∀ cur : Int,
      (l.placeColumn x width t L gap (cs.zip (childSizes cs)) cur).map
          (fun c => c.Bounds.Height) =
        cs.map (fun c => if c.Visible then l.grown t L c c.measure.2 else c.Bounds.Height) := by
  induction cs with
  | nil => intro cur; simp [childSizes, FlexLayout.placeColumn]
  | cons c cs ih =>
    intro cur
    have hz : (c :: cs).zip (childSizes (c :: cs)) =
        (c, if c.Visible then c.measure else (0, 0)) :: cs.zip (childSizes cs) := by
      simp [childSizes]
    rw [hz]
    cases hv : c.Visible
    · simp [FlexLayout.placeColumn, hv, ih]
    · simp [FlexLayout.placeColumn, hv, ih, Child.SetBounds]

theorem FlexLayout.justify_of_grow (l : FlexLayout) (start : Int) (t : FlexTotals) (L : Int)
    (hG : 0 < t.totalGrow) : l.justify start t L = some (start, 0) := by
  have : ¬ (t.totalGrow = 0 ∧ L > 0) := by omega
  simp [FlexLayout.justify, this]

theorem FlexLayout.grown_of_grow (l : FlexLayout) (t : FlexTotals) (L : Int) (c : Child)
    (size : Int) (hG : 0 < t.totalGrow) (hL : 0 < L) :
    l.grown t L c size = wrap32 (size + growExtra L (l.growOf c) t.totalGrow) := by
  simp [FlexLayout.grown, hG, hL]

/-- With a positive total grow factor and a positive leftover, `arrangeRow`
returns, and the width of every visible child is its measured width plus its
share `growExtra`; an invisible child keeps its width. -/
theorem FlexLayout.arrangeRow_widths (l : FlexLayout) (cs : List Child)
    (x y width height : Int)
    (hG : 0 < (l.measureRow cs ⟨0, 0, 0⟩).totalGrow)
    (hL : 0 < l.remaining width (l.measureRow cs ⟨0, 0, 0⟩)) :
    ∃ out, l.arrangeRow cs x y width height = some out ∧
      out.map (fun c => c.Bounds.Width) =
        cs.map (fun c =>
          if c.Visible then
            wrap32 (c.measure.1 + growExtra (l.remaining width (l.measureRow cs ⟨0, 0, 0⟩))
              (l.growOf c) (l.measureRow cs ⟨0, 0, 0⟩).totalGrow)
          else c.Bounds.Width) := by
  unfold FlexLayout.arrangeRow
  by_cases hlen : cs.length = 0
  · have : cs = [] := List.length_eq_zero.mp hlen
    subst this
    simp [FlexLayout.measureRow] at hG
  · rw [if_neg hlen]
    simp only [FlexLayout.justify_of_grow l x _ _ hG]
    refine ⟨_, rfl, ?_⟩
    rw [FlexLayout.placeRow_widths]
    apply List.map_congr_left
    intro c _
    rw [FlexLayout.grown_of_grow l _ _ c _ hG hL]

/-- The column counterpart of `arrangeRow_widths`, for the heights. -/
theorem FlexLayout.arrangeColumn_heights (l : FlexLayout) (cs : List Child)
    (x y width height : Int)
    (hG : 0 < (l.measureColumn cs ⟨0, 0, 0⟩).totalGrow)
    (hL : 0 < l.remaining height (l.measureColumn cs ⟨0, 0, 0⟩)) :
    ∃ out, l.arrangeColumn cs x y width height = some out ∧
      out.map (fun c => c.Bounds.Height) =
        cs.map (fun c =>
          if c.Visible then
            wrap32 (c.measure.2 +
              growExtra (l.remaining height (l.measureColumn cs ⟨0, 0, 0⟩))
                (l.growOf c) (l.measureColumn cs ⟨0, 0, 0⟩).totalGrow)
          else c.Bounds.Height) := by
  unfold FlexLayout.arrangeColumn
  by_cases hlen : cs.length = 0
  · have : cs = [] := List.length_eq_zero.mp hlen
    subst this
    simp [FlexLayout.measureColumn] at hG
  · rw [if_neg hlen]
    simp only [FlexLayout.justify_of_grow l y _ _ hG]
    refine ⟨_, rfl, ?_⟩
    rw [FlexLayout.placeColumn_heights]
    apply List.map_congr_left
    intro c _
    rw [FlexLayout.grown_of_grow l _ _ c _ hG hL]

/-- The share of a child of grow factor 0 or 1 when the total is 2 and the
leftover L lies in [0, 2^24): grow times the floor of L / 2. -/
theorem growExtra_of_total_two (L g : Int) (h0 : 0 ≤ L) (hL : L < 16777216)
    (hg : g = 0 ∨ g = 1) : growExtra L g 2 = g * (L / 2) := by
  rcases hg with rfl | rfl
  · rw [growExtra_zero]; simp
  · rw [growExtra_half L h0 hL]; simp

/-- When the grow factors of the visible children are 0 or 1 and add up to 2,
and the leftover L is below 2^24, every grow-1 child of `arrangeRow` is
widened by the floor of L / 2. -/
theorem FlexLayout.arrangeRow_widths_two (l : FlexLayout) (cs : List Child)
    (x y width height : Int)
    (hG : (l.measureRow cs ⟨0, 0, 0⟩).totalGrow = 2)
    (hL : 0 < l.remaining width (l.measureRow cs ⟨0, 0, 0⟩))
    (hL24 : l.remaining width (l.measureRow cs ⟨0, 0, 0⟩) < 16777216)
    (hg : ∀ c ∈ cs, c.Visible = true → l.growOf c = 0 ∨ l.growOf c = 1) :
    ∃ out, l.arrangeRow cs x y width height = some out ∧
      out.map (fun c => c.Bounds.Width) =
        cs.map (fun c =>
          if c.Visible then
            wrap32 (c.measure.1 +
              l.growOf c * (l.remaining width (l.measureRow cs ⟨0, 0, 0⟩) / 2))
          else c.Bounds.Width) := by
  obtain ⟨out, hout, hw⟩ := FlexLayout.arrangeRow_widths l cs x y width height
    (by rw [hG]; decide) hL
  refine ⟨out, hout, ?_⟩
  rw [hw]
  apply List.map_congr_left
  intro c hc
  cases hv : c.Visible
  · simp
  · simp only [if_true]
    rw [hG, growExtra_of_total_two _ _ (le_of_lt hL) hL24 (hg c hc hv)]

/-- The column counterpart of `arrangeRow_widths_two`. -/
theorem FlexLayout.arrangeColumn_heights_two (l : FlexLayout) (cs : List Child)
    (x y width height : Int)
    (hG : (l.measureColumn cs ⟨0, 0, 0⟩).totalGrow = 2)
    (hL : 0 < l.remaining height (l.measureColumn cs ⟨0, 0, 0⟩))
    (hL24 : l.remaining height (l.measureColumn cs ⟨0, 0, 0⟩) < 16777216)
    (hg : ∀ c ∈ cs, c.Visible = true → l.growOf c = 0 ∨ l.growOf c = 1) :
    ∃ out, l.arrangeColumn cs x y width height = some out ∧
      out.map (fun c => c.Bounds.Height) =
        cs.map (fun c =>
          if c.Visible then
            wrap32 (c.measure.2 +
              l.growOf c * (l.remaining height (l.measureColumn cs ⟨0, 0, 0⟩) / 2))
          else c.Bounds.Height) := by
  obtain ⟨out, hout, hw⟩ := FlexLayout.arrangeColumn_heights l cs x y width height
    (by rw [hG]; decide) hL
  refine ⟨out, hout, ?_⟩
  rw [hw]
  apply List.map_congr_left
  intro c hc
  cases hv : c.Visible
  · simp
  · simp only [if_true]
    rw [hG, growExtra_of_total_two _ _ (le_of_lt hL) hL24 (hg c hc hv)]

/-- C9 (counterexample): three children of preferred width 50 with grow
factors 0, 1, 1 in a row of width 155.  The total grow factor is 2 and the
leftover is 5, yet the widths become 50, 52, 52: the extras are 0, 2, 2 and
add up to 4, not to 5, and no child receives 3. -/
theorem C9_odd_leftover_not_distributed :
    (flexExample.measureRow flexExampleChildren ⟨0, 0, 0⟩).totalGrow = 2 ∧
    flexExample.remaining 155 (flexExample.measureRow flexExampleChildren ⟨0, 0, 0⟩) = 5 ∧
    ∃ out, flexExample.Arrange ⟨0, 0, 155, 20⟩ flexExampleChildren = some out ∧
      out.map (fun c => c.Bounds.Width) = [50, 52, 52] ∧
      rowExtras flexExampleChildren out = [0, 2, 2] ∧
      (rowExtras flexExampleChildren out).sum ≠ 5 := by
  refine ⟨by decide, by decide, ?_⟩
  obtain ⟨out, hout, hw⟩ := FlexLayout.arrangeRow_widths_two flexExample flexExampleChildren
    0 0 155 20 (by decide) (by decide) (by decide) (by decide)
  have hw2 : out.map (fun c => c.Bounds.Width) = [50, 52, 52] := by
    rw [hw]; decide
  refine ⟨out, ?_, hw2, ?_, ?_⟩
  · have hA : flexExample.Arrange ⟨0, 0, 155, 20⟩ flexExampleChildren =
        flexExample.arrangeRow flexExampleChildren 0 0 155 20 := rfl
    rw [hA]; exact hout
  · unfold rowExtras
    rw [hw2]; decide
  · unfold rowExtras
    rw [hw2]; decide

/-- C9 (amended): for FlexLayout (row or column) with total grow factor > 0
and leftover L > 0, the layout returns and the main-axis size of every
visible child is its measured size plus
int32(float32(L) * (float32(grow) / float32(totalGrow))), truncated; the
extras need not add up to L.  When the grow factors of the visible children
are 0 or 1 and add up to 2 (two grow-1 children) and L < 2^24, each grow-1
child receives the floor of L / 2 and a grow-0 child receives nothing. -/
theorem C9_flex_grow_extra (l : FlexLayout) (cs : List Child) (x y width height : Int) :
    (0 < (l.measureRow cs ⟨0, 0, 0⟩).totalGrow →
      0 < l.remaining width (l.measureRow cs ⟨0, 0, 0⟩) →
      ∃ out, l.arrangeRow cs x y width height = some out ∧
        out.map (fun c => c.Bounds.Width) =
          cs.map (fun c =>
            if c.Visible then
              wrap32 (c.measure.1 +
                growExtra (l.remaining width (l.measureRow cs ⟨0, 0, 0⟩))
                  (l.growOf c) (l.measureRow cs ⟨0, 0, 0⟩).totalGrow)
            else c.Bounds.Width) ∧
        ((l.measureRow cs ⟨0, 0, 0⟩).totalGrow = 2 →
          l.remaining width (l.measureRow cs ⟨0, 0, 0⟩) < 16777216 →
          (∀ c ∈ cs, c.Visible = true → l.growOf c = 0 ∨ l.growOf c = 1) →
          out.map (fun c => c.Bounds.Width) =
            cs.map (fun c =>
              if c.Visible then
                wrap32 (c.measure.1 +
                  l.growOf c * (l.remaining width (l.measureRow cs ⟨0, 0, 0⟩) / 2))
              else c.Bounds.Width))) ∧
    (0 < (l.measureColumn cs ⟨0, 0, 0⟩).totalGrow →
      0 < l.remaining height (l.measureColumn cs ⟨0, 0, 0⟩) →
      ∃ out, l.arrangeColumn cs x y width height = some out ∧
        out.map (fun c => c.Bounds.Height) =
          cs.map (fun c =>
            if c.Visible then
              wrap32 (c.measure.2 +
                growExtra (l.remaining height (l.measureColumn cs ⟨0, 0, 0⟩))
                  (l.growOf c) (l.measureColumn cs ⟨0, 0, 0⟩).totalGrow)
            else c.Bounds.Height) ∧
        ((l.measureColumn cs ⟨0, 0, 0⟩).totalGrow = 2 →
          l.remaining height (l.measureColumn cs ⟨0, 0, 0⟩) < 16777216 →
          (∀ c ∈ cs, c.Visible = true → l.growOf c = 0 ∨ l.growOf c = 1) →
          out.map (fun c => c.Bounds.Height) =
            cs.map (fun c =>
              if c.Visible then
                wrap32 (c.measure.2 +
                  l.growOf c * (l.remaining height (l.measureColumn cs ⟨0, 0, 0⟩) / 2))
              else c.Bounds.Height))) := by
  constructor
  · intro hG hL
    obtain ⟨out, hout, hw⟩ := FlexLayout.arrangeRow_widths l cs x y width height hG hL
    refine ⟨out, hout, hw, ?_⟩
    intro hG2 hL24 hg
    obtain ⟨out2, hout2, hw2⟩ :=
      FlexLayout.arrangeRow_widths_two l cs x y width height hG2 hL hL24 hg
    have : out = out2 := Option.some.inj (hout.symm.trans hout2)
    rw [this]; exact hw2
  · intro hG hL
    obtain ⟨out, hout, hw⟩ := FlexLayout.arrangeColumn_heights l cs x y width height hG hL
    refine ⟨out, hout, hw, ?_⟩
    intro hG2 hL24 hg
    obtain ⟨out2, hout2, hw2⟩ :=
      FlexLayout.arrangeColumn_heights_two l cs x y width height hG2 hL hL24 hg
    have : out = out2 := Option.some.inj (hout.symm.trans hout2)
    rw [this]; exact hw2

/-- C9 (witness): the example row of width 156 (leftover 6): the two grow-1
children are widened by 3 each. -/
theorem C9_flex_grow_extra_witness :
    ∃ out, flexExample.arrangeRow flexExampleChildren 0 0 156 20 = some out ∧
      out.map (fun c => c.Bounds.Width) = [50, 53, 53] := by
  obtain ⟨out, hout, _, hw⟩ :=
    (C9_flex_grow_extra flexExample flexExampleChildren 0 0 156 20).1 (by decide) (by decide)
  exact ⟨out, hout, by rw [hw (by decide) (by decide) (by decide)]; decide⟩

/-! ### int32 arithmetic modulo 2^32 -/

theorem wrap32_modEq (a : Int) : wrap32 a ≡ a [ZMOD 4294967296] := by
  unfold wrap32 Int.ModEq
  omega

theorem wrap64_modEq (a : Int) : wrap64 a ≡ a [ZMOD 4294967296] := by
  unfold wrap64 Int.ModEq
  omega

theorem wrap32_eq_of_modEq {a b : Int} (h : a ≡ b [ZMOD 4294967296]) :
    wrap32 a = wrap32 b := by
  unfold Int.ModEq at h
  unfold wrap32
  omega

theorem wrap32_wrap64 (a : Int) : wrap32 (wrap64 a) = wrap32 a :=
  wrap32_eq_of_modEq (wrap64_modEq a)

theorem wrap32_add_left (a b : Int) : wrap32 (wrap32 a + b) = wrap32 (a + b) :=
  wrap32_eq_of_modEq ((wrap32_modEq a).add_right b)

theorem wrap32_add_right (a b : Int) : wrap32 (a + wrap32 b) = wrap32 (a + b) :=
  wrap32_eq_of_modEq ((wrap32_modEq b).add_left a)

theorem wrap32_sub_left (a b : Int) : wrap32 (wrap32 a - b) = wrap32 (a - b) :=
  wrap32_eq_of_modEq ((wrap32_modEq a).sub_right b)

theorem wrap32_sub_right (a b : Int) : wrap32 (a - wrap32 b) = wrap32 (a - b) :=
  wrap32_eq_of_modEq ((wrap32_modEq b).sub_left a)

theorem wrap32_mul_left (a b : Int) : wrap32 (wrap32 a * b) = wrap32 (a * b) :=
  wrap32_eq_of_modEq ((wrap32_modEq a).mul_right b)

theorem wrap32_mul_right (a b : Int) : wrap32 (a * wrap32 b) = wrap32 (a * b) :=
  wrap32_eq_of_modEq ((wrap32_modEq b).mul_left a)

/-- Truncated division by a positive divisor: it is the floor on a
non-negative dividend and lies between the dividend and 0 on a negative one. -/
theorem tdiv_bounds (N C : Int) (hC : 1 ≤ C) :
    (0 ≤ N → Int.tdiv N C = N / C ∧ 0 ≤ N / C ∧ N / C ≤ N) ∧
    (N < 0 → N ≤ Int.tdiv N C ∧ Int.tdiv N C ≤ 0 ∧ N / C < 0) := by
  constructor
  · intro hN
    exact ⟨Int.tdiv_eq_ediv hN (by omega), Int.ediv_nonneg hN (by omega),
      Int.ediv_le_self C hN⟩
  · intro hN
    have h1 : Int.tdiv N C = -(Int.tdiv (-N) C) := by
      rw [Int.neg_tdiv, neg_neg]
    have h2 : Int.tdiv (-N) C = (-N) / C := Int.tdiv_eq_ediv (by omega) (by omega)
    have h3 : 0 ≤ (-N) / C := Int.ediv_nonneg (by omega) (by omega)
    have h4 : (-N) / C ≤ -N := Int.ediv_le_self C (by omega)
    have h5 : N / C < 0 := Int.ediv_neg' hN (by omega)
    omega

/-! ### Grid -/

/-- The cell size that `GridLayout.Arrange` computes on one axis is the clamped
quotient of the specification, when the count and the dividend are `int32`
values. -/
theorem grid_cell_eq (extent p s cells : Int) (hc : 1 ≤ cells) (hc32 : isInt32 cells)
    (hN : isInt32 (extent - 2 * p - s * (cells - 1))) :
    ∃ q, div32 (wrap32 (wrap32 (extent - wrap32 (2 * p)) -
        wrap32 (wrap32 (wrap64 (cells - 1)) * s))) (wrap32 cells) = some q ∧
      (if q < 0 then 0 else q) = gridCellSpec extent p s cells := by
  have hnum : wrap32 (wrap32 (extent - wrap32 (2 * p)) -
      wrap32 (wrap32 (wrap64 (cells - 1)) * s)) = extent - 2 * p - s * (cells - 1) := by
    simp only [wrap32_sub_left, wrap32_sub_right, wrap32_mul_left, wrap32_wrap64]
    rw [mul_comm (cells - 1) s]
    exact wrap32_of_isInt32 hN
  rw [hnum, wrap32_of_isInt32 hc32]
  have hne : cells ≠ 0 := by omega
  obtain ⟨hpos, hneg⟩ := tdiv_bounds (extent - 2 * p - s * (cells - 1)) cells hc
  unfold isInt32 at hN
  refine ⟨wrap32 (Int.tdiv (extent - 2 * p - s * (cells - 1)) cells), by simp [div32, hne], ?_⟩
  unfold gridCellSpec
  by_cases h0 : 0 ≤ extent - 2 * p - s * (cells - 1)
  · obtain ⟨h1, h2, h3⟩ := hpos h0
    rw [h1, wrap32_of_isInt32 (by unfold isInt32; omega), if_neg (by omega), max_eq_right h2]
  · obtain ⟨h1, h2, h3⟩ := hneg (by omega)
    rw [wrap32_of_isInt32 (by unfold isInt32; omega), max_eq_left (le_of_lt h3)]
    split_ifs <;> omega

/-- One visible child: with the cell sizes of the specification, `place` sets
the bounds of the specification when these are `int32` values. -/
theorem GridLayout.place_bounds (l : GridLayout) (bounds : Rect) (c : Child)
    (hv : c.Visible = true)
    (hfit : (gridBoundsSpec l bounds (l.propsOf c).Row (l.propsOf c).Col
      (l.propsOf c).RowSpan (l.propsOf c).ColSpan).wellTyped) :
    (l.place (wrap32 (bounds.X + l.Padding)) (wrap32 (bounds.Y + l.Padding))
        (gridCellSpec bounds.Width l.Padding l.Spacing l.Cols)
        (gridCellSpec bounds.Height l.Padding l.Spacing l.Rows) c).Bounds =
      gridBoundsSpec l bounds (l.propsOf c).Row (l.propsOf c).Col
        (l.propsOf c).RowSpan (l.propsOf c).ColSpan := by
  obtain ⟨hx, hy, hw, hh⟩ := hfit
  simp only [gridBoundsSpec] at hx hy hw hh
  simp only [GridLayout.place, hv, Child.SetBounds, gridBoundsSpec, Bool.not_true,
    Bool.false_eq_true, if_false]
  simp only [wrap32_add_left, wrap32_add_right, wrap32_mul_left, wrap32_mul_right,
    wrap32_wrap64]
  rw [wrap32_of_isInt32 hx, wrap32_of_isInt32 hy, wrap32_of_isInt32 hw, wrap32_of_isInt32 hh]

theorem GridLayout.propsOf_some (l : GridLayout) (c : Child) (row col rs cs : Int)
    (h : l.props c.id = some ⟨row, col, rs, cs⟩) (hrs : 1 ≤ rs) (hcs : 1 ≤ cs) :
    l.propsOf c = ⟨row, col, rs, cs⟩ := by
  have h1 : rs ≠ 0 := by omega
  have h2 : cs ≠ 0 := by omega
  simp [GridLayout.propsOf, h, h1, h2]

theorem GridLayout.propsOf_none (l : GridLayout) (c : Child) (h : l.props c.id = none) :
    l.propsOf c = ⟨0, 0, 1, 1⟩ := by
  simp [GridLayout.propsOf, h]

/-- Grid bounds without overflow: for GridLayout with Rows >= 1 and
Cols >= 1 (int32 values, the
dividends W - 2p - s*(Cols-1) and H - 2p - s*(Rows-1) in int32 as well),
Arrange returns; a visible child recorded at (row, col) with spans
(rs, cs) >= 1 gets x = X+p+col*(cellW+s), y = Y+p+row*(cellH+s),
width = cs*cellW + (cs-1)*s, height = rs*cellH + (rs-1)*s, with
cellW = max(0, (W - 2p - s*(Cols-1)) / Cols) and cellH likewise, whenever
these four numbers are int32 values; a visible child without a recorded
placement gets the bounds of (0, 0) with span 1 x 1. -/
theorem GridLayout.Arrange_no_overflow (l : GridLayout) (bounds : Rect) (children : List Child)
    (hR : 1 ≤ l.Rows) (hC : 1 ≤ l.Cols) (hR32 : isInt32 l.Rows) (hC32 : isInt32 l.Cols)
    (hW : isInt32 (bounds.Width - 2 * l.Padding - l.Spacing * (l.Cols - 1)))
    (hH : isInt32 (bounds.Height - 2 * l.Padding - l.Spacing * (l.Rows - 1))) :
    ∃ out, l.Arrange bounds children = some out ∧ out.length = children.length ∧
      ∀ (i : Nat) (c c1 : Child), children[i]? = some c → out[i]? = some c1 →
        c.Visible = true →
        (∀ row col rs cs : Int, l.props c.id = some ⟨row, col, rs, cs⟩ → 1 ≤ rs → 1 ≤ cs →
          (gridBoundsSpec l bounds row col rs cs).wellTyped →
          c1.Bounds = gridBoundsSpec l bounds row col rs cs) ∧
        (l.props c.id = none → (gridBoundsSpec l bounds 0 0 1 1).wellTyped →
          c1.Bounds = gridBoundsSpec l bounds 0 0 1 1) := by
  obtain ⟨qw, hqw, hcw⟩ := grid_cell_eq bounds.Width l.Padding l.Spacing l.Cols hC hC32 hW
  obtain ⟨qh, hqh, hch⟩ := grid_cell_eq bounds.Height l.Padding l.Spacing l.Rows hR hR32 hH
  have hz : ¬ (l.Rows = 0 ∨ l.Cols = 0) := by omega
  refine ⟨children.map (l.place (wrap32 (bounds.X + l.Padding))
    (wrap32 (bounds.Y + l.Padding)) (gridCellSpec bounds.Width l.Padding l.Spacing l.Cols)
    (gridCellSpec bounds.Height l.Padding l.Spacing l.Rows)), ?_, by simp, ?_⟩
  · simp only [GridLayout.Arrange, if_neg hz, hqw, hqh, hcw, hch]
  · intro i c c1 hc hc1 hv
    rw [List.getElem?_map, hc] at hc1
    have hc1' : c1 = l.place (wrap32 (bounds.X + l.Padding)) (wrap32 (bounds.Y + l.Padding))
        (gridCellSpec bounds.Width l.Padding l.Spacing l.Cols)
        (gridCellSpec bounds.Height l.Padding l.Spacing l.Rows) c := by
      simpa using hc1.symm
    subst hc1'
    constructor
    · intro row col rs cs hp hrs hcs hfit
      have hprops := GridLayout.propsOf_some l c row col rs cs hp hrs hcs
      have := GridLayout.place_bounds l bounds c hv (by rw [hprops]; exact hfit)
      rw [hprops] at this
      exact this
    · intro hp hfit
      have hprops := GridLayout.propsOf_none l c hp
      have := GridLayout.place_bounds l bounds c hv (by rw [hprops]; exact hfit)
      rw [hprops] at this
      exact this

/-- Example: the 3 x 3 grid in a 300 x 300 container without padding or
spacing has 100 x 100 cells; the child spanning two columns from (0, 0) gets
the bounds (0, 0, 200, 100), the child at row 2, column 1 the bounds
(100, 200, 100, 100), the child without a placement (0, 0, 100, 100). -/
theorem GridLayout.Arrange_no_overflow_example :
    gridCellSpec 300 0 0 3 = 100 ∧
    ∃ out c1, (gridExample 0).Arrange ⟨0, 0, 300, 300⟩ gridExampleChildren = some out ∧
      out.map (fun c => c.Bounds) =
        [⟨0, 0, 100, 100⟩, ⟨0, 0, 200, 100⟩, ⟨100, 200, 100, 100⟩] ∧
      out[1]? = some c1 ∧
      c1.Bounds = gridBoundsSpec (gridExample 0) ⟨0, 0, 300, 300⟩ 0 0 1 2 ∧
      c1.Bounds.Width = 2 * 100 + 1 * 0 := by
  refine ⟨by decide, ?_⟩
  obtain ⟨out, hout, hlen, hall⟩ := GridLayout.Arrange_no_overflow (gridExample 0) ⟨0, 0, 300, 300⟩
    gridExampleChildren (by decide) (by decide) (by decide) (by decide) (by decide)
    (by decide)
  have h1 : 1 < out.length := by rw [hlen]; decide
  have hget : out[1]? = some out[1] := List.getElem?_eq_getElem h1
  have hb := (hall 1 ⟨1, ⟨0, 0, 10, 10⟩, true, fun _ => (10, 10)⟩ out[1] rfl hget rfl).1
    0 0 1 2 rfl (by decide) (by decide) (by decide)
  have hdec : ((gridExample 0).Arrange ⟨0, 0, 300, 300⟩ gridExampleChildren).map
      (fun o => o.map (fun c => c.Bounds)) =
      some [⟨0, 0, 100, 100⟩, ⟨0, 0, 200, 100⟩, ⟨100, 200, 100, 100⟩] := by decide
  rw [hout] at hdec
  refine ⟨out, out[1], hout, by simpa using hdec, hget, hb, ?_⟩
  rw [hb]; decide

/-! ### Stacking layouts: idempotence -/

theorem VBoxLayout.vplace_idem (l : VBoxLayout) (x width : Int) (cs : List Child) :
    ∀ y : Int, (∀ c ∈ cs, c.prefConstOrBounds) →
      l.place x width (l.place x width cs y) y = l.place x width cs y := by
  induction cs with
  | nil => intro y _; rfl
  | cons c cs ih =>
    intro y hall
    have hc := hall c (List.mem_cons_self c cs)
    have hrest : ∀ c1 ∈ cs, c1.prefConstOrBounds :=
      fun c1 h1 => hall c1 (List.mem_cons_of_mem c h1)
    cases hv : c.Visible
    · simp [VBoxLayout.place, hv, ih y hrest]
    · rcases hc with ⟨k, hk⟩ | hb
      · by_cases hk0 : k.2 ≤ 0
        · simp [VBoxLayout.place, hv, Child.SetBounds, Child.GetPreferredSize, hk, hk0,
            ih _ hrest]
        · simp [VBoxLayout.place, hv, Child.SetBounds, Child.GetPreferredSize, hk, hk0,
            ih _ hrest]
      · simp [VBoxLayout.place, hv, Child.SetBounds, Child.GetPreferredSize, hb, ih _ hrest]

theorem HBoxLayout.hplace_idem (l : HBoxLayout) (y height : Int) (cs : List Child) :
    ∀ x : Int, (∀ c ∈ cs, c.prefConstOrBounds) →
      l.place y height (l.place y height cs x) x = l.place y height cs x := by
  induction cs with
  | nil => intro x _; rfl
  | cons c cs ih =>
    intro x hall
    have hc := hall c (List.mem_cons_self c cs)
    have hrest : ∀ c1 ∈ cs, c1.prefConstOrBounds :=
      fun c1 h1 => hall c1 (List.mem_cons_of_mem c h1)
    cases hv : c.Visible
    · simp [HBoxLayout.place, hv, ih x hrest]
    · rcases hc with ⟨k, hk⟩ | hb
      · by_cases hk0 : k.1 ≤ 0
        · simp [HBoxLayout.place, hv, Child.SetBounds, Child.GetPreferredSize, hk, hk0,
            ih _ hrest]
        · simp [HBoxLayout.place, hv, Child.SetBounds, Child.GetPreferredSize, hk, hk0,
            ih _ hrest]
      · simp [HBoxLayout.place, hv, Child.SetBounds, Child.GetPreferredSize, hb, ih _ hrest]

/-- C11: for VBoxLayout and HBoxLayout, any container bounds and any children
whose preferred size is a constant or the size of their current bounds, a
second Arrange right after a first one returns the children exactly as the
first call left them. -/
theorem C11_box_idempotent (bounds : Rect) (cs : List Child)
    (h : ∀ c ∈ cs, c.prefConstOrBounds) :
    (∀ l : VBoxLayout, l.Arrange bounds (l.Arrange bounds cs) = l.Arrange bounds cs) ∧
    (∀ l : HBoxLayout, l.Arrange bounds (l.Arrange bounds cs) = l.Arrange bounds cs) :=
  ⟨fun l => VBoxLayout.vplace_idem l _ _ cs _ h, fun l => HBoxLayout.hplace_idem l _ _ cs _ h⟩

theorem boxExampleChildren_pref : ∀ c ∈ boxExampleChildren, c.prefConstOrBounds := by
  intro c hc
  simp only [boxExampleChildren, List.mem_cons, List.mem_singleton, List.not_mem_nil,
    or_false] at hc
  rcases hc with rfl | rfl
  · exact Or.inr (fun _ => rfl)
  · exact Or.inl ⟨(60, 20), fun _ => rfl⟩

/-- C11 (witness): a VBox with spacing 5 and padding 10 in a 200 x 300
container, on a child sized by its bounds and a child of constant size. -/
theorem C11_box_idempotent_witness :
    VBoxLayout.Arrange ⟨5, 10⟩ ⟨0, 0, 200, 300⟩
        (VBoxLayout.Arrange ⟨5, 10⟩ ⟨0, 0, 200, 300⟩ boxExampleChildren) =
      VBoxLayout.Arrange ⟨5, 10⟩ ⟨0, 0, 200, 300⟩ boxExampleChildren :=
  (C11_box_idempotent ⟨0, 0, 200, 300⟩ boxExampleChildren boxExampleChildren_pref).1 ⟨5, 10⟩

/-! ### Layouts skip invisible children -/

theorem Child.SetBounds_Visible (c : Child) (x y w h : Int) :
    (c.SetBounds x y w h).Visible = c.Visible := rfl

theorem VBoxLayout.vplace_filter (l : VBoxLayout) (x width : Int) (cs : List Child) :
    ∀ y : Int, (l.place x width cs y).filter Child.Visible =
      l.place x width (cs.filter Child.Visible) y := by
  induction cs with
  | nil => intro y; rfl
  | cons c cs ih =>
    intro y
    cases hv : c.Visible
    · simp [VBoxLayout.place, hv, ih]
    · simp [VBoxLayout.place, hv, ih, Child.SetBounds]

theorem VBoxLayout.vplace_kept (l : VBoxLayout) (x width : Int) (cs : List Child) :
    ∀ y : Int, List.Forall₂ Child.keptIfInvisible cs (l.place x width cs y) := by
  induction cs with
  | nil => intro y; exact List.Forall₂.nil
  | cons c cs ih =>
    intro y
    cases hv : c.Visible
    · simp only [VBoxLayout.place, hv, Bool.not_false, if_true]
      exact List.Forall₂.cons ⟨rfl, fun _ => rfl⟩ (ih y)
    · simp only [VBoxLayout.place, hv, Bool.not_true, Bool.false_eq_true, if_false]
      exact List.Forall₂.cons ⟨rfl, fun h => absurd (hv.symm.trans h) (by decide)⟩ (ih _)

theorem HBoxLayout.hplace_filter (l : HBoxLayout) (y height : Int) (cs : List Child) :
    ∀ x : Int, (l.place y height cs x).filter Child.Visible =
      l.place y height (cs.filter Child.Visible) x := by
  induction cs with
  | nil => intro x; rfl
  | cons c cs ih =>
    intro x
    cases hv : c.Visible
    · simp [HBoxLayout.place, hv, ih]
    · simp [HBoxLayout.place, hv, ih, Child.SetBounds]

theorem HBoxLayout.hplace_kept (l : HBoxLayout) (y height : Int) (cs : List Child) :
    ∀ x : Int, List.Forall₂ Child.keptIfInvisible cs (l.place y height cs x) := by
  induction cs with
  | nil => intro x; exact List.Forall₂.nil
  | cons c cs ih =>
    intro x
    cases hv : c.Visible
    · simp only [HBoxLayout.place, hv, Bool.not_false, if_true]
      exact List.Forall₂.cons ⟨rfl, fun _ => rfl⟩ (ih x)
    · simp only [HBoxLayout.place, hv, Bool.not_true, Bool.false_eq_true, if_false]
      exact List.Forall₂.cons ⟨rfl, fun h => absurd (hv.symm.trans h) (by decide)⟩ (ih _)

theorem FlexLayout.measureRow_filter (l : FlexLayout) (cs : List Child) :
    ∀ acc : FlexTotals, l.measureRow (cs.filter Child.Visible) acc = l.measureRow cs acc := by
  induction cs with
  | nil => intro acc; rfl
  | cons c cs ih =>
    intro acc
    cases hv : c.Visible
    · simp [FlexLayout.measureRow, hv, ih]
    · simp [FlexLayout.measureRow, hv, ih]

theorem FlexLayout.measureColumn_filter (l : FlexLayout) (cs : List Child) :
    ∀ acc : FlexTotals,
      l.measureColumn (cs.filter Child.Visible) acc = l.measureColumn cs acc := by
  induction cs with
  | nil => intro acc; rfl
  | cons c cs ih =>
    intro acc
    cases hv : c.Visible
    · simp [FlexLayout.measureColumn, hv, ih]
    · simp [FlexLayout.measureColumn, hv, ih]

theorem zip_childSizes_cons (c : Child) (cs : List Child) :
    (c :: cs).zip (childSizes (c :: cs)) =
      (c, if c.Visible then c.measure else (0, 0)) :: cs.zip (childSizes cs) := by
  simp [childSizes]

theorem FlexLayout.placeRow_filter (l : FlexLayout) (y height : Int) (t : FlexTotals)
    (L gap : Int) (cs : List Child) :
    ∀ cur : Int,
      (l.placeRow y height t L gap (cs.zip (childSizes cs)) cur).filter Child.Visible =
        l.placeRow y height t L gap
          ((cs.filter Child.Visible).zip (childSizes (cs.filter Child.Visible))) cur := by
  induction cs with
  | nil => intro cur; rfl
  | cons c cs ih =>
    intro cur
    rw [zip_childSizes_cons]
    cases hv : c.Visible
    · simp [FlexLayout.placeRow, hv, ih]
    · simp only [List.filter_cons, hv, if_true, zip_childSizes_cons]
      simp [FlexLayout.placeRow, hv, ih, Child.SetBounds]

theorem FlexLayout.placeRow_kept (l : FlexLayout) (y height : Int) (t : FlexTotals)
    (L gap : Int) (cs : List Child) :
    ∀ cur : Int, List.Forall₂ Child.keptIfInvisible cs
      (l.placeRow y height t L gap (cs.zip (childSizes cs)) cur) := by
  induction cs with
  | nil => intro cur; exact List.Forall₂.nil
  | cons c cs ih =>
    intro cur
    rw [zip_childSizes_cons]
    cases hv : c.Visible
    · simp only [FlexLayout.placeRow, hv, Bool.not_false, if_true]
      exact List.Forall₂.cons ⟨rfl, fun _ => rfl⟩ (ih cur)
    · simp only [FlexLayout.placeRow, hv, Bool.not_true, Bool.false_eq_true, if_false]
      exact List.Forall₂.cons ⟨rfl, fun h => absurd (hv.symm.trans h) (by decide)⟩ (ih _)

theorem FlexLayout.placeColumn_filter (l : FlexLayout) (x width : Int) (t : FlexTotals)
    (L gap : Int) (cs : List Child) :
    ∀ cur : Int,
      (l.placeColumn x width t L gap (cs.zip (childSizes cs)) cur).filter Child.Visible =
        l.placeColumn x width t L gap
          ((cs.filter Child.Visible).zip (childSizes (cs.filter Child.Visible))) cur := by
  induction cs with
  | nil => intro cur; rfl
  | cons c cs ih =>
    intro cur
    rw [zip_childSizes_cons]
    cases hv : c.Visible
    · simp [FlexLayout.placeColumn, hv, ih]
    · simp only [List.filter_cons, hv, if_true, zip_childSizes_cons]
      simp [FlexLayout.placeColumn, hv, ih, Child.SetBounds]

theorem FlexLayout.placeColumn_kept (l : FlexLayout) (x width : Int) (t : FlexTotals)
    (L gap : Int) (cs : List Child) :
    ∀ cur : Int, List.Forall₂ Child.keptIfInvisible cs
      (l.placeColumn x width t L gap (cs.zip (childSizes cs)) cur) := by
  induction cs with
  | nil => intro cur; exact List.Forall₂.nil
  | cons c cs ih =>
    intro cur
    rw [zip_childSizes_cons]
    cases hv : c.Visible
    · simp only [FlexLayout.placeColumn, hv, Bool.not_false, if_true]
      exact List.Forall₂.cons ⟨rfl, fun _ => rfl⟩ (ih cur)
    · simp only [FlexLayout.placeColumn, hv, Bool.not_true, Bool.false_eq_true, if_false]
      exact List.Forall₂.cons ⟨rfl, fun h => absurd (hv.symm.trans h) (by decide)⟩ (ih _)

/-- Without a visible child the justify block divides by nothing. -/
theorem FlexLayout.justify_no_visible (l : FlexLayout) (start L : Int) :
    ∃ p, l.justify start ⟨0, 0, 0⟩ L = some p := by
  by_cases hL : L > 0 <;> cases hj : l.JustifyContent <;>
    simp [FlexLayout.justify, hL, hj]

theorem Forall₂_keptIfInvisible_refl (cs : List Child) :
    List.Forall₂ Child.keptIfInvisible cs cs := by
  induction cs with
  | nil => exact List.Forall₂.nil
  | cons c cs ih => exact List.Forall₂.cons ⟨rfl, fun _ => rfl⟩ ih

/-- The body of `arrangeRow` with the local variables substituted. -/
theorem FlexLayout.arrangeRow_eq (l : FlexLayout) (cs : List Child) (x y width height : Int) :
    l.arrangeRow cs x y width height =
      if cs.length = 0 then some cs
      else
        (l.justify x (l.measureRow cs ⟨0, 0, 0⟩)
          (l.remaining width (l.measureRow cs ⟨0, 0, 0⟩))).map
          (fun p => l.placeRow y height (l.measureRow cs ⟨0, 0, 0⟩)
            (l.remaining width (l.measureRow cs ⟨0, 0, 0⟩)) p.2
            (cs.zip (childSizes cs)) p.1) := by
  unfold FlexLayout.arrangeRow
  split_ifs
  · rfl
  · dsimp only
    cases l.justify x (l.measureRow cs ⟨0, 0, 0⟩)
        (l.remaining width (l.measureRow cs ⟨0, 0, 0⟩)) with
    | none => rfl
    | some p => obtain ⟨a, b⟩ := p; rfl

/-- The body of `arrangeColumn` with the local variables substituted. -/
theorem FlexLayout.arrangeColumn_eq (l : FlexLayout) (cs : List Child)
    (x y width height : Int) :
    l.arrangeColumn cs x y width height =
      if cs.length = 0 then some cs
      else
        (l.justify y (l.measureColumn cs ⟨0, 0, 0⟩)
          (l.remaining height (l.measureColumn cs ⟨0, 0, 0⟩))).map
          (fun p => l.placeColumn x width (l.measureColumn cs ⟨0, 0, 0⟩)
            (l.remaining height (l.measureColumn cs ⟨0, 0, 0⟩)) p.2
            (cs.zip (childSizes cs)) p.1) := by
  unfold FlexLayout.arrangeColumn
  split_ifs
  · rfl
  · dsimp only
    cases l.justify y (l.measureColumn cs ⟨0, 0, 0⟩)
        (l.remaining height (l.measureColumn cs ⟨0, 0, 0⟩)) with
    | none => rfl
    | some p => obtain ⟨a, b⟩ := p; rfl

theorem FlexLayout.arrangeRow_filter (l : FlexLayout) (cs : List Child)
    (x y width height : Int) :
    (l.arrangeRow cs x y width height).map (List.filter Child.Visible) =
      l.arrangeRow (cs.filter Child.Visible) x y width height := by
  rw [FlexLayout.arrangeRow_eq, FlexLayout.arrangeRow_eq, FlexLayout.measureRow_filter]
  by_cases hcs : cs.length = 0
  · have : cs = [] := List.length_eq_zero.mp hcs
    subst this; simp
  · rw [if_neg hcs]
    by_cases hf : (cs.filter Child.Visible).length = 0
    · have hfs : cs.filter Child.Visible = [] := List.length_eq_zero.mp hf
      have ht : l.measureRow cs ⟨0, 0, 0⟩ = ⟨0, 0, 0⟩ := by
        rw [← FlexLayout.measureRow_filter, hfs]; rfl
      rw [if_pos hf, ht]
      obtain ⟨p, hp⟩ := FlexLayout.justify_no_visible l x (l.remaining width ⟨0, 0, 0⟩)
      rw [hp]
      simp only [Option.map_some', FlexLayout.placeRow_filter, hfs]
      rfl
    · rw [if_neg hf]
      cases l.justify x (l.measureRow cs ⟨0, 0, 0⟩)
          (l.remaining width (l.measureRow cs ⟨0, 0, 0⟩)) with
      | none => rfl
      | some p => simp only [Option.map_some', FlexLayout.placeRow_filter]

theorem FlexLayout.arrangeColumn_filter (l : FlexLayout) (cs : List Child)
    (x y width height : Int) :
    (l.arrangeColumn cs x y width height).map (List.filter Child.Visible) =
      l.arrangeColumn (cs.filter Child.Visible) x y width height := by
  rw [FlexLayout.arrangeColumn_eq, FlexLayout.arrangeColumn_eq,
    FlexLayout.measureColumn_filter]
  by_cases hcs : cs.length = 0
  · have : cs = [] := List.length_eq_zero.mp hcs
    subst this; simp
  · rw [if_neg hcs]
    by_cases hf : (cs.filter Child.Visible).length = 0
    · have hfs : cs.filter Child.Visible = [] := List.length_eq_zero.mp hf
      have ht : l.measureColumn cs ⟨0, 0, 0⟩ = ⟨0, 0, 0⟩ := by
        rw [← FlexLayout.measureColumn_filter, hfs]; rfl
      rw [if_pos hf, ht]
      obtain ⟨p, hp⟩ := FlexLayout.justify_no_visible l y (l.remaining height ⟨0, 0, 0⟩)
      rw [hp]
      simp only [Option.map_some', FlexLayout.placeColumn_filter, hfs]
      rfl
    · rw [if_neg hf]
      cases l.justify y (l.measureColumn cs ⟨0, 0, 0⟩)
          (l.remaining height (l.measureColumn cs ⟨0, 0, 0⟩)) with
      | none => rfl
      | some p => simp only [Option.map_some', FlexLayout.placeColumn_filter]

theorem FlexLayout.arrangeRow_kept (l : FlexLayout) (cs : List Child)
    (x y width height : Int) (out : List Child)
    (h : l.arrangeRow cs x y width height = some out) :
    List.Forall₂ Child.keptIfInvisible cs out := by
  rw [FlexLayout.arrangeRow_eq] at h
  by_cases hcs : cs.length = 0
  · rw [if_pos hcs] at h
    cases h
    exact Forall₂_keptIfInvisible_refl cs
  · rw [if_neg hcs] at h
    cases hj : l.justify x (l.measureRow cs ⟨0, 0, 0⟩)
        (l.remaining width (l.measureRow cs ⟨0, 0, 0⟩)) with
    | none => rw [hj] at h; cases h
    | some p =>
      rw [hj] at h
      cases h
      exact FlexLayout.placeRow_kept l y height _ _ p.2 cs p.1

theorem FlexLayout.arrangeColumn_kept (l : FlexLayout) (cs : List Child)
    (x y width height : Int) (out : List Child)
    (h : l.arrangeColumn cs x y width height = some out) :
    List.Forall₂ Child.keptIfInvisible cs out := by
  rw [FlexLayout.arrangeColumn_eq] at h
  by_cases hcs : cs.length = 0
  · rw [if_pos hcs] at h
    cases h
    exact Forall₂_keptIfInvisible_refl cs
  · rw [if_neg hcs] at h
    cases hj : l.justify y (l.measureColumn cs ⟨0, 0, 0⟩)
        (l.remaining height (l.measureColumn cs ⟨0, 0, 0⟩)) with
    | none => rw [hj] at h; cases h
    | some p =>
      rw [hj] at h
      cases h
      exact FlexLayout.placeColumn_kept l x width _ _ p.2 cs p.1

theorem GridLayout.place_Visible (l : GridLayout) (sx sy cw ch : Int) (c : Child) :
    (l.place sx sy cw ch c).Visible = c.Visible := by
  unfold GridLayout.place
  split_ifs <;> rfl

theorem GridLayout.map_place_filter (l : GridLayout) (sx sy cw ch : Int) (cs : List Child) :
    (cs.map (l.place sx sy cw ch)).filter Child.Visible =
      (cs.filter Child.Visible).map (l.place sx sy cw ch) := by
  induction cs with
  | nil => rfl
  | cons c cs ih =>
    cases hv : c.Visible <;>
      simp [List.filter_cons, GridLayout.place_Visible, hv, ih]

theorem GridLayout.map_place_kept (l : GridLayout) (sx sy cw ch : Int) (cs : List Child) :
    List.Forall₂ Child.keptIfInvisible cs (cs.map (l.place sx sy cw ch)) := by
  induction cs with
  | nil => exact List.Forall₂.nil
  | cons c cs ih =>
    refine List.Forall₂.cons ⟨GridLayout.place_Visible l sx sy cw ch c, fun h => ?_⟩ ih
    simp [GridLayout.place, h]

theorem GridLayout.Arrange_filter (l : GridLayout) (bounds : Rect) (cs : List Child) :
    (l.Arrange bounds cs).map (List.filter Child.Visible) =
      l.Arrange bounds (cs.filter Child.Visible) := by
  unfold GridLayout.Arrange
  by_cases hz : l.Rows = 0 ∨ l.Cols = 0
  · simp only [if_pos hz, Option.map_some']
  · simp only [if_neg hz]
    cases div32 (wrap32 (wrap32 (bounds.Width - wrap32 (2 * l.Padding)) -
        wrap32 (wrap32 (wrap64 (l.Cols - 1)) * l.Spacing))) (wrap32 l.Cols) with
    | none => rfl
    | some cw =>
      cases div32 (wrap32 (wrap32 (bounds.Height - wrap32 (2 * l.Padding)) -
          wrap32 (wrap32 (wrap64 (l.Rows - 1)) * l.Spacing))) (wrap32 l.Rows) with
      | none => rfl
      | some ch => simp only [Option.map_some', GridLayout.map_place_filter]

theorem GridLayout.Arrange_kept (l : GridLayout) (bounds : Rect) (cs out : List Child)
    (h : l.Arrange bounds cs = some out) : List.Forall₂ Child.keptIfInvisible cs out := by
  unfold GridLayout.Arrange at h
  by_cases hz : l.Rows = 0 ∨ l.Cols = 0
  · rw [if_pos hz] at h
    cases h
    exact Forall₂_keptIfInvisible_refl cs
  · simp only [if_neg hz] at h
    cases hw : div32 (wrap32 (wrap32 (bounds.Width - wrap32 (2 * l.Padding)) -
        wrap32 (wrap32 (wrap64 (l.Cols - 1)) * l.Spacing))) (wrap32 l.Cols) with
    | none => rw [hw] at h; cases h
    | some cw =>
      cases hh : div32 (wrap32 (wrap32 (bounds.Height - wrap32 (2 * l.Padding)) -
          wrap32 (wrap32 (wrap64 (l.Rows - 1)) * l.Spacing))) (wrap32 l.Rows) with
      | none => rw [hw, hh] at h; cases h
      | some ch =>
        rw [hw, hh] at h
        cases h
        exact GridLayout.map_place_kept l _ _ _ _ cs

/-- C12: for VBoxLayout, HBoxLayout, FlexLayout (row and column) and
GridLayout, Arrange leaves every invisible child as it was, bounds included,
and the visible children come out of Arrange exactly as they come out of
Arrange on the list without the invisible children (the same bounds; a
division panic on one side is a panic on the other). -/
theorem C12_invisible_children_skipped (bounds : Rect) (cs : List Child) :
    (∀ l : VBoxLayout,
      List.Forall₂ Child.keptIfInvisible cs (l.Arrange bounds cs) ∧
      (l.Arrange bounds cs).filter Child.Visible =
        l.Arrange bounds (cs.filter Child.Visible)) ∧
    (∀ l : HBoxLayout,
      List.Forall₂ Child.keptIfInvisible cs (l.Arrange bounds cs) ∧
      (l.Arrange bounds cs).filter Child.Visible =
        l.Arrange bounds (cs.filter Child.Visible)) ∧
    (∀ l : FlexLayout,
      (∀ out, l.Arrange bounds cs = some out → List.Forall₂ Child.keptIfInvisible cs out) ∧
      (l.Arrange bounds cs).map (List.filter Child.Visible) =
        l.Arrange bounds (cs.filter Child.Visible)) ∧
    (∀ l : GridLayout,
      (∀ out, l.Arrange bounds cs = some out → List.Forall₂ Child.keptIfInvisible cs out) ∧
      (l.Arrange bounds cs).map (List.filter Child.Visible) =
        l.Arrange bounds (cs.filter Child.Visible)) := by
  refine ⟨fun l => ⟨VBoxLayout.vplace_kept l _ _ cs _, VBoxLayout.vplace_filter l _ _ cs _⟩,
    fun l => ⟨HBoxLayout.hplace_kept l _ _ cs _, HBoxLayout.hplace_filter l _ _ cs _⟩,
    fun l => ⟨?_, ?_⟩,
    fun l => ⟨fun out h => GridLayout.Arrange_kept l bounds cs out h,
      GridLayout.Arrange_filter l bounds cs⟩⟩
  · intro out h
    unfold FlexLayout.Arrange at h
    by_cases hd : l.Direction = FlexDirection.FlexRow
    · simp only [if_pos hd] at h
      exact FlexLayout.arrangeRow_kept l cs _ _ _ _ out h
    · simp only [if_neg hd] at h
      exact FlexLayout.arrangeColumn_kept l cs _ _ _ _ out h
  · unfold FlexLayout.Arrange
    by_cases hd : l.Direction = FlexDirection.FlexRow
    · simp only [if_pos hd]
      exact FlexLayout.arrangeRow_filter l cs _ _ _ _
    · simp only [if_neg hd]
      exact FlexLayout.arrangeColumn_filter l cs _ _ _ _

/-- C12 (witness): a VBox over a visible, an invisible and a visible child:
the visible children get the bounds they get without the invisible one. -/
theorem C12_invisible_children_skipped_witness :
    (VBoxLayout.Arrange ⟨5, 10⟩ ⟨0, 0, 200, 300⟩ mixedExampleChildren).filter Child.Visible =
      VBoxLayout.Arrange ⟨5, 10⟩ ⟨0, 0, 200, 300⟩ (mixedExampleChildren.filter Child.Visible) :=
  ((C12_invisible_children_skipped ⟨0, 0, 200, 300⟩ mixedExampleChildren).1 ⟨5, 10⟩).2

/-! ### Stacking layouts: positions -/

theorem wrap32_idem (a : Int) : wrap32 (wrap32 a) = wrap32 a :=
  wrap32_eq_of_modEq (wrap32_modEq a)

theorem wrap32_add_three (a b c : Int) : wrap32 (a + wrap32 b + c) = wrap32 (a + (b + c)) := by
  apply wrap32_eq_of_modEq
  have h := ((wrap32_modEq b).add_left a).add_right c
  rw [add_assoc a b c] at h
  exact h

theorem VBoxLayout.vplace_getElem (l : VBoxLayout) (x width : Int) (cs : List Child) :
    ∀ (y : Int) (k : Nat) (c : Child), wrap32 y = y →
      (cs.filter Child.Visible)[k]? = some c →
      ((l.place x width cs y).filter Child.Visible)[k]? =
        some (c.SetBounds x
          (wrap32 (y + (((cs.filter Child.Visible).take k).map
            (fun d => d.measure.2 + l.Spacing)).sum))
          width c.measure.2) := by
  induction cs with
  | nil => intro y k c _ hc; simp at hc
  | cons c0 cs ih =>
    intro y k c hy hc
    cases hv : c0.Visible
    · have hf : (c0 :: cs).filter Child.Visible = cs.filter Child.Visible := by
        simp [List.filter_cons, hv]
      rw [hf] at hc ⊢
      have hp : l.place x width (c0 :: cs) y = c0 :: l.place x width cs y := by
        simp [VBoxLayout.place, hv]
      rw [hp, List.filter_cons, hv]
      exact ih y k c hy hc
    · have hf : (c0 :: cs).filter Child.Visible = c0 :: cs.filter Child.Visible := by
        simp [List.filter_cons, hv]
      rw [hf] at hc ⊢
      have hp : l.place x width (c0 :: cs) y =
          c0.SetBounds x y width c0.measure.2 ::
            l.place x width cs (wrap32 (y + wrap32 (c0.measure.2 + l.Spacing))) := by
        simp [VBoxLayout.place, hv, Child.measure]
      rw [hp, List.filter_cons, Child.SetBounds_Visible, hv]
      cases k with
      | zero =>
        simp only [List.getElem?_cons_zero, Option.some.injEq] at hc
        subst hc
        simp [hy]
      | succ k =>
        simp only [List.getElem?_cons_succ] at hc
        simp only [if_true, List.getElem?_cons_succ, List.take_succ_cons, List.map_cons,
          List.sum_cons]
        rw [ih _ k c (wrap32_idem _) hc, wrap32_add_left, wrap32_add_three]

theorem HBoxLayout.hplace_getElem (l : HBoxLayout) (y height : Int) (cs : List Child) :
    ∀ (x : Int) (k : Nat) (c : Child), wrap32 x = x →
      (cs.filter Child.Visible)[k]? = some c →
      ((l.place y height cs x).filter Child.Visible)[k]? =
        some (c.SetBounds
          (wrap32 (x + (((cs.filter Child.Visible).take k).map
            (fun d => d.measure.1 + l.Spacing)).sum))
          y c.measure.1 height) := by
  induction cs with
  | nil => intro x k c _ hc; simp at hc
  | cons c0 cs ih =>
    intro x k c hx hc
    cases hv : c0.Visible
    · have hf : (c0 :: cs).filter Child.Visible = cs.filter Child.Visible := by
        simp [List.filter_cons, hv]
      rw [hf] at hc ⊢
      have hp : l.place y height (c0 :: cs) x = c0 :: l.place y height cs x := by
        simp [HBoxLayout.place, hv]
      rw [hp, List.filter_cons, hv]
      exact ih x k c hx hc
    · have hf : (c0 :: cs).filter Child.Visible = c0 :: cs.filter Child.Visible := by
        simp [List.filter_cons, hv]
      rw [hf] at hc ⊢
      have hp : l.place y height (c0 :: cs) x =
          c0.SetBounds x y c0.measure.1 height ::
            l.place y height cs (wrap32 (x + wrap32 (c0.measure.1 + l.Spacing))) := by
        simp [HBoxLayout.place, hv, Child.measure]
      rw [hp, List.filter_cons, Child.SetBounds_Visible, hv]
      cases k with
      | zero =>
        simp only [List.getElem?_cons_zero, Option.some.injEq] at hc
        subst hc
        simp [hx]
      | succ k =>
        simp only [List.getElem?_cons_succ] at hc
        simp only [if_true, List.getElem?_cons_succ, List.take_succ_cons, List.map_cons,
          List.sum_cons]
        rw [ih _ k c (wrap32_idem _) hc, wrap32_add_left, wrap32_add_three]

/-- C13 (amended): in VBoxLayout.Arrange with container bounds (X,Y,W,H), padding p and
spacing s, the k-th visible child c receives x = X+p, width = W-2p, the
height h_k = its preferred height if that is > 0 and else its current bounds
height, and y_k = Y+p + the sum over the earlier visible children of
(h_j + s), whenever X+p, W-2p and y_k are int32 values; HBoxLayout does the
same with the axes exchanged. -/
theorem C13_box_positions (bounds : Rect) (cs : List Child) (k : Nat) (c : Child)
    (hc : (cs.filter Child.Visible)[k]? = some c) :
    (∀ l : VBoxLayout,
      isInt32 (bounds.X + l.Padding) → isInt32 (bounds.Width - 2 * l.Padding) →
      isInt32 (bounds.Y + l.Padding + (((cs.filter Child.Visible).take k).map
        (fun d => d.measure.2 + l.Spacing)).sum) →
      ∃ c1, ((l.Arrange bounds cs).filter Child.Visible)[k]? = some c1 ∧
        c1.Bounds = ⟨bounds.X + l.Padding,
          bounds.Y + l.Padding + (((cs.filter Child.Visible).take k).map
            (fun d => d.measure.2 + l.Spacing)).sum,
          bounds.Width - 2 * l.Padding,
          if c.GetPreferredSize.2 ≤ 0 then c.Bounds.Height else c.GetPreferredSize.2⟩) ∧
    (∀ l : HBoxLayout,
      isInt32 (bounds.Y + l.Padding) → isInt32 (bounds.Height - 2 * l.Padding) →
      isInt32 (bounds.X + l.Padding + (((cs.filter Child.Visible).take k).map
        (fun d => d.measure.1 + l.Spacing)).sum) →
      ∃ c1, ((l.Arrange bounds cs).filter Child.Visible)[k]? = some c1 ∧
        c1.Bounds = ⟨bounds.X + l.Padding + (((cs.filter Child.Visible).take k).map
            (fun d => d.measure.1 + l.Spacing)).sum,
          bounds.Y + l.Padding,
          if c.GetPreferredSize.1 ≤ 0 then c.Bounds.Width else c.GetPreferredSize.1,
          bounds.Height - 2 * l.Padding⟩) := by
  constructor
  · intro l hx hw hy
    refine ⟨_, VBoxLayout.vplace_getElem l _ _ cs _ k c (wrap32_idem _) hc, ?_⟩
    simp only [Child.SetBounds, wrap32_add_left, wrap32_sub_right]
    rw [wrap32_of_isInt32 hx, wrap32_of_isInt32 hw, wrap32_of_isInt32 hy]
    rfl
  · intro l hy hh hx
    refine ⟨_, HBoxLayout.hplace_getElem l _ _ cs _ k c (wrap32_idem _) hc, ?_⟩
    simp only [Child.SetBounds, wrap32_add_left, wrap32_sub_right]
    rw [wrap32_of_isInt32 hx, wrap32_of_isInt32 hy, wrap32_of_isInt32 hh]
    rfl

/-- C13 (witness): the second visible child of the example, in a VBox with
spacing 5 and padding 10 in the container (0, 0, 200, 300): it sits at
y = 0 + 10 + (30 + 5) with height 20. -/
theorem C13_box_positions_witness :
    ∃ c1, ((VBoxLayout.Arrange ⟨5, 10⟩ ⟨0, 0, 200, 300⟩ mixedExampleChildren).filter
        Child.Visible)[1]? = some c1 ∧ c1.Bounds = ⟨10, 45, 180, 20⟩ := by
  obtain ⟨c1, h1, h2⟩ := (C13_box_positions ⟨0, 0, 200, 300⟩ mixedExampleChildren 1
    ⟨2, ⟨0, 0, 10, 10⟩, true, fun _ => (60, 20)⟩ rfl).1 ⟨5, 10⟩
    (by decide) (by decide) (by decide)
  exact ⟨c1, h1, by rw [h2]; decide⟩

/-! ### Text editing: cursor range, panics, read-only mode -/

theorem runeToString_length (r : Int) : (runeToString r).length = 1 := by
  unfold runeToString; split_ifs <;> rfl

theorem TextBox.backspace_inRange (t : TextBox)
    (hc : cursorInRange t.cursorPos t.Text) (hs : cursorInRange t.selStart t.Text) :
    ∃ t1, t.backspace t.Text = some (t1, true) ∧ cursorInRange t1.cursorPos t1.Text := by
  unfold cursorInRange at *
  unfold TextBox.backspace
  by_cases hlen : t.Text.length > 0
  · rw [if_pos hlen]
    by_cases hne : t.selStart ≠ t.cursorPos
    · rw [if_pos hne]
      by_cases hgt : t.selStart > t.cursorPos
      · simp only [hgt, if_true, sliceTo, sliceFrom]
        rw [if_pos ⟨hc.1, hc.2⟩, if_pos ⟨hs.1, hs.2⟩]
        refine ⟨_, rfl, ?_⟩
        simp only [TextBox.RequestRepaint, List.length_append, List.length_take, List.length_drop]
        omega
      · simp only [hgt, if_false, sliceTo, sliceFrom]
        rw [if_pos ⟨hs.1, hs.2⟩, if_pos ⟨hc.1, hc.2⟩]
        refine ⟨_, rfl, ?_⟩
        simp only [TextBox.RequestRepaint, List.length_append, List.length_take, List.length_drop]
        omega
    · rw [if_neg hne]
      by_cases hpos : t.cursorPos > 0
      · rw [if_pos hpos]
        simp only [sliceTo, sliceFrom]
        rw [if_pos ⟨by omega, by omega⟩, if_pos ⟨hc.1, hc.2⟩]
        refine ⟨_, rfl, ?_⟩
        simp only [TextBox.RequestRepaint, List.length_append, List.length_take, List.length_drop]
        omega
      · rw [if_neg hpos]
        exact ⟨_, rfl, hc⟩
  · rw [if_neg hlen]
    exact ⟨_, rfl, hc⟩

theorem TextBox.insertRune_inRange (t : TextBox) (r : Int)
    (hc : cursorInRange t.cursorPos t.Text) (hs : cursorInRange t.selStart t.Text) :
    ∃ t1, t.insertRune t.Text r = some (t1, true) ∧ cursorInRange t1.cursorPos t1.Text := by
  unfold cursorInRange at *
  unfold TextBox.insertRune
  by_cases hne : t.selStart ≠ t.cursorPos
  · rw [if_pos hne]
    by_cases hgt : t.selStart > t.cursorPos
    · simp only [hgt, if_true, sliceTo, sliceFrom]
      rw [if_pos ⟨hc.1, hc.2⟩, if_pos ⟨hs.1, hs.2⟩]
      refine ⟨_, rfl, ?_⟩
      simp only [TextBox.RequestRepaint, List.length_append, List.length_take,
        List.length_drop, runeToString_length]
      omega
    · simp only [hgt, if_false, sliceTo, sliceFrom]
      rw [if_pos ⟨hs.1, hs.2⟩, if_pos ⟨hc.1, hc.2⟩]
      refine ⟨_, rfl, ?_⟩
      simp only [TextBox.RequestRepaint, List.length_append, List.length_take,
        List.length_drop, runeToString_length]
      omega
  · rw [if_neg hne]
    simp only [sliceTo, sliceFrom]
    rw [if_pos ⟨hc.1, hc.2⟩, if_pos ⟨hc.1, hc.2⟩]
    refine ⟨_, rfl, ?_⟩
    simp only [TextBox.RequestRepaint, List.length_append, List.length_take,
      List.length_drop, runeToString_length]
    omega

theorem TextBox.OnEvent_box_inRange (t : TextBox) (evt : Event)
    (hc : cursorInRange t.cursorPos t.Text) (hs : cursorInRange t.selStart t.Text) :
    ∃ t1 r, t.OnEvent evt = some (t1, r) ∧ cursorInRange t1.cursorPos t1.Text := by
  obtain ⟨ty, ts, data⟩ := evt
  unfold TextBox.OnEvent
  cases hv : t.Visible
  · exact ⟨t, false, by simp, hc⟩
  · simp only [Bool.not_true, Bool.false_eq_true, if_false]
    cases ty
    case EventKeyPress =>
      dsimp only
      cases hf : t.isFocused
      · exact ⟨t, false, by simp, hc⟩
      · cases data with
        | mouse m => exact ⟨t, false, by simp, hc⟩
        | other => exact ⟨t, false, by simp, hc⟩
        | key k =>
          simp only [if_true]
          by_cases h25 : k.VirtualKeyCode = 0x25
          · rw [if_pos h25]
            refine ⟨_, true, rfl, ?_⟩
            unfold cursorInRange at *
            simp only [TextBox.RequestRepaint]
            split_ifs <;> first | (dsimp only; omega) | omega
          · rw [if_neg h25]
            by_cases h27 : k.VirtualKeyCode = 0x27
            · rw [if_pos h27]
              refine ⟨_, true, rfl, ?_⟩
              unfold cursorInRange at *
              simp only [TextBox.RequestRepaint]
              split_ifs <;> first | (dsimp only; omega) | omega
            · rw [if_neg h27]
              cases hro : t.ReadOnly
              · simp only [Bool.false_eq_true, if_false]
                by_cases h08 : k.VirtualKeyCode = 0x08
                · rw [if_pos h08]
                  obtain ⟨t1, h1, h2⟩ := TextBox.backspace_inRange t hc hs
                  exact ⟨t1, true, h1, h2⟩
                · rw [if_neg h08]
                  exact ⟨t, false, rfl, hc⟩
              · exact ⟨t, false, by simp, hc⟩
    case EventChar =>
      dsimp only
      cases hf : t.isFocused
      · exact ⟨t, false, by simp, hc⟩
      · cases hro : t.ReadOnly
        · cases data with
          | mouse m => exact ⟨t, false, by simp, hc⟩
          | other => exact ⟨t, false, by simp, hc⟩
          | key k =>
            simp only [Bool.not_false, Bool.and_self, if_true]
            by_cases hr : k.Rune < 32
            · rw [if_pos hr]; exact ⟨t, false, rfl, hc⟩
            · rw [if_neg hr]
              obtain ⟨t1, h1, h2⟩ := TextBox.insertRune_inRange t k.Rune hc hs
              exact ⟨t1, true, h1, h2⟩
        · exact ⟨t, false, by simp, hc⟩
    case EventMouseClick =>
      dsimp only
      cases data with
      | mouse m =>
        dsimp only
        split_ifs
        · exact ⟨_, true, rfl, hc⟩
        · exact ⟨t, false, rfl, hc⟩
      | other => exact ⟨t, false, rfl, hc⟩
      | key k => exact ⟨t, false, rfl, hc⟩
    case EventMouseMove =>
      dsimp only
      split_ifs
      · cases data with
        | mouse m => exact ⟨_, true, rfl, hc⟩
        | other => exact ⟨t, false, rfl, hc⟩
        | key k => exact ⟨t, false, rfl, hc⟩
      · exact ⟨t, false, rfl, hc⟩
    case EventMouseRelease =>
      dsimp only
      split_ifs
      · exact ⟨_, true, rfl, hc⟩
      · exact ⟨t, false, rfl, hc⟩
    all_goals exact ⟨t, false, rfl, hc⟩

theorem TextArea.clampCursor_eq (t : TextArea) :
    t.clampCursor = { t with cursorPos :=
      if t.cursorPos > t.Text.length then (t.Text.length : Int)
      else if t.cursorPos < 0 then 0 else t.cursorPos } := by
  unfold TextArea.clampCursor
  by_cases h1 : t.cursorPos > t.Text.length
  · have h2 : ¬ ((t.Text.length : Int) < 0) := by omega
    simp [h1, h2]
  · by_cases h2 : t.cursorPos < 0
    · simp [h1, h2]
    · simp [h1, h2]

theorem TextArea.clampCursor_Text (t : TextArea) : t.clampCursor.Text = t.Text := by
  rw [TextArea.clampCursor_eq]

theorem TextArea.clampCursor_inRange (t : TextArea) :
    cursorInRange t.clampCursor.cursorPos t.clampCursor.Text := by
  rw [TextArea.clampCursor_eq]
  unfold cursorInRange
  dsimp only
  split_ifs <;> omega

theorem TextArea.clampCursor_of_inRange (t : TextArea)
    (h : cursorInRange t.cursorPos t.Text) : t.clampCursor = t := by
  unfold cursorInRange at h
  unfold TextArea.clampCursor
  have h1 : ¬ (t.cursorPos > t.Text.length) := by omega
  have h2 : ¬ (t.cursorPos < 0) := by omega
  simp [h1, h2]

theorem TextArea.ensureCursorVisible_cursorPos (t : TextArea) :
    t.ensureCursorVisible.cursorPos = t.cursorPos := by
  unfold TextArea.ensureCursorVisible
  dsimp only
  split_ifs <;> rfl

theorem TextArea.ensureCursorVisible_Text (t : TextArea) :
    t.ensureCursorVisible.Text = t.Text := by
  unfold TextArea.ensureCursorVisible
  dsimp only
  split_ifs <;> rfl

theorem foldl_lineColStep_nonneg (rs : List Int) :
    ∀ lc : Int × Int, 0 ≤ lc.1 → 0 ≤ lc.2 →
      0 ≤ (rs.foldl lineColStep lc).1 ∧ 0 ≤ (rs.foldl lineColStep lc).2 := by
  induction rs with
  | nil => intro lc h1 h2; exact ⟨h1, h2⟩
  | cons r rs ih =>
    intro lc h1 h2
    rw [List.foldl_cons]
    apply ih
    · unfold lineColStep; split_ifs <;> dsimp only <;> omega
    · unfold lineColStep; split_ifs <;> dsimp only <;> omega

theorem TextArea.getLineCol_nonneg (t : TextArea) (pos : Int) :
    0 ≤ (t.getLineCol pos).1 ∧ 0 ≤ (t.getLineCol pos).2 :=
  foldl_lineColStep_nonneg _ (0, 0) (le_refl 0) (le_refl 0)

theorem splitLines_sum (rs : List Int) :
    ((splitLines rs).map (fun l => (l.length : Int) + 1)).sum = rs.length + 1 := by
  induction rs with
  | nil => simp [splitLines]
  | cons r rs ih =>
    unfold splitLines
    by_cases hr : r = 10
    · rw [if_pos hr]
      simp only [List.map_cons, List.sum_cons, List.length_nil, List.length_cons]
      rw [ih]; push_cast; ring
    · rw [if_neg hr]
      cases hs : splitLines rs with
      | nil => rw [hs] at ih; simp at ih; omega
      | cons l ls =>
        rw [hs] at ih
        simp only [List.map_cons, List.sum_cons, List.length_cons] at ih ⊢
        push_cast
        omega

theorem take_sum_le (lines : List (List Int)) :
    ∀ n : Nat, n < lines.length →
      ((lines.take n).map (fun l => (l.length : Int) + 1)).sum +
          (((lines.getD n []).length : Int) + 1) ≤
        (lines.map (fun l => (l.length : Int) + 1)).sum := by
  induction lines with
  | nil => intro n hn; simp at hn
  | cons l ls ih =>
    intro n hn
    cases n with
    | zero =>
      simp only [List.take_zero, List.map_nil, List.sum_nil, List.getD_cons_zero, List.map_cons,
        List.sum_cons, zero_add]
      have : 0 ≤ (ls.map (fun l => (l.length : Int) + 1)).sum := by
        apply List.sum_nonneg
        intro x hx
        simp only [List.mem_map] at hx
        obtain ⟨a, _, rfl⟩ := hx
        omega
      omega
    | succ n =>
      have hn1 : n < ls.length := by simpa using hn
      have := ih n hn1
      simp only [List.take_succ_cons, List.map_cons, List.sum_cons, List.getD_cons_succ]
      omega

theorem take_sum_nonneg (lines : List (List Int)) (n : Nat) :
    0 ≤ ((lines.take n).map (fun l => (l.length : Int) + 1)).sum := by
  apply List.sum_nonneg
  intro x hx
  simp only [List.mem_map] at hx
  obtain ⟨a, _, rfl⟩ := hx
  omega

theorem TextArea.getPosFromLineCol_inRange (t : TextArea) (line col : Int) (hcol : 0 ≤ col) :
    cursorInRange (t.getPosFromLineCol line col) t.Text := by
  unfold TextArea.getPosFromLineCol cursorInRange
  dsimp only
  by_cases h0 : line < 0
  · rw [if_pos h0]; omega
  · rw [if_neg h0]
    by_cases h1 : line ≥ (splitLines t.Text).length
    · rw [if_pos h1]; omega
    · rw [if_neg h1]
      have hn : line.toNat < (splitLines t.Text).length := by omega
      have hle := take_sum_le (splitLines t.Text) line.toNat hn
      have hnn := take_sum_nonneg (splitLines t.Text) line.toNat
      rw [splitLines_sum] at hle
      split_ifs <;> omega

theorem TextArea.inRange_after_scroll (t : TextArea)
    (h : cursorInRange t.cursorPos t.Text) :
    cursorInRange t.ensureCursorVisible.RequestRepaint.cursorPos
      t.ensureCursorVisible.RequestRepaint.Text := by
  have h1 : t.ensureCursorVisible.RequestRepaint.cursorPos = t.cursorPos :=
    TextArea.ensureCursorVisible_cursorPos t
  have h2 : t.ensureCursorVisible.RequestRepaint.Text = t.Text :=
    TextArea.ensureCursorVisible_Text t
  rw [h1, h2]; exact h

theorem TextArea.keyPress_inRange (t : TextArea) (vk : Nat)
    (h : cursorInRange t.cursorPos t.Text) :
    ∃ t1 r, t.keyPress t.Text vk = some (t1, r) ∧ cursorInRange t1.cursorPos t1.Text := by
  have h' := h
  unfold cursorInRange at h'
  unfold TextArea.keyPress
  by_cases h8 : vk = 8
  · rw [if_pos h8]
    by_cases hpos : t.cursorPos > 0
    · rw [if_pos hpos]
      simp only [sliceTo, sliceFrom]
      rw [if_pos ⟨by omega, by omega⟩, if_pos ⟨h'.1, h'.2⟩]
      refine ⟨_, true, rfl, TextArea.inRange_after_scroll _ ?_⟩
      unfold cursorInRange
      simp only [List.length_append, List.length_take, List.length_drop]
      omega
    · rw [if_neg hpos]; exact ⟨t, true, rfl, h⟩
  · rw [if_neg h8]
    by_cases h37 : vk = 37
    · rw [if_pos h37]
      by_cases hpos : t.cursorPos > 0
      · rw [if_pos hpos]
        refine ⟨_, true, rfl, TextArea.inRange_after_scroll _ ?_⟩
        unfold cursorInRange
        dsimp only
        omega
      · rw [if_neg hpos]; exact ⟨t, true, rfl, h⟩
    · rw [if_neg h37]
      by_cases h39 : vk = 39
      · rw [if_pos h39]
        by_cases hlt : t.cursorPos < t.Text.length
        · rw [if_pos hlt]
          refine ⟨_, true, rfl, TextArea.inRange_after_scroll _ ?_⟩
          unfold cursorInRange
          dsimp only
          omega
        · rw [if_neg hlt]; exact ⟨t, true, rfl, h⟩
      · rw [if_neg h39]
        by_cases h38 : vk = 38
        · rw [if_pos h38]
          by_cases hl : (t.getLineCol t.cursorPos).1 > 0
          · rw [if_pos hl]
            exact ⟨_, true, rfl, TextArea.inRange_after_scroll _
              (TextArea.getPosFromLineCol_inRange t _ _ (TextArea.getLineCol_nonneg t _).2)⟩
          · rw [if_neg hl]; exact ⟨t, true, rfl, h⟩
        · rw [if_neg h38]
          by_cases h40 : vk = 40
          · rw [if_pos h40]
            by_cases hl : (t.getLineCol t.cursorPos).1 < ((splitLines t.Text).length : Int) - 1
            · rw [if_pos hl]
              exact ⟨_, true, rfl, TextArea.inRange_after_scroll _
                (TextArea.getPosFromLineCol_inRange t _ _ (TextArea.getLineCol_nonneg t _).2)⟩
            · rw [if_neg hl]; exact ⟨t, true, rfl, h⟩
          · rw [if_neg h40]
            by_cases h13 : vk = 13
            · rw [if_pos h13]
              simp only [sliceTo, sliceFrom]
              rw [if_pos ⟨h'.1, h'.2⟩, if_pos ⟨h'.1, h'.2⟩]
              refine ⟨_, true, rfl, TextArea.inRange_after_scroll _ ?_⟩
              unfold cursorInRange
              simp only [List.length_append, List.length_take, List.length_drop,
                List.length_singleton]
              omega
            · rw [if_neg h13]; exact ⟨t, false, rfl, h⟩

/-- A key event on a focused visible text area: whatever the cursor was, the
handler returns and leaves the cursor inside the text. -/
theorem TextArea.OnEvent_key_inRange (t : TextArea) (ts : Int) (k : KeyEvent)
    (hv : t.Visible = true) (hf : t.isFocused = true) :
    ∃ t1 r, t.OnEvent ⟨.EventKeyPress, ts, .key k⟩ = some (t1, r) ∧
      cursorInRange t1.cursorPos t1.Text := by
  have h := TextArea.keyPress_inRange t.clampCursor k.VirtualKeyCode
    (TextArea.clampCursor_inRange t)
  rw [TextArea.clampCursor_Text] at h
  simpa [TextArea.OnEvent, hv, hf] using h

/-- A character event on a focused visible text area: whatever the cursor
was, the handler returns and leaves the cursor inside the text. -/
theorem TextArea.OnEvent_char_inRange (t : TextArea) (ts : Int) (k : KeyEvent)
    (hv : t.Visible = true) (hf : t.isFocused = true) :
    ∃ t1 r, t.OnEvent ⟨.EventChar, ts, .key k⟩ = some (t1, r) ∧
      cursorInRange t1.cursorPos t1.Text := by
  have hc := TextArea.clampCursor_inRange t
  rw [TextArea.clampCursor_Text] at hc
  have hc' := hc
  unfold cursorInRange at hc'
  simp only [TextArea.OnEvent, hv, hf, Bool.not_true, Bool.false_eq_true, if_false, if_true]
  by_cases hr : k.Rune ≥ 32
  · rw [if_pos hr]
    simp only [sliceTo, sliceFrom]
    rw [if_pos ⟨hc'.1, hc'.2⟩, if_pos ⟨hc'.1, hc'.2⟩]
    refine ⟨_, true, rfl, TextArea.inRange_after_scroll _ ?_⟩
    unfold cursorInRange
    simp only [List.length_append, List.length_take, List.length_drop, runeToString_length]
    omega
  · rw [if_neg hr]
    exact ⟨_, false, rfl, TextArea.clampCursor_inRange t⟩

theorem TextArea.OnEvent_area_inRange (t : TextArea) (evt : Event)
    (hc : cursorInRange t.cursorPos t.Text) :
    ∃ t1 r, t.OnEvent evt = some (t1, r) ∧ cursorInRange t1.cursorPos t1.Text := by
  obtain ⟨ty, ts, data⟩ := evt
  cases hv : t.Visible
  · exact ⟨t, false, by simp [TextArea.OnEvent, hv], hc⟩
  · cases ty
    case EventKeyPress =>
      cases hf : t.isFocused
      · exact ⟨t, false, by simp [TextArea.OnEvent, hv, hf], hc⟩
      · cases data with
        | mouse m => exact ⟨t, false, by simp [TextArea.OnEvent, hv, hf], hc⟩
        | other => exact ⟨t, false, by simp [TextArea.OnEvent, hv, hf], hc⟩
        | key k => exact TextArea.OnEvent_key_inRange t ts k hv hf
    case EventChar =>
      cases hf : t.isFocused
      · exact ⟨t, false, by simp [TextArea.OnEvent, hv, hf], hc⟩
      · cases data with
        | mouse m => exact ⟨t, false, by simp [TextArea.OnEvent, hv, hf], hc⟩
        | other => exact ⟨t, false, by simp [TextArea.OnEvent, hv, hf], hc⟩
        | key k => exact TextArea.OnEvent_char_inRange t ts k hv hf
    case EventMouseClick =>
      cases data with
      | mouse m =>
        simp only [TextArea.OnEvent, hv, Bool.not_true, Bool.false_eq_true, if_false]
        split_ifs
        · exact ⟨_, true, rfl, hc⟩
        · exact ⟨_, false, rfl, hc⟩
        · exact ⟨t, false, rfl, hc⟩
      | other => exact ⟨t, false, by simp [TextArea.OnEvent, hv], hc⟩
      | key k => exact ⟨t, false, by simp [TextArea.OnEvent, hv], hc⟩
    case EventMouseWheel =>
      cases data with
      | mouse m =>
        exact ⟨({ t with scrollY := t.wheelScroll m }).RequestRepaint, true,
          by simp [TextArea.OnEvent, hv], hc⟩
      | other => exact ⟨t, false, by simp [TextArea.OnEvent, hv], hc⟩
      | key k => exact ⟨t, false, by simp [TextArea.OnEvent, hv], hc⟩
    all_goals exact ⟨t, false, by simp [TextArea.OnEvent, hv], hc⟩

/-- C14: for a TextBox whose cursor and anchor lie in [0, rune count] and any
event, OnEvent returns and the cursor again lies in [0, rune count of the new
text]; the same for a TextArea whose cursor lies in that range; and for a
focused visible TextArea a key or character event leaves the cursor in range
whatever it was before.  Positions index the decoded runes of Text. -/
theorem C14_cursor_in_range :
    (∀ (t : TextBox) (evt : Event),
      cursorInRange t.cursorPos t.Text → cursorInRange t.selStart t.Text →
      ∃ t1 r, t.OnEvent evt = some (t1, r) ∧ cursorInRange t1.cursorPos t1.Text) ∧
    (∀ (t : TextArea) (evt : Event), cursorInRange t.cursorPos t.Text →
      ∃ t1 r, t.OnEvent evt = some (t1, r) ∧ cursorInRange t1.cursorPos t1.Text) ∧
    (∀ (t : TextArea) (ts : Int) (k : KeyEvent), t.Visible = true → t.isFocused = true →
      (∃ t1 r, t.OnEvent ⟨.EventKeyPress, ts, .key k⟩ = some (t1, r) ∧
        cursorInRange t1.cursorPos t1.Text) ∧
      (∃ t1 r, t.OnEvent ⟨.EventChar, ts, .key k⟩ = some (t1, r) ∧
        cursorInRange t1.cursorPos t1.Text)) :=
  ⟨fun t evt hc hs => TextBox.OnEvent_box_inRange t evt hc hs,
    fun t evt hc => TextArea.OnEvent_area_inRange t evt hc,
    fun t ts k hv hf =>
      ⟨TextArea.OnEvent_key_inRange t ts k hv hf, TextArea.OnEvent_char_inRange t ts k hv hf⟩⟩

/-- C14 (witness): typing the letter a into the text box "hello world" with
selection [2,5). -/
theorem C14_cursor_in_range_witness :
    ∃ t1 r, helloWorldBox.OnEvent ⟨.EventChar, 0, .key ⟨0, 97, 0⟩⟩ = some (t1, r) ∧
      cursorInRange t1.cursorPos t1.Text :=
  C14_cursor_in_range.1 helloWorldBox ⟨.EventChar, 0, .key ⟨0, 97, 0⟩⟩ (by decide) (by decide)

/-- C15 (failing input): a new text box of width 100 is focused and receives
a mouse-down at (5, 5): OnEvent returns and leaves selStart = -1.  The
character event that follows, with no Render in between, slices
`runes[:-1]` and panics; so does Backspace once the text is not empty. -/
theorem C15_char_after_click_panics :
    ((NewTextBox 100).OnFocus.run [⟨.EventMouseClick, 0, .mouse ⟨5, 5, 1, 0⟩⟩]).map
        (fun t => (t.selStart, t.cursorPos)) = some (-1, 0) ∧
    (NewTextBox 100).OnFocus.run
        [⟨.EventMouseClick, 0, .mouse ⟨5, 5, 1, 0⟩⟩, ⟨.EventChar, 1, .key ⟨0, 97, 0⟩⟩] = none ∧
    (NewTextBox 100).OnFocus.run
        [⟨.EventChar, 0, .key ⟨0, 97, 0⟩⟩, ⟨.EventMouseClick, 1, .mouse ⟨5, 5, 1, 0⟩⟩,
          ⟨.EventKeyPress, 2, .key ⟨8, 0, 0⟩⟩] = none := by
  decide

/-- C16: OnEvent on a read-only TextBox returns and leaves Text unchanged for
every event; on a focused visible read-only TextBox the Left key moves the
cursor one rune left when it is > 0 and the Right key one rune right when it
is below the rune count, and the resulting state is the one of the editable
text box, ReadOnly apart. -/
theorem C16_TextBox_read_only (t : TextBox) (evt : Event) (hro : t.ReadOnly = true) :
    (∃ t1 r, t.OnEvent evt = some (t1, r) ∧ t1.Text = t.Text) ∧
    (∀ (ts : Int) (k : KeyEvent), t.Visible = true → t.isFocused = true →
      (k.VirtualKeyCode = 0x25 →
        ∃ t1, t.OnEvent ⟨.EventKeyPress, ts, .key k⟩ = some (t1, true) ∧
          t1.cursorPos = (if t.cursorPos > 0 then t.cursorPos - 1 else t.cursorPos) ∧
          ({ t with ReadOnly := false }).OnEvent ⟨.EventKeyPress, ts, .key k⟩ =
            some ({ t1 with ReadOnly := false }, true)) ∧
      (k.VirtualKeyCode = 0x27 →
        ∃ t1, t.OnEvent ⟨.EventKeyPress, ts, .key k⟩ = some (t1, true) ∧
          t1.cursorPos =
            (if t.cursorPos < t.Text.length then t.cursorPos + 1 else t.cursorPos) ∧
          ({ t with ReadOnly := false }).OnEvent ⟨.EventKeyPress, ts, .key k⟩ =
            some ({ t1 with ReadOnly := false }, true))) := by
  constructor
  · obtain ⟨ty, ts, data⟩ := evt
    cases hv : t.Visible
    · exact ⟨t, false, by simp [TextBox.OnEvent, hv], rfl⟩
    · cases ty
      case EventKeyPress =>
        cases hf : t.isFocused
        · exact ⟨t, false, by simp [TextBox.OnEvent, hv, hf], rfl⟩
        · cases data with
          | mouse m => exact ⟨t, false, by simp [TextBox.OnEvent, hv, hf], rfl⟩
          | other => exact ⟨t, false, by simp [TextBox.OnEvent, hv, hf], rfl⟩
          | key k =>
            simp only [TextBox.OnEvent, hv, hf, hro, Bool.not_true, Bool.false_eq_true,
              if_false, if_true]
            by_cases h25 : k.VirtualKeyCode = 0x25
            · rw [if_pos h25]
              refine ⟨_, true, rfl, ?_⟩
              simp only [TextBox.RequestRepaint]
              split_ifs <;> rfl
            · rw [if_neg h25]
              by_cases h27 : k.VirtualKeyCode = 0x27
              · rw [if_pos h27]
                refine ⟨_, true, rfl, ?_⟩
                simp only [TextBox.RequestRepaint]
                split_ifs <;> rfl
              · rw [if_neg h27]
                exact ⟨t, false, rfl, rfl⟩
      case EventChar =>
        exact ⟨t, false, by simp [TextBox.OnEvent, hv, hro], rfl⟩
      case EventMouseClick =>
        cases data with
        | mouse m =>
          simp only [TextBox.OnEvent, hv, Bool.not_true, Bool.false_eq_true, if_false]
          split_ifs
          · exact ⟨_, true, rfl, rfl⟩
          · exact ⟨t, false, rfl, rfl⟩
        | other => exact ⟨t, false, by simp [TextBox.OnEvent, hv], rfl⟩
        | key k => exact ⟨t, false, by simp [TextBox.OnEvent, hv], rfl⟩
      case EventMouseMove =>
        simp only [TextBox.OnEvent, hv, Bool.not_true, Bool.false_eq_true, if_false]
        split_ifs
        · cases data with
          | mouse m => exact ⟨_, true, rfl, rfl⟩
          | other => exact ⟨t, false, rfl, rfl⟩
          | key k => exact ⟨t, false, rfl, rfl⟩
        · exact ⟨t, false, rfl, rfl⟩
      case EventMouseRelease =>
        simp only [TextBox.OnEvent, hv, Bool.not_true, Bool.false_eq_true, if_false]
        split_ifs
        · exact ⟨_, true, rfl, rfl⟩
        · exact ⟨t, false, rfl, rfl⟩
      all_goals exact ⟨t, false, by simp [TextBox.OnEvent, hv], rfl⟩
  · intro ts k hv hf
    constructor
    · intro h25
      by_cases hpos : t.cursorPos > 0 <;>
        by_cases hsh : (k.Modifiers &&& ModShift) = 0 <;>
        simp [TextBox.OnEvent, TextBox.RequestRepaint, hv, hf, h25, hpos, hsh]
    · intro h27
      by_cases hlt : t.cursorPos < t.Text.length <;>
        by_cases hsh : (k.Modifiers &&& ModShift) = 0 <;>
        simp [TextBox.OnEvent, TextBox.RequestRepaint, hv, hf, h27, hlt, hsh]

/-- C16 (witness): a character typed into the read-only box "42" leaves the
text as it is. -/
theorem C16_TextBox_read_only_witness :
    ∃ t1 r, readOnlyBox.OnEvent ⟨.EventChar, 0, .key ⟨0, 55, 0⟩⟩ = some (t1, r) ∧
      t1.Text = readOnlyBox.Text :=
  (C16_TextBox_read_only readOnlyBox ⟨.EventChar, 0, .key ⟨0, 55, 0⟩⟩ rfl).1

/-- C17 (failing input): on a focused visible TextArea with ReadOnly = true
and text "ab", Backspace leaves "a", Enter leaves "ab" followed by a newline
and the character c leaves "abc": the text is edited. -/
theorem C17_TextArea_read_only_edits :
    readOnlyArea.ReadOnly = true ∧
    (readOnlyArea.OnEvent ⟨.EventKeyPress, 0, .key ⟨8, 0, 0⟩⟩).map
        (fun p => (p.1.Text, p.2)) = some (runes "a", true) ∧
    (readOnlyArea.OnEvent ⟨.EventKeyPress, 0, .key ⟨13, 0, 0⟩⟩).map
        (fun p => (p.1.Text, p.2)) = some (runes "ab\n", true) ∧
    (readOnlyArea.OnEvent ⟨.EventChar, 0, .key ⟨0, 99, 0⟩⟩).map
        (fun p => (p.1.Text, p.2)) = some (runes "abc", true) := by
  decide

/-! ### Event dispatch -/

theorem cutAfterFirst_of_all_false {α : Type} (p : α → Bool) (l : List α)
    (h : l.any p = false) : cutAfterFirst p l = l := by
  induction l with
  | nil => rfl
  | cons a as ih =>
    simp only [List.any_cons, Bool.or_eq_false_iff] at h
    simp [cutAfterFirst, h.1, ih h.2]

theorem cutAfterFirst_append_singleton {α : Type} (p : α → Bool) (l : List α) (a : α) :
    cutAfterFirst p (l ++ [a]) = if l.any p then cutAfterFirst p l else l ++ [a] := by
  induction l with
  | nil => simp [cutAfterFirst]
  | cons b bs ih =>
    cases hb : p b
    · have hc : cutAfterFirst p (b :: bs ++ [a]) = b :: cutAfterFirst p (bs ++ [a]) := by
        simp [cutAfterFirst, hb]
      rw [hc, ih]
      simp only [List.any_cons, hb, Bool.false_or, cutAfterFirst, Bool.false_eq_true, if_false]
      split_ifs <;> rfl
    · simp [cutAfterFirst, hb]

theorem Component.dispatch_eq (h : CompId → Bool) (cs : List Component) :
    (Component.dispatch h cs).1 =
        (cutAfterFirst (fun c => (c.OnEvent h).2) cs.reverse).flatMap
          (fun c => (c.OnEvent h).1) ∧
      (Component.dispatch h cs).2 = cs.any (fun c => (c.OnEvent h).2) := by
  induction cs with
  | nil => simp [Component.dispatch, cutAfterFirst]
  | cons c cs ih =>
    obtain ⟨ih1, ih2⟩ := ih
    rw [Component.dispatch, List.reverse_cons, cutAfterFirst_append_singleton,
      List.any_reverse]
    cases hany : cs.any (fun c => (c.OnEvent h).2)
    · rw [hany] at ih2
      have hcut := cutAfterFirst_of_all_false (fun c => (c.OnEvent h).2) cs.reverse
        (by rw [List.any_reverse]; exact hany)
      rw [hcut] at ih1
      simp [ih1, ih2, hany, List.flatMap_append]
    · rw [hany] at ih2
      simp [ih1, ih2, hany]

mutual
theorem Component.OnEvent_ids (h : CompId → Bool) :
    ∀ (c : Component) (i : CompId), i ∈ (c.OnEvent h).1 → i ∈ c.ids
  | .leaf id _ _, i, hi => by
    simpa [Component.OnEvent, Component.ids] using hi
  | .card id _ _ p, i, hi => by
    simp only [Component.OnEvent, List.mem_cons] at hi
    simp only [Component.ids, List.mem_cons]
    rcases hi with rfl | hi
    · exact Or.inl rfl
    · exact Or.inr (Component.OnEvent_ids h p i hi)
  | .panel id _ v cs, i, hi => by
    cases v
    · simp only [Component.OnEvent, Bool.not_false, if_true, List.mem_singleton] at hi
      simp [Component.ids, hi]
    · simp only [Component.OnEvent, Bool.not_true, Bool.false_eq_true, if_false,
        List.mem_cons] at hi
      rcases hi with rfl | hi
      · simp [Component.ids]
      · simp only [Component.ids, List.mem_cons]
        exact Or.inr (Component.dispatch_ids h cs i hi)
theorem Component.dispatch_ids (h : CompId → Bool) :
    ∀ (cs : List Component) (i : CompId),
      i ∈ (Component.dispatch h cs).1 → i ∈ Component.idsList cs
  | [], i, hi => by simp [Component.dispatch] at hi
  | c :: cs, i, hi => by
    rw [Component.dispatch] at hi
    simp only [Component.idsList, List.mem_append]
    split_ifs at hi
    · exact Or.inr (Component.dispatch_ids h cs i hi)
    · simp only [List.mem_append] at hi
      rcases hi with hi | hi
      · exact Or.inr (Component.dispatch_ids h cs i hi)
      · exact Or.inl (Component.OnEvent_ids h c i hi)
end

theorem Component.OnEvent_head (h : CompId → Bool) (c : Component) :
    (c.OnEvent h).1.head? = some c.id := by
  cases c with
  | leaf id b v => rfl
  | card id b v p => simp [Component.OnEvent, Component.id]
  | panel id b v cs => cases v <;> rfl

/-- C19 (counterexample): the root panel 0 holds the leaf 1.  A click at
(50, 50), on the empty area, makes FindComponentAt return the root, which
becomes the focused component; the key event that follows runs OnEvent on
the root and then on the leaf 1, a component that is not focused. -/
theorem C19_focused_panel_forwards_keys :
    dispatchExample.FindComponentAt 50 50 = some dispatchExample ∧
    wndProcDispatch (fun _ => false) dispatchExample (some dispatchExample)
      ⟨.EventKeyPress, 0, .key ⟨65, 0, 0⟩⟩ = [0, 1] :=
  ⟨rfl, rfl⟩

/-- C19 (amended): for a key-down, key-up, character or wheel event the
window calls OnEvent on the focused component only, and on nothing when no
component is focused; the root is not consulted.  The first call is on the
focused component; every further call is made by the focused component
itself, on its own descendants: a focused visible Panel forwards the event
to its children, last-added first, until one returns true (an invisible one
forwards nothing); a focused Card, visible or not, forwards it to its inner
panel, which treats it in that same way; a focused component of any other
type (neither Panel nor Card) receives the only call. -/
theorem C19_dispatch_to_focus (h : CompId → Bool) (root : Component) (evt : Event)
    (hty : evt.Typ.toFocused = true) :
    wndProcDispatch h root none evt = [] ∧
    (∀ c : Component, wndProcDispatch h root (some c) evt = (c.OnEvent h).1 ∧
      (wndProcDispatch h root (some c) evt).head? = some c.id ∧
      (∀ i ∈ wndProcDispatch h root (some c) evt, i ∈ c.ids)) ∧
    (∀ (id : CompId) (b : Rect) (v : Bool),
      wndProcDispatch h root (some (.leaf id b v)) evt = [id]) ∧
    (∀ (id : CompId) (b : Rect) (cs : List Component),
      wndProcDispatch h root (some (.panel id b true cs)) evt =
        id :: (cutAfterFirst (fun c => (c.OnEvent h).2) cs.reverse).flatMap
          (fun c => (c.OnEvent h).1) ∧
      wndProcDispatch h root (some (.panel id b false cs)) evt = [id]) ∧
    (∀ (id pid : CompId) (b pb : Rect) (v : Bool) (cs : List Component),
      wndProcDispatch h root (some (.card id b v (.panel pid pb true cs))) evt =
        id :: pid :: (cutAfterFirst (fun c => (c.OnEvent h).2) cs.reverse).flatMap
          (fun c => (c.OnEvent h).1) ∧
      wndProcDispatch h root (some (.card id b v (.panel pid pb false cs))) evt =
        [id, pid]) := by
  have hd : ∀ f : Option Component, wndProcDispatch h root f evt =
      match f with
      | some c => (c.OnEvent h).1
      | none => [] := by
    intro f; simp [wndProcDispatch, hty]
  refine ⟨by rw [hd], fun c => ⟨by rw [hd], ?_, ?_⟩, fun id b v => by rw [hd]; rfl, ?_, ?_⟩
  · rw [hd]; exact Component.OnEvent_head h c
  · intro i hi
    rw [hd] at hi
    exact Component.OnEvent_ids h c i hi
  · intro id b cs
    rw [hd, hd]
    refine ⟨?_, rfl⟩
    simp [Component.OnEvent, (Component.dispatch_eq h cs).1]
  · intro id pid b pb v cs
    rw [hd, hd]
    refine ⟨?_, rfl⟩
    simp [Component.OnEvent, (Component.dispatch_eq h cs).1]

/-- C19 (witness): a character event with the leaf 1 focused reaches the leaf
1 alone; with the card 5 focused, whose inner panel 6 holds the buttons 7 and
8, it reaches the card, its inner panel and the buttons 8 and 7. -/
theorem C19_dispatch_to_focus_witness :
    wndProcDispatch (fun _ => false) dispatchExample (some (.leaf 1 ⟨10, 10, 20, 20⟩ true))
      ⟨.EventChar, 0, .key ⟨0, 97, 0⟩⟩ = [1] ∧
    wndProcDispatch (fun _ => false) dispatchExample (some focusedCard)
      ⟨.EventChar, 0, .key ⟨0, 97, 0⟩⟩ = [5, 6, 8, 7] :=
  ⟨(C19_dispatch_to_focus (fun _ => false) dispatchExample ⟨.EventChar, 0, .key ⟨0, 97, 0⟩⟩
    rfl).2.2.1 1 ⟨10, 10, 20, 20⟩ true,
   ((C19_dispatch_to_focus (fun _ => false) dispatchExample ⟨.EventChar, 0, .key ⟨0, 97, 0⟩⟩
    rfl).2.1 focusedCard).1.trans rfl⟩

/-- C20: Panel.OnEvent on a visible panel with children c0..c(n-1) calls the
children's OnEvent in the order c(n-1), c(n-2), ..., up to and including the
first child that returns true, and calls no child after it; it returns true
exactly when some child returned true, false when every child returned
false; an invisible panel calls no child and returns false. -/
theorem C20_Panel_OnEvent (h : CompId → Bool) (id : CompId) (b : Rect)
    (cs : List Component) :
    ((Component.panel id b true cs).OnEvent h).1 =
      id :: (cutAfterFirst (fun c => (c.OnEvent h).2) cs.reverse).flatMap
        (fun c => (c.OnEvent h).1) ∧
    ((Component.panel id b true cs).OnEvent h).2 = cs.any (fun c => (c.OnEvent h).2) ∧
    (((Component.panel id b true cs).OnEvent h).2 = false ↔
      ∀ c ∈ cs, (c.OnEvent h).2 = false) ∧
    (Component.panel id b false cs).OnEvent h = ([id], false) := by
  have hd := Component.dispatch_eq h cs
  refine ⟨by simp [Component.OnEvent, hd.1], by simp [Component.OnEvent, hd.2], ?_, rfl⟩
  simp [Component.OnEvent, hd.2]

/-- C20 (witness): under the panel 0 the leaves 3 and 2 are called in this
order; 2 returns true, the leaf 1 is not called and the panel returns true. -/
theorem C20_Panel_OnEvent_witness :
    dispatchThree.OnEvent dispatchAnswer = ([0, 3, 2], true) ∧
    (dispatchThree.OnEvent dispatchAnswer).1 =
      0 :: (cutAfterFirst (fun c => (c.OnEvent dispatchAnswer).2)
        [Component.leaf 1 ⟨0, 0, 10, 10⟩ true, .leaf 2 ⟨0, 0, 10, 10⟩ true,
          .leaf 3 ⟨0, 0, 10, 10⟩ true].reverse).flatMap
        (fun c => (c.OnEvent dispatchAnswer).1) :=
  ⟨rfl, (C20_Panel_OnEvent dispatchAnswer 0 ⟨0, 0, 100, 100⟩
    [.leaf 1 ⟨0, 0, 10, 10⟩ true, .leaf 2 ⟨0, 0, 10, 10⟩ true,
      .leaf 3 ⟨0, 0, 10, 10⟩ true]).1⟩

/-! ### Render and the repaint flag -/

/-- C18 (failing input): a visible ProgressBar, LineChart and Card with
RepaintRequested = true still have RepaintRequested = true after Render (the
card clears the flag of its inner panel only), while a Button in the same
state comes out of Render with the flag cleared. -/
theorem C18_flag_left_set :
    (NewProgressBar 100 10).RequestRepaint.Render.RepaintRequested = true ∧
    ((NewLineChart Nat 200 100).AddPoint 1).Render.RepaintRequested = true ∧
    (((NewLineChart Nat 200 100).AddPoint 1).AddPoint 2).Render.RepaintRequested = true ∧
    (Card.Render { NewCard 200 100 with RepaintRequested := true }).RepaintRequested = true ∧
    (Card.Render { NewCard 200 100 with RepaintRequested := true }).InnerPanel.RepaintRequested
      = false ∧
    (Button.Render ⟨⟨0, 0, 100, 30⟩, true, true, [], none, false, false⟩).RepaintRequested
      = false := by
  decide

/-! ### Sizes handed out by the layouts -/

theorem wrap32_isInt32 (a : Int) : isInt32 (wrap32 a) := by
  unfold isInt32 wrap32; omega

theorem div32_isInt32 (a b q : Int) (h : div32 a b = some q) : isInt32 q := by
  unfold div32 at h
  split_ifs at h
  simp only [Option.some.injEq] at h
  rw [← h]
  exact wrap32_isInt32 _

theorem FlexLayout.placeRow_stretch (l : FlexLayout) (y height : Int) (t : FlexTotals)
    (L gap : Int) (hs : l.AlignItems = FlexAlign.AlignStretch) :
    ∀ (zs : List (Child × (Int × Int))) (cur : Int),
      ∀ o ∈ l.placeRow y height t L gap zs cur, o.Visible = true → o.Bounds.Height = height := by
  intro zs
  induction zs with
  | nil => intro cur o ho; simp [FlexLayout.placeRow] at ho
  | cons z zs ih =>
    intro cur o ho hv
    obtain ⟨c, sz⟩ := z
    cases hc : c.Visible
    · simp only [FlexLayout.placeRow, hc, Bool.not_false, if_true, List.mem_cons] at ho
      rcases ho with h | h
      · subst h; rw [hc] at hv; exact absurd hv (by decide)
      · exact ih cur o h hv
    · simp only [FlexLayout.placeRow, hc, Bool.not_true, Bool.false_eq_true, if_false,
        List.mem_cons] at ho
      rcases ho with h | h
      · subst h; simp [Child.SetBounds, FlexLayout.align, hs]
      · exact ih _ o h hv

theorem FlexLayout.placeColumn_stretch (l : FlexLayout) (x width : Int) (t : FlexTotals)
    (L gap : Int) (hs : l.AlignItems = FlexAlign.AlignStretch) :
    ∀ (zs : List (Child × (Int × Int))) (cur : Int),
      ∀ o ∈ l.placeColumn x width t L gap zs cur, o.Visible = true → o.Bounds.Width = width := by
  intro zs
  induction zs with
  | nil => intro cur o ho; simp [FlexLayout.placeColumn] at ho
  | cons z zs ih =>
    intro cur o ho hv
    obtain ⟨c, sz⟩ := z
    cases hc : c.Visible
    · simp only [FlexLayout.placeColumn, hc, Bool.not_false, if_true, List.mem_cons] at ho
      rcases ho with h | h
      · subst h; rw [hc] at hv; exact absurd hv (by decide)
      · exact ih cur o h hv
    · simp only [FlexLayout.placeColumn, hc, Bool.not_true, Bool.false_eq_true, if_false,
        List.mem_cons] at ho
      rcases ho with h | h
      · subst h; simp [Child.SetBounds, FlexLayout.align, hs]
      · exact ih _ o h hv

theorem GridLayout.place_unit_span (l : GridLayout) (sx sy cw ch : Int) (c : Child)
    (hv : c.Visible = true) (hr : (l.propsOf c).RowSpan = 1) (hc : (l.propsOf c).ColSpan = 1) :
    (l.place sx sy cw ch c).Bounds.Width = wrap32 cw ∧
    (l.place sx sy cw ch c).Bounds.Height = wrap32 ch := by
  simp only [GridLayout.place, hv, Child.SetBounds, Bool.not_true, Bool.false_eq_true, if_false,
    hr, hc]
  have h0 : wrap64 (1 - 1) = 0 := by decide
  have h1 : wrap32 1 = 1 := by decide
  have h00 : wrap32 0 = 0 := by decide
  simp only [h0, h1, h00, one_mul, zero_mul, add_zero, wrap32_idem, and_self]



/-- C21 (failing input): in the container (0, 0, 10, 10) with padding 10 and
spacing 0, VBox gives both children the width -10, HBox the height -10, and a
flex row with AlignStretch the height -10; the 1 x 1 grid gives the size
0 x 0. -/
theorem C21_padding_exceeds_extent :
    (VBoxLayout.Arrange ⟨0, 10⟩ ⟨0, 0, 10, 10⟩ boxExampleChildren).map (fun c => c.Bounds) =
      [⟨10, 10, -10, 30⟩, ⟨10, 40, -10, 20⟩] ∧
    (HBoxLayout.Arrange ⟨0, 10⟩ ⟨0, 0, 10, 10⟩ boxExampleChildren).map (fun c => c.Bounds) =
      [⟨10, 10, 40, -10⟩, ⟨50, 10, 60, -10⟩] ∧
    (stretchExample.Arrange ⟨0, 0, 10, 10⟩ boxExampleChildren).map
        (fun out => out.map (fun c => c.Bounds)) =
      some [⟨10, 10, 40, -10⟩, ⟨50, 10, 60, -10⟩] ∧
    ((GridLayout.mk 1 1 0 10 (fun _ => none)).Arrange ⟨0, 0, 10, 10⟩ boxExampleChildren).map
        (fun out => out.map (fun c => c.Bounds)) =
      some [⟨10, 10, 0, 0⟩, ⟨10, 10, 0, 0⟩] := by
  refine ⟨by decide, by decide, by decide, by decide⟩

/-- Sizes assigned without overflow: VBox gives the k-th visible child the width W - 2p and its
measured height, HBox the height H - 2p and its measured width, without a
clamp: the cross-axis size is >= 0 exactly when 2p <= the extent.  A flex
layout with AlignStretch gives every visible child the cross-axis size H - 2p
(row) or W - 2p (column).  The grid clamps its cell size at 0: a visible child
that covers one cell gets a width >= 0 and a height >= 0 for every padding. -/
theorem layout_assigned_sizes (bounds : Rect) (cs : List Child) :
    (∀ l : VBoxLayout, isInt32 (bounds.Width - 2 * l.Padding) →
      ∀ (k : Nat) (c : Child), (cs.filter Child.Visible)[k]? = some c →
        ∃ o, ((l.Arrange bounds cs).filter Child.Visible)[k]? = some o ∧
          o.Bounds.Width = bounds.Width - 2 * l.Padding ∧ o.Bounds.Height = c.measure.2 ∧
          (0 ≤ o.Bounds.Width ↔ 2 * l.Padding ≤ bounds.Width)) ∧
    (∀ l : HBoxLayout, isInt32 (bounds.Height - 2 * l.Padding) →
      ∀ (k : Nat) (c : Child), (cs.filter Child.Visible)[k]? = some c →
        ∃ o, ((l.Arrange bounds cs).filter Child.Visible)[k]? = some o ∧
          o.Bounds.Height = bounds.Height - 2 * l.Padding ∧ o.Bounds.Width = c.measure.1 ∧
          (0 ≤ o.Bounds.Height ↔ 2 * l.Padding ≤ bounds.Height)) ∧
    (∀ (l : FlexLayout) (out : List Child), l.AlignItems = FlexAlign.AlignStretch →
      l.Arrange bounds cs = some out → ∀ o ∈ out, o.Visible = true →
        (l.Direction = FlexDirection.FlexRow → isInt32 (bounds.Height - 2 * l.Padding) →
          o.Bounds.Height = bounds.Height - 2 * l.Padding) ∧
        (l.Direction = FlexDirection.FlexColumn → isInt32 (bounds.Width - 2 * l.Padding) →
          o.Bounds.Width = bounds.Width - 2 * l.Padding)) ∧
    (∀ (l : GridLayout) (out : List Child), l.Rows ≠ 0 → l.Cols ≠ 0 →
      l.Arrange bounds cs = some out →
      ∀ (k : Nat) (c : Child), cs[k]? = some c → c.Visible = true →
        (l.propsOf c).RowSpan = 1 → (l.propsOf c).ColSpan = 1 →
        ∃ o, out[k]? = some o ∧ 0 ≤ o.Bounds.Width ∧ 0 ≤ o.Bounds.Height) := by
  refine ⟨?_, ?_, ?_, ?_⟩
  · intro l hw k c hc
    refine ⟨_, VBoxLayout.vplace_getElem l _ _ cs _ k c (wrap32_idem _) hc, ?_⟩
    simp only [Child.SetBounds, wrap32_sub_right]
    rw [wrap32_of_isInt32 hw]
    exact ⟨rfl, trivial, by omega⟩
  · intro l hh k c hc
    refine ⟨_, HBoxLayout.hplace_getElem l _ _ cs _ k c (wrap32_idem _) hc, ?_⟩
    simp only [Child.SetBounds, wrap32_sub_right]
    rw [wrap32_of_isInt32 hh]
    exact ⟨rfl, trivial, by omega⟩
  · intro l out hs hout o ho hv
    constructor
    · intro hd hh
      simp only [FlexLayout.Arrange, hd, if_true] at hout
      rw [FlexLayout.arrangeRow_eq] at hout
      split_ifs at hout with hlen
      · have hnil : cs = [] := List.length_eq_zero.mp hlen
        simp only [Option.some.injEq] at hout
        rw [← hout, hnil] at ho
        simp at ho
      · cases hj : l.justify (wrap32 (bounds.X + l.Padding)) (l.measureRow cs ⟨0, 0, 0⟩)
            (l.remaining (wrap32 (bounds.Width - wrap32 (2 * l.Padding)))
              (l.measureRow cs ⟨0, 0, 0⟩)) with
        | none => rw [hj] at hout; simp at hout
        | some p =>
          rw [hj] at hout
          simp only [Option.map_some', Option.some.injEq] at hout
          rw [← hout] at ho
          have := FlexLayout.placeRow_stretch l _ _ _ _ _ hs _ _ o ho hv
          rw [this, wrap32_sub_right, wrap32_of_isInt32 hh]
    · intro hd hw
      have hne : ¬ (l.Direction = FlexDirection.FlexRow) := by rw [hd]; decide
      simp only [FlexLayout.Arrange, hne, if_false] at hout
      rw [FlexLayout.arrangeColumn_eq] at hout
      split_ifs at hout with hlen
      · have hnil : cs = [] := List.length_eq_zero.mp hlen
        simp only [Option.some.injEq] at hout
        rw [← hout, hnil] at ho
        simp at ho
      · cases hj : l.justify (wrap32 (bounds.Y + l.Padding)) (l.measureColumn cs ⟨0, 0, 0⟩)
            (l.remaining (wrap32 (bounds.Height - wrap32 (2 * l.Padding)))
              (l.measureColumn cs ⟨0, 0, 0⟩)) with
        | none => rw [hj] at hout; simp at hout
        | some p =>
          rw [hj] at hout
          simp only [Option.map_some', Option.some.injEq] at hout
          rw [← hout] at ho
          have := FlexLayout.placeColumn_stretch l _ _ _ _ _ hs _ _ o ho hv
          rw [this, wrap32_sub_right, wrap32_of_isInt32 hw]
  · intro l out hR hC hout k c hc hv hrs hcs
    have hz : ¬ (l.Rows = 0 ∨ l.Cols = 0) := by
      intro h; rcases h with h | h
      · exact hR h
      · exact hC h
    simp only [GridLayout.Arrange, if_neg hz] at hout
    split at hout
    · rename_i cw ch hcw hch
      simp only [Option.some.injEq] at hout
      rw [← hout, List.getElem?_map, hc]
      refine ⟨_, rfl, ?_⟩
      obtain ⟨h1, h2⟩ := GridLayout.place_unit_span l (wrap32 (bounds.X + l.Padding))
        (wrap32 (bounds.Y + l.Padding)) (if cw < 0 then 0 else cw) (if ch < 0 then 0 else ch)
        c hv hrs hcs
      rw [h1, h2]
      have hcw32 := div32_isInt32 _ _ _ hcw
      have hch32 := div32_isInt32 _ _ _ hch
      constructor
      · split_ifs
        · decide
        · rw [wrap32_of_isInt32 hcw32]; omega
      · split_ifs
        · decide
        · rw [wrap32_of_isInt32 hch32]; omega
    · simp at hout

/-- Example: in the container (0, 0, 200, 300) with padding 10 the
second visible child of the example gets the width 180 from VBox. -/
theorem layout_assigned_sizes_example :
    ∃ o, ((VBoxLayout.Arrange ⟨5, 10⟩ ⟨0, 0, 200, 300⟩ mixedExampleChildren).filter
        Child.Visible)[1]? = some o ∧ o.Bounds.Width = 180 ∧ o.Bounds.Height = 20 := by
  obtain ⟨o, h1, h2, h3, _⟩ := (layout_assigned_sizes ⟨0, 0, 200, 300⟩ mixedExampleChildren).1
    ⟨5, 10⟩ (by decide) 1 ⟨2, ⟨0, 0, 10, 10⟩, true, fun _ => (60, 20)⟩ rfl
  exact ⟨o, h1, by rw [h2]; decide, by rw [h3]; decide⟩

/-! ### Text area: the caret line stays in view -/

theorem TextArea.ensureCursorVisible_fields (t : TextArea) :
    t.ensureCursorVisible.lineHeight = t.lineHeight ∧
    t.ensureCursorVisible.Bounds = t.Bounds := by
  unfold TextArea.ensureCursorVisible
  dsimp only
  split_ifs <;> exact ⟨rfl, rfl⟩

theorem TextArea.getLineCol_congr (t s : TextArea) (h : t.Text = s.Text) (pos : Int) :
    t.getLineCol pos = s.getLineCol pos := by
  unfold TextArea.getLineCol
  rw [h]

/-- After `ensureCursorVisible` the caret line lies inside the viewport, when
the line height is between 0 and the height of the area and the bottom of the
caret line is an `int32` value. -/
theorem TextArea.ensureCursorVisible_view (t : TextArea)
    (hlh : 0 ≤ t.lineHeight) (hH : t.lineHeight ≤ t.Bounds.Height)
    (hHi : isInt32 t.Bounds.Height) (hs : isInt32 t.scrollY)
    (hno : 5 + ((t.getLineCol t.cursorPos).1 + 1) * t.lineHeight ≤ 2147483647) :
    t.ensureCursorVisible.caretLineVisible := by
  have hl := (TextArea.getLineCol_nonneg t t.cursorPos).1
  have hP : 0 ≤ (t.getLineCol t.cursorPos).1 * t.lineHeight := mul_nonneg hl hlh
  have hexp : ((t.getLineCol t.cursorPos).1 + 1) * t.lineHeight =
      (t.getLineCol t.cursorPos).1 * t.lineHeight + t.lineHeight := by ring
  have hline : t.ensureCursorVisible.getLineCol t.ensureCursorVisible.cursorPos =
      t.getLineCol t.cursorPos := by
    rw [TextArea.ensureCursorVisible_cursorPos]
    exact TextArea.getLineCol_congr _ _ (TextArea.ensureCursorVisible_Text t) _
  obtain ⟨hf1, hf2⟩ := TextArea.ensureCursorVisible_fields t
  unfold TextArea.caretLineVisible
  rw [hline, hf1, hf2, hexp]
  rw [hexp] at hno
  have htop : wrap32 (5 + wrap32 (wrap32 (t.getLineCol t.cursorPos).1 * t.lineHeight)) =
      5 + (t.getLineCol t.cursorPos).1 * t.lineHeight := by
    rw [wrap32_mul_left, wrap32_add_right]
    exact wrap32_of_isInt32 (by unfold isInt32; omega)
  unfold TextArea.ensureCursorVisible
  simp only [htop]
  generalize (t.getLineCol t.cursorPos).1 * t.lineHeight = P at hP hno ⊢
  unfold isInt32 at hHi hs
  unfold wrap32
  split_ifs with h1 h2 h3 h4 h5 <;> (try dsimp only at *) <;> omega

/-- What the key switch of a text area does to a state whose cursor is in
range: it returns, and either leaves cursor and text alone or ends with
`ensureCursorVisible` and `RequestRepaint` on a state with the old line
height, bounds and scroll offset. -/
theorem TextArea.keyPress_shape (t : TextArea) (vk : Nat)
    (h : cursorInRange t.cursorPos t.Text) :
    ∃ t1 r, t.keyPress t.Text vk = some (t1, r) ∧
      ((t1.cursorPos = t.cursorPos ∧ t1.Text = t.Text) ∨
        ∃ t0 : TextArea, t1 = t0.ensureCursorVisible.RequestRepaint ∧
          t0.lineHeight = t.lineHeight ∧ t0.Bounds = t.Bounds ∧ t0.scrollY = t.scrollY) := by
  have h' := h
  unfold cursorInRange at h'
  unfold TextArea.keyPress
  by_cases h8 : vk = 8
  · rw [if_pos h8]
    by_cases hpos : t.cursorPos > 0
    · rw [if_pos hpos]
      simp only [sliceTo, sliceFrom]
      rw [if_pos ⟨by omega, by omega⟩, if_pos ⟨h'.1, h'.2⟩]
      exact ⟨_, true, rfl, Or.inr ⟨_, rfl, rfl, rfl, rfl⟩⟩
    · rw [if_neg hpos]; exact ⟨t, true, rfl, Or.inl ⟨rfl, rfl⟩⟩
  · rw [if_neg h8]
    by_cases h37 : vk = 37
    · rw [if_pos h37]
      by_cases hpos : t.cursorPos > 0
      · rw [if_pos hpos]
        exact ⟨_, true, rfl, Or.inr ⟨_, rfl, rfl, rfl, rfl⟩⟩
      · rw [if_neg hpos]; exact ⟨t, true, rfl, Or.inl ⟨rfl, rfl⟩⟩
    · rw [if_neg h37]
      by_cases h39 : vk = 39
      · rw [if_pos h39]
        by_cases hlt : t.cursorPos < t.Text.length
        · rw [if_pos hlt]
          exact ⟨_, true, rfl, Or.inr ⟨_, rfl, rfl, rfl, rfl⟩⟩
        · rw [if_neg hlt]; exact ⟨t, true, rfl, Or.inl ⟨rfl, rfl⟩⟩
      · rw [if_neg h39]
        by_cases h38 : vk = 38
        · rw [if_pos h38]
          by_cases hl : (t.getLineCol t.cursorPos).1 > 0
          · rw [if_pos hl]
            exact ⟨_, true, rfl, Or.inr ⟨_, rfl, rfl, rfl, rfl⟩⟩
          · rw [if_neg hl]; exact ⟨t, true, rfl, Or.inl ⟨rfl, rfl⟩⟩
        · rw [if_neg h38]
          by_cases h40 : vk = 40
          · rw [if_pos h40]
            by_cases hl : (t.getLineCol t.cursorPos).1 < ((splitLines t.Text).length : Int) - 1
            · rw [if_pos hl]
              exact ⟨_, true, rfl, Or.inr ⟨_, rfl, rfl, rfl, rfl⟩⟩
            · rw [if_neg hl]; exact ⟨t, true, rfl, Or.inl ⟨rfl, rfl⟩⟩
          · rw [if_neg h40]
            by_cases h13 : vk = 13
            · rw [if_pos h13]
              simp only [sliceTo, sliceFrom]
              rw [if_pos ⟨h'.1, h'.2⟩, if_pos ⟨h'.1, h'.2⟩]
              exact ⟨_, true, rfl, Or.inr ⟨_, rfl, rfl, rfl, rfl⟩⟩
            · rw [if_neg h13]; exact ⟨t, false, rfl, Or.inl ⟨rfl, rfl⟩⟩

/-- The same for the whole handler and every event. -/
theorem TextArea.OnEvent_shape (t : TextArea) (evt : Event)
    (hc : cursorInRange t.cursorPos t.Text) :
    ∃ t1 r, t.OnEvent evt = some (t1, r) ∧
      ((t1.cursorPos = t.cursorPos ∧ t1.Text = t.Text) ∨
        ∃ t0 : TextArea, t1 = t0.ensureCursorVisible.RequestRepaint ∧
          t0.lineHeight = t.lineHeight ∧ t0.Bounds = t.Bounds ∧ t0.scrollY = t.scrollY) := by
  have hcl := TextArea.clampCursor_of_inRange t hc
  have hc' := hc
  unfold cursorInRange at hc'
  obtain ⟨ty, ts, data⟩ := evt
  cases hv : t.Visible
  · exact ⟨t, false, by simp [TextArea.OnEvent, hv], Or.inl ⟨rfl, rfl⟩⟩
  · cases ty
    case EventKeyPress =>
      cases hf : t.isFocused
      · exact ⟨t, false, by simp [TextArea.OnEvent, hv, hf], Or.inl ⟨rfl, rfl⟩⟩
      · cases data with
        | mouse m => exact ⟨t, false, by simp [TextArea.OnEvent, hv, hf], Or.inl ⟨rfl, rfl⟩⟩
        | other => exact ⟨t, false, by simp [TextArea.OnEvent, hv, hf], Or.inl ⟨rfl, rfl⟩⟩
        | key k =>
          have h := TextArea.keyPress_shape t k.VirtualKeyCode hc
          simpa [TextArea.OnEvent, hv, hf, hcl] using h
    case EventChar =>
      cases hf : t.isFocused
      · exact ⟨t, false, by simp [TextArea.OnEvent, hv, hf], Or.inl ⟨rfl, rfl⟩⟩
      · cases data with
        | mouse m => exact ⟨t, false, by simp [TextArea.OnEvent, hv, hf], Or.inl ⟨rfl, rfl⟩⟩
        | other => exact ⟨t, false, by simp [TextArea.OnEvent, hv, hf], Or.inl ⟨rfl, rfl⟩⟩
        | key k =>
          simp only [TextArea.OnEvent, hv, hf, hcl, Bool.not_true, Bool.false_eq_true, if_false,
            if_true]
          by_cases hr : k.Rune ≥ 32
          · rw [if_pos hr]
            simp only [sliceTo, sliceFrom]
            rw [if_pos ⟨hc'.1, hc'.2⟩, if_pos ⟨hc'.1, hc'.2⟩]
            exact ⟨_, true, rfl, Or.inr ⟨_, rfl, rfl, rfl, rfl⟩⟩
          · rw [if_neg hr]
            exact ⟨_, false, rfl, Or.inl ⟨rfl, rfl⟩⟩
    case EventMouseClick =>
      cases data with
      | mouse m =>
        simp only [TextArea.OnEvent, hv, Bool.not_true, Bool.false_eq_true, if_false]
        split_ifs
        · exact ⟨_, true, rfl, Or.inl ⟨rfl, rfl⟩⟩
        · exact ⟨_, false, rfl, Or.inl ⟨rfl, rfl⟩⟩
        · exact ⟨t, false, rfl, Or.inl ⟨rfl, rfl⟩⟩
      | other => exact ⟨t, false, by simp [TextArea.OnEvent, hv], Or.inl ⟨rfl, rfl⟩⟩
      | key k => exact ⟨t, false, by simp [TextArea.OnEvent, hv], Or.inl ⟨rfl, rfl⟩⟩
    case EventMouseWheel =>
      cases data with
      | mouse m =>
        exact ⟨({ t with scrollY := t.wheelScroll m }).RequestRepaint, true,
          by simp [TextArea.OnEvent, hv], Or.inl ⟨rfl, rfl⟩⟩
      | other => exact ⟨t, false, by simp [TextArea.OnEvent, hv], Or.inl ⟨rfl, rfl⟩⟩
      | key k => exact ⟨t, false, by simp [TextArea.OnEvent, hv], Or.inl ⟨rfl, rfl⟩⟩
    all_goals exact ⟨t, false, by simp [TextArea.OnEvent, hv], Or.inl ⟨rfl, rfl⟩⟩

/-- Caret line after an event, from a state with the cursor inside the
text: for a text area whose cursor is in range, whose line height lies
between 0 and the height of the area (int32 values, as is the scroll offset),
every event is handled, and whenever the handler has moved the caret or
edited the text (Left, Right, Up, Down, Backspace, Enter, a printable
character) the caret's line lies inside the viewport afterwards:
scrollY <= 5 + line*lineHeight, 5 + (line+1)*lineHeight <= scrollY + Height
and scrollY >= 0, provided the bottom 5 + (line+1)*lineHeight of the caret
line is an int32 value. -/
theorem TextArea.OnEvent_caret_in_view (t : TextArea) (evt : Event)
    (hc : cursorInRange t.cursorPos t.Text)
    (hlh : 0 ≤ t.lineHeight) (hH : t.lineHeight ≤ t.Bounds.Height)
    (hHi : isInt32 t.Bounds.Height) (hs : isInt32 t.scrollY) :
    ∃ t1 r, t.OnEvent evt = some (t1, r) ∧
      (t1.cursorPos ≠ t.cursorPos ∨ t1.Text ≠ t.Text →
        5 + ((t1.getLineCol t1.cursorPos).1 + 1) * t1.lineHeight ≤ 2147483647 →
        t1.caretLineVisible) := by
  obtain ⟨t1, r, hev, hshape⟩ := TextArea.OnEvent_shape t evt hc
  refine ⟨t1, r, hev, ?_⟩
  intro hchg hno
  rcases hshape with ⟨h1, h2⟩ | ⟨t0, ht1, hl0, hb0, hs0⟩
  · rcases hchg with h | h
    · exact absurd h1 h
    · exact absurd h2 h
  · subst ht1
    have e1 : t0.ensureCursorVisible.RequestRepaint.cursorPos = t0.cursorPos :=
      TextArea.ensureCursorVisible_cursorPos t0
    have e2 : t0.ensureCursorVisible.RequestRepaint.getLineCol t0.cursorPos =
        t0.getLineCol t0.cursorPos :=
      TextArea.getLineCol_congr _ t0 (TextArea.ensureCursorVisible_Text t0) _
    have e3 : t0.ensureCursorVisible.RequestRepaint.lineHeight = t0.lineHeight :=
      (TextArea.ensureCursorVisible_fields t0).1
    rw [e1, e2, e3] at hno
    have hv := TextArea.ensureCursorVisible_view t0 (by rw [hl0]; exact hlh)
      (by rw [hl0, hb0]; exact hH) (by rw [hb0]; exact hHi) (by rw [hs0]; exact hs) hno
    exact hv

/-- Example: the caret is on the fourth line of a text area that shows
three lines from the top; the Left key moves it, and the area scrolls to
scrollY = 25, which puts the caret line [65, 85) at the bottom of the view
[25, 85). -/
theorem TextArea.OnEvent_caret_in_view_example :
    ∃ t1 r, fourLineArea.OnEvent ⟨.EventKeyPress, 0, .key ⟨37, 0, 0⟩⟩ = some (t1, r) ∧
      t1.cursorPos = 6 ∧ t1.scrollY = 25 ∧ t1.caretLineVisible := by
  obtain ⟨t1, r, h1, h2⟩ := TextArea.OnEvent_caret_in_view fourLineArea
    ⟨.EventKeyPress, 0, .key ⟨37, 0, 0⟩⟩ (by decide) (by decide) (by decide) (by decide)
    (by decide)
  have hd : fourLineArea.OnEvent ⟨.EventKeyPress, 0, .key ⟨37, 0, 0⟩⟩ =
      some ({ fourLineArea with cursorPos := 6, scrollY := 25, RepaintRequested := true },
        true) := by decide
  rw [hd] at h1
  simp only [Option.some.injEq, Prod.mk.injEq] at h1
  obtain ⟨ht, _⟩ := h1
  subst ht
  exact ⟨_, true, hd, rfl, rfl, h2 (Or.inl (by decide)) (by decide)⟩

/-! ### Text area: mouse wheel -/

/-- Wheel scrolling for a delta in the int32 range: a visible text area
handles every mouse-wheel event that carries a MouseEvent: scrollY is
stepped by 40 (to scrollY + 40, the view moving down,
for a negative delta; to scrollY - 40 otherwise) and then clamped, so that
0 <= scrollY <= max(0, contentHeight - Bounds.Height) with
contentHeight = lines * lineHeight + 10; nothing else changes but the repaint
flag.  The delta, the stepped offsets, contentHeight and
contentHeight - Bounds.Height are taken to be int32 values. -/
theorem TextArea.wheel_in_range (t : TextArea) (ts : Int) (m : MouseEvent)
    (hv : t.Visible = true)
    (hd : -2147483647 ≤ m.Delta ∧ m.Delta ≤ 2147483647)
    (hup : isInt32 (t.scrollY + 40)) (hdn : isInt32 (t.scrollY - 40))
    (hct : isInt32 ((splitLines t.Text).length * t.lineHeight + 10))
    (hmx : isInt32 ((splitLines t.Text).length * t.lineHeight + 10 - t.Bounds.Height)) :
    t.OnEvent ⟨.EventMouseWheel, ts, .mouse m⟩ =
      some ({ t with
        scrollY := wheelScrollSpec t.scrollY m.Delta (splitLines t.Text).length t.lineHeight
          t.Bounds.Height,
        RepaintRequested := true }, true) ∧
    0 ≤ wheelScrollSpec t.scrollY m.Delta (splitLines t.Text).length t.lineHeight
      t.Bounds.Height ∧
    wheelScrollSpec t.scrollY m.Delta (splitLines t.Text).length t.lineHeight t.Bounds.Height ≤
      max 0 ((splitLines t.Text).length * t.lineHeight + 10 - t.Bounds.Height) := by
  have hw : t.wheelScroll m = wheelScrollSpec t.scrollY m.Delta (splitLines t.Text).length
      t.lineHeight t.Bounds.Height := by
    have hneg : wrap32 (wrap32 m.Delta * -1) = -m.Delta := by
      rw [wrap32_mul_left]
      have : m.Delta * -1 = -m.Delta := by ring
      rw [this]
      exact wrap32_of_isInt32 (by unfold isInt32; omega)
    have htot : wrap32 (wrap32 (wrap32 ((splitLines t.Text).length : Int) * t.lineHeight) + 10)
        = (splitLines t.Text).length * t.lineHeight + 10 := by
      rw [wrap32_mul_left, wrap32_add_left]
      exact wrap32_of_isInt32 hct
    unfold TextArea.wheelScroll wheelScrollSpec
    simp only [hneg, htot, wrap32_of_isInt32 hup, wrap32_of_isInt32 hdn, wrap32_of_isInt32 hmx]
    generalize ((splitLines t.Text).length : Int) * t.lineHeight = P
    by_cases hdl : m.Delta < 0
    · have h1 : -m.Delta > 0 := by omega
      simp only [h1, hdl, if_true]
      rw [max_def, min_def, max_def]
      split_ifs <;> omega
    · have h1 : ¬ (-m.Delta > 0) := by omega
      simp only [h1, hdl, if_false]
      rw [max_def, min_def, max_def]
      split_ifs <;> omega
  refine ⟨?_, ?_, ?_⟩
  · simp [TextArea.OnEvent, hv, hw, TextArea.RequestRepaint]
  · unfold wheelScrollSpec; exact le_max_left _ _
  · unfold wheelScrollSpec
    apply max_le (le_max_left _ _)
    exact le_trans (min_le_right _ _) (le_max_right _ _)

/-- Example: four lines of height 20 in an area of height 60 have the
content height 90; a wheel event with delta -120 steps from 0 to 40 and is
clamped to 90 - 60 = 30. -/
theorem TextArea.wheel_in_range_example :
    fourLineArea.OnEvent ⟨.EventMouseWheel, 0, .mouse ⟨0, 0, 0, -120⟩⟩ =
      some ({ fourLineArea with scrollY := 30, RepaintRequested := true }, true) := by
  have h := (TextArea.wheel_in_range fourLineArea 0 ⟨0, 0, 0, -120⟩ rfl (by decide) (by decide)
    (by decide) (by decide) (by decide)).1
  rw [h]
  decide

/-! ### Flex: justify-content with a total grow factor of 0 -/

theorem FlexLayout.measureRow_visibleCount (l : FlexLayout) (cs : List Child) :
    ∀ acc : FlexTotals, (l.measureRow cs acc).visibleCount =
      acc.visibleCount + (cs.filter Child.Visible).length := by
  induction cs with
  | nil => intro acc; simp [FlexLayout.measureRow]
  | cons c cs ih =>
    intro acc
    cases hv : c.Visible
    · simp [FlexLayout.measureRow, hv, ih]
    · simp [FlexLayout.measureRow, hv, ih]; omega

theorem FlexLayout.measureColumn_visibleCount (l : FlexLayout) (cs : List Child) :
    ∀ acc : FlexTotals, (l.measureColumn cs acc).visibleCount =
      acc.visibleCount + (cs.filter Child.Visible).length := by
  induction cs with
  | nil => intro acc; simp [FlexLayout.measureColumn]
  | cons c cs ih =>
    intro acc
    cases hv : c.Visible
    · simp [FlexLayout.measureColumn, hv, ih]
    · simp [FlexLayout.measureColumn, hv, ih]; omega

theorem FlexLayout.remaining_isInt32 (l : FlexLayout) (extent : Int) (t : FlexTotals) :
    isInt32 (l.remaining extent t) := by
  unfold FlexLayout.remaining
  dsimp only
  split_ifs
  · decide
  · exact wrap32_isInt32 _
  · decide
  · exact wrap32_isInt32 _

theorem wrap32_add_step (a b c d e : Int) :
    wrap32 (wrap32 (a + wrap32 (wrap32 (b + c) + d)) + e) = wrap32 (a + (b + c + d + e)) := by
  apply wrap32_eq_of_modEq
  have h1 : wrap32 (wrap32 (b + c) + d) ≡ b + c + d [ZMOD 4294967296] :=
    (wrap32_modEq _).trans ((wrap32_modEq (b + c)).add_right d)
  have h2 : wrap32 (a + wrap32 (wrap32 (b + c) + d)) ≡ a + (b + c + d) [ZMOD 4294967296] :=
    (wrap32_modEq _).trans (h1.add_left a)
  have h3 := h2.add_right e
  rw [add_assoc a (b + c + d) e] at h3
  exact h3

/-- The start and the gap that the justify switch computes, when the total
grow factor is 0 and the leftover is positive. -/
theorem FlexLayout.justify_spec (l : FlexLayout) (S L : Int) (t : FlexTotals)
    (hG : t.totalGrow = 0) (hL : 0 < L) (hL32 : isInt32 L) (hS : isInt32 S)
    (hn1 : 0 ≤ t.visibleCount) (hn : t.visibleCount ≤ 2147483647) :
    l.justify S t L =
      some (wrap32 (flexFirstSpec l.JustifyContent S L t.visibleCount),
        flexGapSpec l.JustifyContent L t.visibleCount) := by
  have hc : t.totalGrow = 0 ∧ L > 0 := ⟨hG, hL⟩
  have hhalf : ∀ M : Int, 0 ≤ M → isInt32 M → half32 M = M / 2 := by
    intro M hM hM32
    unfold half32
    rw [Int.tdiv_eq_ediv hM (by decide)]
    unfold isInt32 at hM32
    exact wrap32_of_isInt32 (by unfold isInt32; omega)
  have hdiv : ∀ d : Int, 1 ≤ d → d ≤ 2147483647 →
      div32 L (wrap32 d) = some (L / d) ∧ 0 ≤ L / d ∧ isInt32 (L / d) := by
    intro d hd1 hd2
    have hd32 : wrap32 d = d := wrap32_of_isInt32 (by unfold isInt32; omega)
    obtain ⟨h1, h2, h3⟩ := (tdiv_bounds L d hd1).1 (le_of_lt hL)
    have hq : isInt32 (L / d) := by unfold isInt32 at hL32 ⊢; omega
    have hne : d ≠ 0 := by omega
    refine ⟨?_, h2, hq⟩
    simp [div32, hd32, hne, h1, wrap32_of_isInt32 hq]
  unfold FlexLayout.justify
  rw [if_pos hc]
  cases hj : l.JustifyContent with
  | FlexStart => simp [flexFirstSpec, flexGapSpec, wrap32_of_isInt32 hS]
  | FlexEnd => simp [flexFirstSpec, flexGapSpec]
  | FlexCenter => simp [flexFirstSpec, flexGapSpec, hhalf L (le_of_lt hL) hL32]
  | FlexSpaceBetween =>
    by_cases h1 : t.visibleCount > 1
    · obtain ⟨e1, _, _⟩ := hdiv (t.visibleCount - 1) (by omega) (by omega)
      simp [flexFirstSpec, flexGapSpec, h1, e1, wrap32_of_isInt32 hS]
    · simp [flexFirstSpec, flexGapSpec, h1, wrap32_of_isInt32 hS]
  | FlexSpaceAround =>
    by_cases h1 : t.visibleCount > 0
    · obtain ⟨e1, e2, e3⟩ := hdiv t.visibleCount (by omega) hn
      simp [flexFirstSpec, flexGapSpec, h1, e1, hhalf _ e2 e3]
    · have h0 : t.visibleCount = 0 := by omega
      simp [flexFirstSpec, flexGapSpec, h0, wrap32_of_isInt32 hS]

theorem FlexLayout.grown_of_no_grow (l : FlexLayout) (t : FlexTotals) (L : Int) (c : Child)
    (size : Int) (hG : t.totalGrow = 0) : l.grown t L c size = size := by
  have : ¬ (t.totalGrow > 0 ∧ L > 0) := by omega
  simp [FlexLayout.grown, this]

theorem FlexLayout.placeRow_getElem (l : FlexLayout) (y height : Int) (t : FlexTotals)
    (L gap : Int) (hG : t.totalGrow = 0) (cs : List Child) :
    ∀ (cur : Int) (k : Nat) (c : Child), wrap32 cur = cur →
      (cs.filter Child.Visible)[k]? = some c →
      ((l.placeRow y height t L gap (cs.zip (childSizes cs)) cur).filter Child.Visible)[k]? =
        some (c.SetBounds
          (wrap32 (cur + (((cs.filter Child.Visible).take k).map
            (fun d => d.measure.1 + l.Spacing + gap)).sum))
          (l.align y height c.measure.2).1 c.measure.1 (l.align y height c.measure.2).2) := by
  induction cs with
  | nil => intro cur k c _ hc; simp at hc
  | cons c0 cs ih =>
    intro cur k c hcur hc
    rw [zip_childSizes_cons]
    cases hv : c0.Visible
    · have hf : (c0 :: cs).filter Child.Visible = cs.filter Child.Visible := by
        simp [List.filter_cons, hv]
      rw [hf] at hc ⊢
      have hp : l.placeRow y height t L gap
          ((c0, if false = true then c0.measure else (0, 0)) :: cs.zip (childSizes cs)) cur =
          c0 :: l.placeRow y height t L gap (cs.zip (childSizes cs)) cur := by
        simp [FlexLayout.placeRow, hv]
      rw [hp, List.filter_cons, hv]
      exact ih cur k c hcur hc
    · have hf : (c0 :: cs).filter Child.Visible = c0 :: cs.filter Child.Visible := by
        simp [List.filter_cons, hv]
      rw [hf] at hc ⊢
      have hp : l.placeRow y height t L gap
          ((c0, if true = true then c0.measure else (0, 0)) :: cs.zip (childSizes cs)) cur =
          c0.SetBounds cur (l.align y height c0.measure.2).1 c0.measure.1
              (l.align y height c0.measure.2).2 ::
            l.placeRow y height t L gap (cs.zip (childSizes cs))
              (wrap32 (cur + wrap32 (wrap32 (c0.measure.1 + l.Spacing) + gap))) := by
        simp [FlexLayout.placeRow, hv, FlexLayout.grown_of_no_grow l t L c0 _ hG]
      rw [hp, List.filter_cons, Child.SetBounds_Visible, hv]
      cases k with
      | zero =>
        simp only [List.getElem?_cons_zero, Option.some.injEq] at hc
        subst hc
        simp [hcur]
      | succ k =>
        simp only [List.getElem?_cons_succ] at hc
        simp only [if_true, List.getElem?_cons_succ, List.take_succ_cons, List.map_cons,
          List.sum_cons]
        rw [ih _ k c (wrap32_idem _) hc, wrap32_add_step]


theorem FlexLayout.placeColumn_getElem (l : FlexLayout) (x width : Int) (t : FlexTotals)
    (L gap : Int) (hG : t.totalGrow = 0) (cs : List Child) :
    ∀ (cur : Int) (k : Nat) (c : Child), wrap32 cur = cur →
      (cs.filter Child.Visible)[k]? = some c →
      ((l.placeColumn x width t L gap (cs.zip (childSizes cs)) cur).filter Child.Visible)[k]? =
        some (c.SetBounds (l.align x width c.measure.1).1
          (wrap32 (cur + (((cs.filter Child.Visible).take k).map
            (fun d => d.measure.2 + l.Spacing + gap)).sum))
          (l.align x width c.measure.1).2 c.measure.2) := by
  induction cs with
  | nil => intro cur k c _ hc; simp at hc
  | cons c0 cs ih =>
    intro cur k c hcur hc
    rw [zip_childSizes_cons]
    cases hv : c0.Visible
    · have hf : (c0 :: cs).filter Child.Visible = cs.filter Child.Visible := by
        simp [List.filter_cons, hv]
      rw [hf] at hc ⊢
      have hp : l.placeColumn x width t L gap
          ((c0, if false = true then c0.measure else (0, 0)) :: cs.zip (childSizes cs)) cur =
          c0 :: l.placeColumn x width t L gap (cs.zip (childSizes cs)) cur := by
        simp [FlexLayout.placeColumn, hv]
      rw [hp, List.filter_cons, hv]
      exact ih cur k c hcur hc
    · have hf : (c0 :: cs).filter Child.Visible = c0 :: cs.filter Child.Visible := by
        simp [List.filter_cons, hv]
      rw [hf] at hc ⊢
      have hp : l.placeColumn x width t L gap
          ((c0, if true = true then c0.measure else (0, 0)) :: cs.zip (childSizes cs)) cur =
          c0.SetBounds (l.align x width c0.measure.1).1 cur (l.align x width c0.measure.1).2
              c0.measure.2 ::
            l.placeColumn x width t L gap (cs.zip (childSizes cs))
              (wrap32 (cur + wrap32 (wrap32 (c0.measure.2 + l.Spacing) + gap))) := by
        simp [FlexLayout.placeColumn, hv, FlexLayout.grown_of_no_grow l t L c0 _ hG]
      rw [hp, List.filter_cons, Child.SetBounds_Visible, hv]
      cases k with
      | zero =>
        simp only [List.getElem?_cons_zero, Option.some.injEq] at hc
        subst hc
        simp [hcur]
      | succ k =>
        simp only [List.getElem?_cons_succ] at hc
        simp only [if_true, List.getElem?_cons_succ, List.take_succ_cons, List.map_cons,
          List.sum_cons]
        rw [ih _ k c (wrap32_idem _) hc, wrap32_add_step]

theorem wrap32_chain_step (A S w s g : Int) (h : isInt32 (wrap32 (A + S) + w + s + g)) :
    wrap32 (A + (S + (w + s + g))) = wrap32 (A + S) + w + s + g := by
  rw [← wrap32_of_isInt32 h]
  apply wrap32_eq_of_modEq
  have h1 := (((wrap32_modEq (A + S)).symm.add_right w).add_right s).add_right g
  have h2 : A + (S + (w + s + g)) = A + S + w + s + g := by ring
  rw [h2]
  exact h1

theorem take_succ_sum (f : Child → Int) (vs : List Child) (k : Nat) (c : Child)
    (hc : vs[k]? = some c) :
    ((vs.take (k + 1)).map f).sum = ((vs.take k).map f).sum + f c := by
  rw [List.take_succ, hc]
  simp

/-- C25 (amended): in arrangeRow (arrangeColumn) with main-axis start S (an int32
value), when the visible children have the total grow factor 0 and the
leftover L is positive, the call returns and the k-th visible child keeps its
measured main-axis size; the first visible child is placed at S for start and
space-between, at S + L for end, at S + L/2 for center; the child after the
k-th starts at the k-th child's position plus its size plus the spacing plus
the gap, which is L/(n-1) for space-between with n > 1 visible children and 0
for start, end and center (space-around: first child at S + (L/n)/2, gap
L/n).  Positions are stated where they are int32 values. -/
theorem C25_flex_justify (l : FlexLayout) (cs : List Child) (x y width height : Int)
    (k : Nat) (c : Child) (hc : (cs.filter Child.Visible)[k]? = some c)
    (hn : ((cs.filter Child.Visible).length : Int) ≤ 2147483647) :
    (isInt32 x → (l.measureRow cs ⟨0, 0, 0⟩).totalGrow = 0 →
      0 < l.remaining width (l.measureRow cs ⟨0, 0, 0⟩) →
      ∃ out o, l.arrangeRow cs x y width height = some out ∧
        (out.filter Child.Visible)[k]? = some o ∧ o.Bounds.Width = c.measure.1 ∧
        (k = 0 →
          isInt32 (flexFirstSpec l.JustifyContent x
            (l.remaining width (l.measureRow cs ⟨0, 0, 0⟩))
            (cs.filter Child.Visible).length) →
          o.Bounds.X = flexFirstSpec l.JustifyContent x
            (l.remaining width (l.measureRow cs ⟨0, 0, 0⟩))
            (cs.filter Child.Visible).length) ∧
        (∀ c1, (cs.filter Child.Visible)[k + 1]? = some c1 →
          ∃ o1, (out.filter Child.Visible)[k + 1]? = some o1 ∧
            (isInt32 (o.Bounds.X + o.Bounds.Width + l.Spacing +
                flexGapSpec l.JustifyContent (l.remaining width (l.measureRow cs ⟨0, 0, 0⟩))
                  (cs.filter Child.Visible).length) →
              o1.Bounds.X = o.Bounds.X + o.Bounds.Width + l.Spacing +
                flexGapSpec l.JustifyContent (l.remaining width (l.measureRow cs ⟨0, 0, 0⟩))
                  (cs.filter Child.Visible).length))) ∧
    (isInt32 y → (l.measureColumn cs ⟨0, 0, 0⟩).totalGrow = 0 →
      0 < l.remaining height (l.measureColumn cs ⟨0, 0, 0⟩) →
      ∃ out o, l.arrangeColumn cs x y width height = some out ∧
        (out.filter Child.Visible)[k]? = some o ∧ o.Bounds.Height = c.measure.2 ∧
        (k = 0 →
          isInt32 (flexFirstSpec l.JustifyContent y
            (l.remaining height (l.measureColumn cs ⟨0, 0, 0⟩))
            (cs.filter Child.Visible).length) →
          o.Bounds.Y = flexFirstSpec l.JustifyContent y
            (l.remaining height (l.measureColumn cs ⟨0, 0, 0⟩))
            (cs.filter Child.Visible).length) ∧
        (∀ c1, (cs.filter Child.Visible)[k + 1]? = some c1 →
          ∃ o1, (out.filter Child.Visible)[k + 1]? = some o1 ∧
            (isInt32 (o.Bounds.Y + o.Bounds.Height + l.Spacing +
                flexGapSpec l.JustifyContent
                  (l.remaining height (l.measureColumn cs ⟨0, 0, 0⟩))
                  (cs.filter Child.Visible).length) →
              o1.Bounds.Y = o.Bounds.Y + o.Bounds.Height + l.Spacing +
                flexGapSpec l.JustifyContent
                  (l.remaining height (l.measureColumn cs ⟨0, 0, 0⟩))
                  (cs.filter Child.Visible).length))) := by
  have hlen : ¬ (cs.length = 0) := by
    intro h
    have : cs = [] := List.length_eq_zero.mp h
    subst this
    simp at hc
  constructor
  · intro hx hG hL
    have hcount : (l.measureRow cs ⟨0, 0, 0⟩).visibleCount =
        ((cs.filter Child.Visible).length : Int) := by
      rw [FlexLayout.measureRow_visibleCount]; simp
    have hj := FlexLayout.justify_spec l x _ (l.measureRow cs ⟨0, 0, 0⟩) hG hL
      (FlexLayout.remaining_isInt32 l width _) hx (by rw [hcount]; omega)
      (by rw [hcount]; exact hn)
    rw [hcount] at hj
    rw [FlexLayout.arrangeRow_eq, if_neg hlen, hj]
    simp only [Option.map_some']
    have hk := FlexLayout.placeRow_getElem l y height (l.measureRow cs ⟨0, 0, 0⟩)
      (l.remaining width (l.measureRow cs ⟨0, 0, 0⟩))
      (flexGapSpec l.JustifyContent (l.remaining width (l.measureRow cs ⟨0, 0, 0⟩))
        (cs.filter Child.Visible).length) hG cs
      (wrap32 (flexFirstSpec l.JustifyContent x
        (l.remaining width (l.measureRow cs ⟨0, 0, 0⟩)) (cs.filter Child.Visible).length)) k c (wrap32_idem _) hc
    refine ⟨_, _, rfl, hk, rfl, ?_, ?_⟩
    · intro h0 h32
      subst h0
      simp only [Child.SetBounds, List.take_zero, List.map_nil, List.sum_nil, add_zero,
        wrap32_idem]
      exact wrap32_of_isInt32 h32
    · intro c1 hc1
      have hk1 := FlexLayout.placeRow_getElem l y height (l.measureRow cs ⟨0, 0, 0⟩)
        (l.remaining width (l.measureRow cs ⟨0, 0, 0⟩))
        (flexGapSpec l.JustifyContent (l.remaining width (l.measureRow cs ⟨0, 0, 0⟩))
          (cs.filter Child.Visible).length) hG cs
        (wrap32 (flexFirstSpec l.JustifyContent x
        (l.remaining width (l.measureRow cs ⟨0, 0, 0⟩)) (cs.filter Child.Visible).length)) (k + 1) c1 (wrap32_idem _) hc1
      refine ⟨_, hk1, ?_⟩
      intro h32
      simp only [Child.SetBounds] at h32 ⊢
      rw [take_succ_sum _ _ k c hc]
      exact wrap32_chain_step _ _ _ _ _ h32
  · intro hy hG hL
    have hcount : (l.measureColumn cs ⟨0, 0, 0⟩).visibleCount =
        ((cs.filter Child.Visible).length : Int) := by
      rw [FlexLayout.measureColumn_visibleCount]; simp
    have hj := FlexLayout.justify_spec l y _ (l.measureColumn cs ⟨0, 0, 0⟩) hG hL
      (FlexLayout.remaining_isInt32 l height _) hy (by rw [hcount]; omega)
      (by rw [hcount]; exact hn)
    rw [hcount] at hj
    rw [FlexLayout.arrangeColumn_eq, if_neg hlen, hj]
    simp only [Option.map_some']
    have hk := FlexLayout.placeColumn_getElem l x width (l.measureColumn cs ⟨0, 0, 0⟩)
      (l.remaining height (l.measureColumn cs ⟨0, 0, 0⟩))
      (flexGapSpec l.JustifyContent (l.remaining height (l.measureColumn cs ⟨0, 0, 0⟩))
        (cs.filter Child.Visible).length) hG cs
      (wrap32 (flexFirstSpec l.JustifyContent y
        (l.remaining height (l.measureColumn cs ⟨0, 0, 0⟩)) (cs.filter Child.Visible).length)) k c (wrap32_idem _) hc
    refine ⟨_, _, rfl, hk, rfl, ?_, ?_⟩
    · intro h0 h32
      subst h0
      simp only [Child.SetBounds, List.take_zero, List.map_nil, List.sum_nil, add_zero,
        wrap32_idem]
      exact wrap32_of_isInt32 h32
    · intro c1 hc1
      have hk1 := FlexLayout.placeColumn_getElem l x width (l.measureColumn cs ⟨0, 0, 0⟩)
        (l.remaining height (l.measureColumn cs ⟨0, 0, 0⟩))
        (flexGapSpec l.JustifyContent (l.remaining height (l.measureColumn cs ⟨0, 0, 0⟩))
          (cs.filter Child.Visible).length) hG cs
        (wrap32 (flexFirstSpec l.JustifyContent y
        (l.remaining height (l.measureColumn cs ⟨0, 0, 0⟩)) (cs.filter Child.Visible).length)) (k + 1) c1 (wrap32_idem _) hc1
      refine ⟨_, hk1, ?_⟩
      intro h32
      simp only [Child.SetBounds] at h32 ⊢
      rw [take_succ_sum _ _ k c hc]
      exact wrap32_chain_step _ _ _ _ _ h32

/-- C25 (witness): two children of measured widths 40 and 60 in a row of
width 200 with spacing 5 and space-between leave L = 95; the first child sits
at 0 with its width 40, the second starts at 0 + 40 + 5 + 95 = 140. -/
theorem C25_flex_justify_witness :
    ∃ out o o1,
      (justifyExample .FlexSpaceBetween).arrangeRow boxExampleChildren 0 0 200 50 = some out ∧
      (out.filter Child.Visible)[0]? = some o ∧ (out.filter Child.Visible)[1]? = some o1 ∧
      o.Bounds.X = 0 ∧ o.Bounds.Width = 40 ∧ o1.Bounds.X = 140 := by
  obtain ⟨out, o, hout, hk, hw, hfirst, hnext⟩ :=
    (C25_flex_justify (justifyExample .FlexSpaceBetween) boxExampleChildren 0 0 200 50 0
      ⟨0, ⟨0, 0, 40, 30⟩, true, fun r => (r.Width, r.Height)⟩ rfl (by decide)).1
      (by decide) (by decide) (by decide)
  have hX := hfirst rfl (by decide)
  obtain ⟨o1, hk1, hn⟩ := hnext ⟨1, ⟨0, 0, 10, 10⟩, true, fun _ => (60, 20)⟩ rfl
  rw [hX, hw] at hn
  exact ⟨out, o, o1, hout, hk, hk1, by rw [hX]; decide, by rw [hw]; decide,
    by rw [hn (by decide)]; decide⟩

/-! ### Invisible components: hit-testing and events -/

/-- C26 (failing input): the panel (0, 0, 100, 100) holds an invisible leaf
at (10, 10, 20, 20); FindComponentAt(15, 15) returns that invisible leaf.  An
invisible nested panel at the same place is skipped with its content, and the
outer panel is returned. -/
theorem C26_invisible_leaf_returned :
    hiddenLeafPanel.FindComponentAt 15 15 = some (.leaf 1 ⟨10, 10, 20, 20⟩ false) ∧
    hiddenPanelPanel.FindComponentAt 15 15 = some hiddenPanelPanel :=
  ⟨rfl, rfl⟩

/-- A component that is not visible handles no event: for a Button, a
CheckBox, a TextBox, a TextArea and a Panel, OnEvent returns false, calls no
callback and leaves the state (for a panel: also every child) as it was. -/
theorem OnEvent_invisible (evt : Event) :
    (∀ b : Button, b.Visible = false → (b.OnEvent evt).state = b ∧
      (b.OnEvent evt).calls = [] ∧ (b.OnEvent evt).ret = false) ∧
    (∀ c : CheckBox, c.Visible = false → (c.OnEvent evt).state = c ∧
      (c.OnEvent evt).calls = [] ∧ (c.OnEvent evt).ret = false) ∧
    (∀ t : TextBox, t.Visible = false → t.OnEvent evt = some (t, false)) ∧
    (∀ t : TextArea, t.Visible = false → t.OnEvent evt = some (t, false)) ∧
    (∀ (α κ : Type) (step : α → Event → Handled α κ) (p : PanelOf α), p.Visible = false →
      (p.OnEvent step evt).state = p ∧ (p.OnEvent step evt).calls = [] ∧
      (p.OnEvent step evt).ret = false) := by
  refine ⟨?_, ?_, ?_, ?_, ?_⟩
  · intro b hv; simp [Button.OnEvent, hv]
  · intro c hv; simp [CheckBox.OnEvent, hv]
  · intro t hv; simp [TextBox.OnEvent, hv]
  · intro t hv; simp [TextArea.OnEvent, hv]
  · intro α κ step p hv; simp [PanelOf.OnEvent, hv]

/-- C27 (failing input): a card that is not visible still handles events.
A mouse-down at (20, 40) returns true and leaves the button of the inner
panel pressed; the mouse-up that follows returns true and calls the button's
OnClick (handler 7).  The inner panel alone, once invisible, returns false
and changes nothing. -/
theorem C27_invisible_card_handles_events :
    hiddenCard.Visible = false ∧
    (hiddenCard.OnEvent Button.OnEvent ⟨.EventMouseClick, 0, .mouse ⟨20, 40, 1, 0⟩⟩).ret = true ∧
    ((hiddenCard.OnEvent Button.OnEvent ⟨.EventMouseClick, 0, .mouse ⟨20, 40, 1, 0⟩⟩).state
      ).InnerPanel.Children = [{ cardButton with isPressed := true }] ∧
    (((hiddenCard.OnEvent Button.OnEvent ⟨.EventMouseClick, 0, .mouse ⟨20, 40, 1, 0⟩⟩).state
      ).OnEvent Button.OnEvent ⟨.EventMouseRelease, 1, .mouse ⟨20, 40, 1, 0⟩⟩).calls = [7] ∧
    (PanelOf.OnEvent Button.OnEvent { hiddenCard.InnerPanel with Visible := false }
      ⟨.EventMouseClick, 0, .mouse ⟨20, 40, 1, 0⟩⟩).ret = false ∧
    (PanelOf.OnEvent Button.OnEvent { hiddenCard.InnerPanel with Visible := false }
      ⟨.EventMouseClick, 0, .mouse ⟨20, 40, 1, 0⟩⟩).state.Children = [cardButton] := by
  refine ⟨rfl, by decide, by decide, by decide, by decide, by decide⟩

/-! ### Flex: the column layout is the transposed row layout -/

theorem Child.transpose_transpose (c : Child) : c.transpose.transpose = c := rfl

theorem Child.transpose_measure (c : Child) :
    c.transpose.measure = (c.measure.2, c.measure.1) := rfl

theorem Child.transpose_Visible (c : Child) : c.transpose.Visible = c.Visible := rfl

theorem FlexLayout.growOf_transpose (l : FlexLayout) (c : Child) :
    l.growOf c.transpose = l.growOf c := rfl

theorem FlexLayout.measureColumn_transpose (l : FlexLayout) (cs : List Child) :
    ∀ acc : FlexTotals,
      l.measureColumn cs acc = l.measureRow (cs.map Child.transpose) acc := by
  induction cs with
  | nil => intro acc; rfl
  | cons c cs ih =>
    intro acc
    cases hv : c.Visible
    · simp [FlexLayout.measureColumn, FlexLayout.measureRow, hv, ih, Child.transpose_Visible]
    · simp [FlexLayout.measureColumn, FlexLayout.measureRow, hv, ih, Child.transpose_Visible,
        Child.transpose_measure, FlexLayout.growOf_transpose]

theorem FlexLayout.placeColumn_transpose (l : FlexLayout) (x width : Int) (t : FlexTotals)
    (L gap : Int) (cs : List Child) :
    ∀ cur : Int,
      l.placeColumn x width t L gap (cs.zip (childSizes cs)) cur =
        (l.placeRow x width t L gap
          ((cs.map Child.transpose).zip (childSizes (cs.map Child.transpose))) cur).map
          Child.transpose := by
  induction cs with
  | nil => intro cur; rfl
  | cons c cs ih =>
    intro cur
    rw [List.map_cons, zip_childSizes_cons, zip_childSizes_cons]
    cases hv : c.Visible
    · have hv1 : c.transpose.Visible = false := hv
      simp only [FlexLayout.placeColumn, FlexLayout.placeRow, hv, hv1, Bool.not_false, if_true,
        List.map_cons, Child.transpose_transpose, ih]
    · have hv1 : c.transpose.Visible = true := hv
      simp only [FlexLayout.placeColumn, FlexLayout.placeRow, hv, hv1, Bool.not_true,
        Bool.false_eq_true, if_false, if_true, List.map_cons, ih, Child.transpose_measure]
      congr 1

theorem FlexLayout.measureRow_Direction (l : FlexLayout) (d : FlexDirection)
    (cs : List Child) :
    ∀ acc : FlexTotals,
      FlexLayout.measureRow { l with Direction := d } cs acc = l.measureRow cs acc := by
  induction cs with
  | nil => intro acc; rfl
  | cons c cs ih =>
    intro acc
    cases hv : c.Visible
    · simp only [FlexLayout.measureRow, hv, Bool.not_false, if_true, ih]
    · simp only [FlexLayout.measureRow, hv, Bool.not_true, Bool.false_eq_true, if_false, ih]
      rfl

theorem FlexLayout.placeRow_Direction (l : FlexLayout) (d : FlexDirection) (y height : Int)
    (t : FlexTotals) (L gap : Int) (zs : List (Child × (Int × Int))) :
    ∀ cur : Int,
      FlexLayout.placeRow { l with Direction := d } y height t L gap zs cur =
        l.placeRow y height t L gap zs cur := by
  induction zs with
  | nil => intro cur; rfl
  | cons z zs ih =>
    intro cur
    obtain ⟨c, sz⟩ := z
    cases hv : c.Visible
    · simp only [FlexLayout.placeRow, hv, Bool.not_false, if_true, ih]
    · simp only [FlexLayout.placeRow, hv, Bool.not_true, Bool.false_eq_true, if_false, ih]
      rfl

theorem FlexLayout.arrangeRow_Direction (l : FlexLayout) (d : FlexDirection) (cs : List Child)
    (x y width height : Int) :
    FlexLayout.arrangeRow { l with Direction := d } cs x y width height =
      l.arrangeRow cs x y width height := by
  rw [FlexLayout.arrangeRow_eq, FlexLayout.arrangeRow_eq, FlexLayout.measureRow_Direction]
  have hj : ∀ (S : Int) (t : FlexTotals) (L : Int),
      FlexLayout.justify { l with Direction := d } S t L = l.justify S t L := fun _ _ _ => rfl
  have hr : ∀ (e : Int) (t : FlexTotals),
      FlexLayout.remaining { l with Direction := d } e t = l.remaining e t := fun _ _ => rfl
  rw [hj, hr]
  simp only [FlexLayout.placeRow_Direction]

/-- C28: arrangeColumn is arrangeRow with the axes exchanged.  For every
flex configuration and every child list, arrangeColumn with the arguments
(x, y, width, height) gives the transposed result of arrangeRow with the
arguments (y, x, height, width) on the transposed children (bounds and
preferred sizes with width and height exchanged); hence a column layout in
the container (X, Y, W, H) assigns (x, y, w, h) exactly when the row layout
with the same spacing, padding, justify, align and grow factors assigns
(y, x, h, w) in the container (Y, X, H, W).  A panic of one is a panic of the
other. -/
theorem C28_column_is_transposed_row (l : FlexLayout) (cs : List Child) :
    (∀ x y width height : Int,
      l.arrangeColumn cs x y width height =
        (l.arrangeRow (cs.map Child.transpose) y x height width).map
          (List.map Child.transpose)) ∧
    (∀ bounds : Rect,
      FlexLayout.Arrange { l with Direction := FlexDirection.FlexColumn } bounds cs =
        (FlexLayout.Arrange { l with Direction := FlexDirection.FlexRow } bounds.transpose
          (cs.map Child.transpose)).map (List.map Child.transpose)) := by
  have hmain : ∀ (l : FlexLayout) (x y width height : Int),
      l.arrangeColumn cs x y width height =
        (l.arrangeRow (cs.map Child.transpose) y x height width).map
          (List.map Child.transpose) := by
    intro l x y width height
    rw [FlexLayout.arrangeColumn_eq, FlexLayout.arrangeRow_eq, List.length_map,
      ← FlexLayout.measureColumn_transpose]
    split_ifs with hlen
    · have : cs = [] := List.length_eq_zero.mp hlen
      subst this
      rfl
    · cases l.justify y (l.measureColumn cs ⟨0, 0, 0⟩)
          (l.remaining height (l.measureColumn cs ⟨0, 0, 0⟩)) with
      | none => rfl
      | some p =>
        simp only [Option.map_some']
        rw [FlexLayout.placeColumn_transpose]
  refine ⟨hmain l, ?_⟩
  intro bounds
  have hcol : ¬ (FlexDirection.FlexColumn = FlexDirection.FlexRow) := by decide
  simp only [FlexLayout.Arrange, hcol, if_false, if_true]
  rw [FlexLayout.arrangeRow_Direction, hmain]
  rw [← FlexLayout.arrangeRow_Direction l FlexDirection.FlexColumn]
  rfl

/-! ### Text area: positions and (line, column) pairs -/

theorem splitLines_ne_nil (rs : List Int) : splitLines rs ≠ [] := by
  cases rs with
  | nil => simp [splitLines]
  | cons r rs =>
    unfold splitLines
    split_ifs
    · simp
    · cases splitLines rs <;> simp

theorem splitLines_cons_newline (rs : List Int) :
    splitLines (10 :: rs) = [] :: splitLines rs := by
  simp [splitLines]

theorem splitLines_cons_other (r : Int) (rs : List Int) (hr : r ≠ 10) :
    ∃ L0 Ls, splitLines rs = L0 :: Ls ∧ splitLines (r :: rs) = (r :: L0) :: Ls := by
  cases hs : splitLines rs with
  | nil => exact absurd hs (splitLines_ne_nil rs)
  | cons L0 Ls =>
    refine ⟨L0, Ls, rfl, ?_⟩
    rw [splitLines, if_neg hr, hs]

theorem lineStart_zero (lines : List (List Int)) : lineStart lines 0 = 0 := by
  simp [lineStart]

theorem lineStart_cons_succ (L : List Int) (Ls : List (List Int)) (l : Nat) :
    lineStart (L :: Ls) (l + 1) = L.length + 1 + lineStart Ls l := by
  simp [lineStart]

theorem lineStart_cast (lines : List (List Int)) (l : Nat) :
    ((lineStart lines l : Nat) : Int) =
      ((lines.take l).map (fun x => (x.length : Int) + 1)).sum := by
  unfold lineStart
  induction lines.take l with
  | nil => simp
  | cons x xs ih =>
    simp only [List.map_cons, List.sum_cons]
    rw [Nat.cast_add, ih]
    simp

/-- Scanning the runes before the position "line l, column c" counts `l`
newlines and then `c` runes. -/
theorem foldl_take_lineStart (rs : List Int) :
    ∀ (l c : Nat) (a b : Int), l < (splitLines rs).length →
      c ≤ ((splitLines rs).getD l []).length →
      (rs.take (lineStart (splitLines rs) l + c)).foldl lineColStep (a, b) =
        if l = 0 then (a, b + c) else (a + l, (c : Int)) := by
  induction rs with
  | nil =>
    intro l c a b hl hc
    simp only [splitLines, List.length_singleton] at hl
    have hl0 : l = 0 := by omega
    subst hl0
    simp [splitLines] at hc
    subst hc
    simp [lineStart_zero]
  | cons r rs ih =>
    intro l c a b hl hc
    by_cases hr : r = 10
    · subst hr
      rw [splitLines_cons_newline] at hl hc ⊢
      cases l with
      | zero =>
        simp at hc
        subst hc
        simp [lineStart_zero]
      | succ l =>
        simp only [List.length_cons, Nat.add_lt_add_iff_right] at hl
        simp only [List.getD_cons_succ] at hc
        rw [lineStart_cons_succ]
        have hidx : ([] : List Int).length + 1 + lineStart (splitLines rs) l + c =
            (lineStart (splitLines rs) l + c) + 1 := by simp; omega
        rw [hidx, List.take_succ_cons, List.foldl_cons]
        have hstep : lineColStep (a, b) 10 = (a + 1, 0) := by simp [lineColStep]
        rw [hstep, ih l c (a + 1) 0 hl hc]
        have hne : ¬ (l + 1 = 0) := by omega
        rw [if_neg hne]
        by_cases h0 : l = 0
        · subst h0; simp
        · rw [if_neg h0, Prod.mk.injEq]
          exact ⟨by push_cast; ring, rfl⟩
    · obtain ⟨L0, Ls, hs, hcons⟩ := splitLines_cons_other r rs hr
      rw [hcons] at hl hc ⊢
      have hstep : lineColStep (a, b) r = (a, b + 1) := by simp [lineColStep, hr]
      cases l with
      | zero =>
        rw [lineStart_zero, Nat.zero_add]
        cases c with
        | zero => simp
        | succ c =>
          simp only [List.getD_cons_zero, List.length_cons, Nat.add_le_add_iff_right] at hc
          rw [List.take_succ_cons, List.foldl_cons, hstep]
          have h := ih 0 c a (b + 1) (by rw [hs]; simp) (by rw [hs]; simpa using hc)
          rw [lineStart_zero, Nat.zero_add] at h
          rw [h, if_pos rfl, if_pos rfl, Prod.mk.injEq]
          exact ⟨rfl, by push_cast; ring⟩
      | succ l =>
        simp only [List.length_cons, Nat.add_lt_add_iff_right] at hl
        simp only [List.getD_cons_succ] at hc
        rw [lineStart_cons_succ]
        have hidx : (r :: L0).length + 1 + lineStart Ls l + c =
            (lineStart (splitLines rs) (l + 1) + c) + 1 := by
          rw [hs, lineStart_cons_succ]; simp; omega
        rw [hidx, List.take_succ_cons, List.foldl_cons, hstep]
        have h := ih (l + 1) c a (b + 1) (by rw [hs]; simpa using hl)
          (by rw [hs]; simpa using hc)
        rw [h]
        have hne : ¬ (l + 1 = 0) := by omega
        rw [if_neg hne, if_neg hne]

/-- Every position inside the text is "line l, column c" for a line `l` of
the split text and a column `c` inside that line. -/
theorem exists_lineStart (rs : List Int) :
    ∀ n : Nat, n ≤ rs.length →
      ∃ l c : Nat, l < (splitLines rs).length ∧ c ≤ ((splitLines rs).getD l []).length ∧
        lineStart (splitLines rs) l + c = n := by
  induction rs with
  | nil =>
    intro n hn
    have h0 : n = 0 := by simpa using hn
    subst h0
    exact ⟨0, 0, by simp [splitLines], by simp, by simp [lineStart_zero]⟩
  | cons r rs ih =>
    intro n hn
    cases n with
    | zero =>
      refine ⟨0, 0, ?_, by simp, by simp [lineStart_zero]⟩
      exact List.length_pos.mpr (splitLines_ne_nil _)
    | succ n =>
      have hn1 : n ≤ rs.length := by simpa using hn
      obtain ⟨l, c, hl, hc, hsum⟩ := ih n hn1
      by_cases hr : r = 10
      · subst hr
        rw [splitLines_cons_newline]
        refine ⟨l + 1, c, by simpa using hl, by simpa using hc, ?_⟩
        rw [lineStart_cons_succ]
        simp; omega
      · obtain ⟨L0, Ls, hs, hcons⟩ := splitLines_cons_other r rs hr
        rw [hcons]
        rw [hs] at hl hc hsum
        cases l with
        | zero =>
          rw [lineStart_zero] at hsum
          simp only [List.getD_cons_zero] at hc
          refine ⟨0, c + 1, by simp, by simpa using hc, ?_⟩
          rw [lineStart_zero]; omega
        | succ l =>
          rw [lineStart_cons_succ] at hsum
          refine ⟨l + 1, c, by simpa using hl, by simpa using hc, ?_⟩
          rw [lineStart_cons_succ]
          simp only [List.length_cons]
          omega

/-- The two helpers in terms of `lineStart`: a position in range is mapped to
its line and column, and back. -/
theorem TextArea.getLineCol_lineStart (t : TextArea) (l c : Nat)
    (hl : l < (splitLines t.Text).length)
    (hc : c ≤ ((splitLines t.Text).getD l []).length) :
    t.getLineCol ((lineStart (splitLines t.Text) l + c : Nat) : Int) = ((l : Int), (c : Int)) := by
  have hle : ((lineStart (splitLines t.Text) l + c : Nat) : Int) ≤ t.Text.length := by
    have h1 := take_sum_le (splitLines t.Text) l hl
    rw [splitLines_sum, ← lineStart_cast] at h1
    push_cast
    omega
  unfold TextArea.getLineCol
  dsimp only
  rw [if_neg (by omega), Int.toNat_ofNat, foldl_take_lineStart t.Text l c 0 0 hl hc]
  split_ifs with h0
  · subst h0; simp
  · simp

theorem TextArea.getPosFromLineCol_lineStart (t : TextArea) (l : Nat) (c : Int)
    (hl : l < (splitLines t.Text).length) :
    t.getPosFromLineCol l c =
      (lineStart (splitLines t.Text) l : Int) +
        (if c > (((splitLines t.Text).getD l []).length : Int) then
          (((splitLines t.Text).getD l []).length : Int) else c) := by
  unfold TextArea.getPosFromLineCol
  dsimp only
  rw [if_neg (by omega), if_neg (by omega), Int.toNat_ofNat, lineStart_cast]

/-- C29 (counterexample): on the text "a", newline, "b" the pair (line 1,
column -1) is mapped to the position 1, whose line and column are (0, 1), not
(1, min(-1, 1)) = (1, -1): a negative column is not clamped. -/
theorem C29_negative_column :
    twoLineArea.getPosFromLineCol 1 (-1) = 1 ∧
    twoLineArea.getLineCol (twoLineArea.getPosFromLineCol 1 (-1)) = (0, 1) ∧
    ((splitLines twoLineArea.Text).getD 1 []).length = 1 := by
  refine ⟨by decide, by decide, by decide⟩

/-- C29 (amended): for every text and every position pos with
0 <= pos <= runeCount(Text), getPosFromLineCol(getLineCol(pos)) = pos; and
for every line index l in range and every column c >= 0,
getLineCol(getPosFromLineCol(l, c)) = (l, min(c, rune length of line l)). -/
theorem C29_line_col_round_trip (t : TextArea) :
    (∀ pos : Int, 0 ≤ pos → pos ≤ t.Text.length →
      t.getPosFromLineCol (t.getLineCol pos).1 (t.getLineCol pos).2 = pos) ∧
    (∀ l c : Int, 0 ≤ l → l < (splitLines t.Text).length → 0 ≤ c →
      t.getLineCol (t.getPosFromLineCol l c) =
        (l, min c (((splitLines t.Text).getD l.toNat []).length : Int))) := by
  constructor
  · intro pos h0 h1
    obtain ⟨l, c, hl, hc, hsum⟩ := exists_lineStart t.Text pos.toNat (by omega)
    have hpos : pos = ((lineStart (splitLines t.Text) l + c : Nat) : Int) := by
      rw [hsum]; omega
    rw [hpos, TextArea.getLineCol_lineStart t l c hl hc]
    dsimp only
    rw [TextArea.getPosFromLineCol_lineStart t l c hl, if_neg (by omega)]
    push_cast; ring
  · intro l c hl0 hl1 hc0
    obtain ⟨n, rfl⟩ := Int.eq_ofNat_of_zero_le hl0
    have hl : n < (splitLines t.Text).length := by omega
    rw [TextArea.getPosFromLineCol_lineStart t n c hl, Int.toNat_ofNat]
    by_cases hgt : c > (((splitLines t.Text).getD n []).length : Int)
    · rw [if_pos hgt, min_eq_right (le_of_lt hgt)]
      have h := TextArea.getLineCol_lineStart t n _ hl (le_refl _)
      push_cast at h
      exact h
    · rw [if_neg hgt, min_eq_left (by omega)]
      obtain ⟨m, rfl⟩ := Int.eq_ofNat_of_zero_le hc0
      have h := TextArea.getLineCol_lineStart t n m hl (by omega)
      push_cast at h
      exact h

/-- C29 (witness): on the text "a", newline, "b" the position 3 is line 1,
column 1 and is mapped back to 3; the pair (line 1, column 7) is cut to the
end of the line, position 3. -/
theorem C29_line_col_round_trip_witness :
    twoLineArea.getLineCol 3 = (1, 1) ∧
    twoLineArea.getPosFromLineCol (twoLineArea.getLineCol 3).1 (twoLineArea.getLineCol 3).2
      = 3 ∧
    twoLineArea.getLineCol (twoLineArea.getPosFromLineCol 1 7) = (1, 1) := by
  refine ⟨by decide, (C29_line_col_round_trip twoLineArea).1 3 (by decide) (by decide), ?_⟩
  have h := (C29_line_col_round_trip twoLineArea).2 1 7 (by decide) (by decide) (by decide)
  rw [h]
  decide

/-! ### Canvas: FillRect and SetPixel -/

/-- C30 (counterexample): on a canvas of 65536 x 32769 pixels whose buffer
has Width * Height elements, FillRect(0, 32768, 1, 1) computes the start
index 32768 * 65536 in int32, which wraps to -2147483648, and panics with an
index out of range; SetPixel(0, 32768) computes the index in int and
returns. -/
theorem C30_FillRect_index_wraps :
    bigCanvas.bufLen = bigCanvas.Width * bigCanvas.Height ∧
    wrap32 (wrap32 (wrap32 (32768 + 0) * bigCanvas.Width) + 0) = -2147483648 ∧
    (bigCanvas.FillRect 0 32768 1 1 255).isNone = true ∧
    (bigCanvas.SetPixel 0 32768 255).isSome = true := by
  refine ⟨by decide, by decide, by decide, by decide⟩

theorem Canvas.store_spec (c : Canvas) (i : Int) (color : Nat) (h0 : 0 ≤ i)
    (h1 : i < c.bufLen) :
    c.store i color = some { c with Buffer := Function.update c.Buffer i color } := by
  simp [Canvas.store, h0, h1]

/-- The inner loop writes `color` at `start + col` for every `col` of the
list and nothing else, when these indices are `int32` values inside the
buffer. -/
theorem Canvas.fillCols_spec (color : Nat) (start : Int) (cols : List Nat) :
    ∀ c : Canvas,
      (∀ col ∈ cols, 0 ≤ start + col ∧ start + col < c.bufLen ∧ start + col ≤ 2147483647) →
      ∃ c1, Canvas.fillCols color start cols c = some c1 ∧ c1.Width = c.Width ∧
        c1.Height = c.Height ∧ c1.bufLen = c.bufLen ∧
        (∀ col ∈ cols, c1.Buffer (start + col) = color) ∧
        (∀ i, (∀ col ∈ cols, i ≠ start + col) → c1.Buffer i = c.Buffer i) := by
  induction cols with
  | nil => intro c _; exact ⟨c, rfl, rfl, rfl, rfl, by simp, fun _ _ => rfl⟩
  | cons col cols ih =>
    intro c hall
    obtain ⟨h0, h1, h2⟩ := hall col (List.mem_cons_self _ _)
    have hw : wrap32 (start + col) = start + col :=
      wrap32_of_isInt32 (by unfold isInt32; omega)
    obtain ⟨c1, hc1, hW, hH, hL, hin, hout⟩ :=
      ih { c with Buffer := Function.update c.Buffer (start + col) color }
        (fun col1 hcol1 => hall col1 (List.mem_cons_of_mem _ hcol1))
    refine ⟨c1, ?_, hW, hH, hL, ?_, ?_⟩
    · simp only [Canvas.fillCols, hw, Canvas.store_spec c _ color h0 h1]
      exact hc1
    · intro col1 hcol1
      rcases List.mem_cons.mp hcol1 with h | h
      · subst h
        by_cases hex : ∃ col2 ∈ cols, start + (col1 : Int) = start + col2
        · obtain ⟨col2, hm, he⟩ := hex
          rw [he]; exact hin col2 hm
        · rw [hout _ (fun col2 hm he => hex ⟨col2, hm, he⟩)]
          simp
      · exact hin col1 h
    · intro i hi
      rw [hout i (fun col1 hm => hi col1 (List.mem_cons_of_mem _ hm))]
      have hne : i ≠ start + col := hi col (List.mem_cons_self _ _)
      simp [Function.update, hne]

/-- The outer loop writes `color` at `(y + row) * Width + x + col` for every
`row` of the list and every `col < w`, and nothing else, when these indices
and the row starts are `int32` values inside the buffer. -/
theorem Canvas.fillRows_spec (color : Nat) (x y w : Int) (rows : List Nat) :
    ∀ c : Canvas,
      (∀ row ∈ rows, isInt32 ((y + row) * c.Width + x) ∧
        ∀ col : Nat, col < w.toNat → 0 ≤ (y + row) * c.Width + x + col ∧
          (y + row) * c.Width + x + col < c.bufLen ∧
          (y + row) * c.Width + x + col ≤ 2147483647) →
      ∃ c1, Canvas.fillRows color x y w rows c = some c1 ∧ c1.Width = c.Width ∧
        c1.Height = c.Height ∧ c1.bufLen = c.bufLen ∧
        (∀ row ∈ rows, ∀ col : Nat, col < w.toNat →
          c1.Buffer ((y + row) * c.Width + x + col) = color) ∧
        (∀ i, (∀ row ∈ rows, ∀ col : Nat, col < w.toNat →
          i ≠ (y + row) * c.Width + x + col) → c1.Buffer i = c.Buffer i) := by
  induction rows with
  | nil => intro c _; exact ⟨c, rfl, rfl, rfl, rfl, by simp, fun _ _ => rfl⟩
  | cons row rows ih =>
    intro c hall
    obtain ⟨h32, hcols⟩ := hall row (List.mem_cons_self _ _)
    have hstart : wrap32 (wrap32 (wrap32 (y + row) * c.Width) + x) = (y + row) * c.Width + x := by
      rw [wrap32_mul_left, wrap32_add_left]
      exact wrap32_of_isInt32 h32
    obtain ⟨c0, hc0, hW0, hH0, hL0, hin0, hout0⟩ :=
      Canvas.fillCols_spec color ((y + row) * c.Width + x) (List.range w.toNat) c
        (fun col hcol => hcols col (List.mem_range.mp hcol))
    obtain ⟨c1, hc1, hW, hH, hL, hin, hout⟩ := ih c0 (by
      intro row1 hrow1
      rw [hW0, hL0]
      exact hall row1 (List.mem_cons_of_mem _ hrow1))
    rw [hW0] at hin hout
    refine ⟨c1, ?_, hW.trans hW0, hH.trans hH0, hL.trans hL0, ?_, ?_⟩
    · simp only [Canvas.fillRows, hstart, hc0]
      exact hc1
    · intro row1 hrow1 col hcol
      rcases List.mem_cons.mp hrow1 with h | h
      · subst h
        by_cases hex : ∃ row2 ∈ rows, ∃ col2 : Nat, col2 < w.toNat ∧
            (y + (row1 : Int)) * c.Width + x + col = (y + row2) * c.Width + x + col2
        · obtain ⟨row2, hm, col2, hlt, he⟩ := hex
          rw [he]; exact hin row2 hm col2 hlt
        · rw [hout _ (fun row2 hm col2 hlt he => hex ⟨row2, hm, col2, hlt, he⟩)]
          exact hin0 col (List.mem_range.mpr hcol)
      · exact hin row1 h col hcol
    · intro i hi
      rw [hout i (fun row1 hm col hlt => hi row1 (List.mem_cons_of_mem _ hm) col hlt)]
      exact hout0 i (fun col hm =>
        hi row (List.mem_cons_self _ _) col (List.mem_range.mp hm))

theorem pixel_index_bounds (W H px py : Int) (hpx0 : 0 ≤ px) (hpx : px < W) (hpy0 : 0 ≤ py)
    (hpy : py < H) : 0 ≤ py * W + px ∧ py * W + px < W * H := by
  have h1 : py * W ≤ (H - 1) * W := mul_le_mul_of_nonneg_right (by omega) (by omega)
  have h2 : (H - 1) * W = W * H - W := by ring
  have h3 : 0 ≤ py * W := mul_nonneg hpy0 (by omega)
  omega

theorem row_start_bounds (W H x1 py : Int) (hW : 0 ≤ W) (hx0 : 0 ≤ x1) (hx : x1 ≤ W)
    (hpy0 : 0 ≤ py) (hpy : py < H) : 0 ≤ py * W + x1 ∧ py * W + x1 ≤ W * H := by
  have h1 : py * W ≤ (H - 1) * W := mul_le_mul_of_nonneg_right (by omega) hW
  have h2 : (H - 1) * W = W * H - W := by ring
  have h3 : 0 ≤ py * W := mul_nonneg hpy0 hW
  omega

theorem wrap64_of_bounds (v : Int) (h0 : -9223372036854775808 ≤ v)
    (h1 : v ≤ 9223372036854775807) : wrap64 v = v := by
  unfold wrap64; omega

/-- The clipped rectangle of `FillRect`: when neither early return is taken
and `x + w`, `y + h` do not overflow, the method runs its loops from
`(x1, y1) = (max(x, 0), max(y, 0))` over `w2` columns and `h2` rows with
`x1 + w2 = min(x + w, Width)` and `y1 + h2 = min(y + h, Height)`. -/
theorem Canvas.FillRect_clipped (c : Canvas) (x y w h : Int) (color : Nat)
    (hWi : isInt32 c.Width) (hHi : isInt32 c.Height)
    (hx : isInt32 x) (hy : isInt32 y) (hxw : isInt32 (x + w)) (hyh : isInt32 (y + h))
    (g1 : ¬ (x ≥ c.Width ∨ y ≥ c.Height)) (g2 : ¬ (x + w < 0 ∨ y + h < 0)) :
    ∃ x1 y1 w2 h2 : Int,
      c.FillRect x y w h color = Canvas.fillRows color x1 y1 w2 (List.range h2.toNat) c ∧
      x1 = max x 0 ∧ y1 = max y 0 ∧ x1 + w2 = min (x + w) c.Width ∧
      y1 + h2 = min (y + h) c.Height := by
  have e1 : wrap32 (x + w) = x + w := wrap32_of_isInt32 hxw
  have e2 : wrap32 (y + h) = y + h := wrap32_of_isInt32 hyh
  have e3 : wrap32 (w + x) = x + w := by rw [add_comm]; exact e1
  have e4 : wrap32 (h + y) = y + h := by rw [add_comm]; exact e2
  unfold isInt32 at hWi hHi hx hy hxw hyh
  unfold Canvas.FillRect
  rw [if_neg g1, e1, e2, if_neg g2]
  dsimp only
  rw [e3, e4]
  by_cases hx0 : x < 0 <;> by_cases hy0 : y < 0
  all_goals
    simp only [hx0, hy0, if_true, if_false, zero_add]
    try rw [e1]
    try rw [e2]
    by_cases hcw : x + w > c.Width <;> by_cases hch : y + h > c.Height
    all_goals
      simp only [hcw, hch, if_true, if_false]
      refine ⟨_, _, _, _, rfl, ?_, ?_, ?_, ?_⟩ <;>
        first
        | (rw [max_def]; split_ifs <;> omega)
        | (rw [min_def, wrap32_of_isInt32 (by unfold isInt32; omega)]; split_ifs <;> omega)
        | (rw [min_def]; split_ifs <;> omega)

/-- C30 (amended): on a canvas with Width, Height >= 0 (int32 values) and
len(Buffer) = Width*Height, SetPixel never indexes out of range: it returns,
writes the pixel (x, y) when it lies on the canvas and nothing else.  When in
addition Width*Height <= 2^31, FillRect with int32 arguments x, y, w, h
without overflow in x+w and y+h never indexes out of range: it returns, sets
every pixel of the intersection of [x, x+w) x [y, y+h) with the canvas to the
colour, and leaves every other buffer element (in particular every index
outside [0, Width*Height)) as it was. -/
theorem C30_canvas_writes (c : Canvas) (color : Nat)
    (hW : 0 ≤ c.Width) (hH : 0 ≤ c.Height) (hWi : isInt32 c.Width) (hHi : isInt32 c.Height)
    (hlen : c.bufLen = c.Width * c.Height) :
    (∀ x y : Int, isInt32 x → isInt32 y →
      ∃ c1, c.SetPixel x y color = some c1 ∧ c1.Width = c.Width ∧ c1.Height = c.Height ∧
        c1.bufLen = c.bufLen ∧
        (0 ≤ x ∧ x < c.Width ∧ 0 ≤ y ∧ y < c.Height → c1.Buffer (y * c.Width + x) = color) ∧
        (∀ i, ¬ (0 ≤ x ∧ x < c.Width ∧ 0 ≤ y ∧ y < c.Height ∧ i = y * c.Width + x) →
          c1.Buffer i = c.Buffer i)) ∧
    (c.Width * c.Height ≤ 2147483648 →
      ∀ x y w h : Int, isInt32 x → isInt32 y → isInt32 (x + w) → isInt32 (y + h) →
        ∃ c1, c.FillRect x y w h color = some c1 ∧ c1.Width = c.Width ∧
          c1.Height = c.Height ∧ c1.bufLen = c.bufLen ∧
          (∀ px py, c.inRect x y w h px py → c1.Buffer (py * c.Width + px) = color) ∧
          (∀ i, (∀ px py, c.inRect x y w h px py → i ≠ py * c.Width + px) →
            c1.Buffer i = c.Buffer i) ∧
          (∀ i, i < 0 ∨ c.Width * c.Height ≤ i → c1.Buffer i = c.Buffer i)) := by
  constructor
  · intro x y hx hy
    unfold Canvas.SetPixel
    by_cases g : x < 0 ∨ x ≥ c.Width ∨ y < 0 ∨ y ≥ c.Height
    · rw [if_pos g]
      exact ⟨c, rfl, rfl, rfl, rfl, fun h => by omega, fun _ _ => rfl⟩
    · rw [if_neg g]
      obtain ⟨hb0, hb1⟩ := pixel_index_bounds c.Width c.Height x y (by omega) (by omega)
        (by omega) (by omega)
      have hyW0 : 0 ≤ y * c.Width := mul_nonneg (by omega) hW
      have hWH : c.Width * c.Height ≤ 2147483648 * 2147483648 := by
        unfold isInt32 at hWi hHi
        exact mul_le_mul (by omega) (by omega) hH (by decide)
      have hidx : wrap64 (wrap64 (y * c.Width) + x) = y * c.Width + x := by
        rw [wrap64_of_bounds (y * c.Width) (by omega) (by omega)]
        exact wrap64_of_bounds _ (by omega) (by omega)
      rw [hidx, Canvas.store_spec c _ color hb0 (by rw [hlen]; exact hb1)]
      refine ⟨_, rfl, rfl, rfl, rfl, fun _ => by simp, ?_⟩
      intro i hi
      have hne : i ≠ y * c.Width + x := fun he => hi ⟨by omega, by omega, by omega, by omega, he⟩
      simp [Function.update, hne]
  · intro hWH x y w h hx hy hxw hyh
    by_cases g1 : x ≥ c.Width ∨ y ≥ c.Height
    · refine ⟨c, by simp [Canvas.FillRect, g1], rfl, rfl, rfl, ?_, fun _ _ => rfl,
        fun _ _ => rfl⟩
      intro px py hin
      unfold Canvas.inRect at hin
      omega
    · by_cases g2 : x + w < 0 ∨ y + h < 0
      · refine ⟨c, ?_, rfl, rfl, rfl, ?_, fun _ _ => rfl, fun _ _ => rfl⟩
        · simp [Canvas.FillRect, g1, wrap32_of_isInt32 hxw, wrap32_of_isInt32 hyh, g2]
        · intro px py hin
          unfold Canvas.inRect at hin
          omega
      · obtain ⟨x1, y1, w2, h2, hfill, hx1, hy1, hxe, hye⟩ :=
          Canvas.FillRect_clipped c x y w h color hWi hHi hx hy hxw hyh g1 g2
        have hx1' : 0 ≤ x1 ∧ x ≤ x1 ∧ (x1 = x ∨ x1 = 0) := by
          rw [hx1, max_def]; split_ifs <;> omega
        have hy1' : 0 ≤ y1 ∧ y ≤ y1 ∧ (y1 = y ∨ y1 = 0) := by
          rw [hy1, max_def]; split_ifs <;> omega
        have hxe' : x1 + w2 ≤ x + w ∧ x1 + w2 ≤ c.Width ∧
            (x1 + w2 = x + w ∨ x1 + w2 = c.Width) := by
          rw [hxe, min_def]; split_ifs <;> omega
        have hye' : y1 + h2 ≤ y + h ∧ y1 + h2 ≤ c.Height ∧
            (y1 + h2 = y + h ∨ y1 + h2 = c.Height) := by
          rw [hye, min_def]; split_ifs <;> omega
        obtain ⟨c1, hc1, hW1, hH1, hL1, hin, hout⟩ :=
          Canvas.fillRows_spec color x1 y1 w2 (List.range h2.toNat) c (by
            intro row hrow
            have hrow' : (row : Int) < h2 := by
              have := List.mem_range.mp hrow
              omega
            obtain ⟨r0, r1⟩ := row_start_bounds c.Width c.Height x1 (y1 + row) hW
              (by omega) (by omega) (by omega) (by omega)
            refine ⟨?_, ?_⟩
            · unfold isInt32
              by_cases hW0 : c.Width = 0
              · rw [hW0] at r1 ⊢
                simp at r1 ⊢
                omega
              · obtain ⟨p0, p1⟩ := pixel_index_bounds c.Width c.Height x1 (y1 + row)
                  (by omega) (by omega) (by omega) (by omega)
                omega
            · intro col hcol
              have hcol' : (col : Int) < w2 := by omega
              obtain ⟨p0, p1⟩ := pixel_index_bounds c.Width c.Height (x1 + col) (y1 + row)
                (by omega) (by omega) (by omega) (by omega)
              rw [hlen]
              omega)
        have hA : ∀ px py, c.inRect x y w h px py → c1.Buffer (py * c.Width + px) = color := by
          intro px py hp
          unfold Canvas.inRect at hp
          have hr : (py - y1).toNat ∈ List.range h2.toNat := by
            rw [List.mem_range]; omega
          have hc : (px - x1).toNat < w2.toNat := by omega
          have h := hin _ hr _ hc
          have e1 : y1 + ((py - y1).toNat : Int) = py := by omega
          have e2 : ((px - x1).toNat : Int) = px - x1 := by omega
          rw [e1, e2] at h
          have e3 : py * c.Width + x1 + (px - x1) = py * c.Width + px := by ring
          rw [e3] at h
          exact h
        have hB : ∀ i, (∀ px py, c.inRect x y w h px py → i ≠ py * c.Width + px) →
            c1.Buffer i = c.Buffer i := by
          intro i hi
          apply hout
          intro row hrow col hcol
          have hrow' : (row : Int) < h2 := by
            have := List.mem_range.mp hrow
            omega
          have hcol' : (col : Int) < w2 := by omega
          have := hi (x1 + col) (y1 + row) (by unfold Canvas.inRect; omega)
          intro he
          apply this
          rw [he]; ring
        refine ⟨c1, hfill.trans hc1, hW1, hH1, hL1, hA, hB, ?_⟩
        intro i hi
        apply hB
        intro px py hp he
        unfold Canvas.inRect at hp
        obtain ⟨p0, p1⟩ := pixel_index_bounds c.Width c.Height px py (by omega) (by omega)
          (by omega) (by omega)
        omega

/-- C30 (witness): on the 4 x 3 canvas FillRect(-1, 1, 3, 5) returns and sets
the pixels of [0, 2) x [1, 3), the buffer indices 4, 5, 8 and 9. -/
theorem C30_canvas_writes_witness :
    ∃ c1, smallCanvas.FillRect (-1) 1 3 5 7 = some c1 ∧
      (List.range 12).map (fun i => c1.Buffer (i : Int)) =
        [0, 0, 0, 0, 7, 7, 0, 0, 7, 7, 0, 0] := by
  obtain ⟨c1, hc1, _⟩ := (C30_canvas_writes smallCanvas 7 (by decide) (by decide) (by decide)
    (by decide) (by decide)).2 (by decide) (-1) 1 3 5 (by decide) (by decide) (by decide)
    (by decide)
  have hd : (smallCanvas.FillRect (-1) 1 3 5 7).map
      (fun c1 => (List.range 12).map (fun i => c1.Buffer (i : Int))) =
      some [0, 0, 0, 0, 7, 7, 0, 0, 7, 7, 0, 0] := by decide
  rw [hc1] at hd
  exact ⟨c1, hc1, by simpa using hd⟩

/-! ### Behaviour outside the int32 range and on a stale caret -/

/-- C10 (failing input): `NewGridLayout(1, 4294967296)` has Rows >= 1 and
Cols >= 1, both values of the Go type int.  In the container (0, 0, 300, 300)
the claim's formula gives the cell width max(0, 300 / 4294967296) = 0, but
Arrange divides by int32(Cols) = 0 and panics, with or without children. -/
theorem C10_grid_divide_by_zero :
    1 ≤ (NewGridLayout 1 4294967296).Rows ∧ 1 ≤ (NewGridLayout 1 4294967296).Cols ∧
    wrap32 (NewGridLayout 1 4294967296).Cols = 0 ∧
    gridCellSpec 300 0 0 4294967296 = 0 ∧
    (NewGridLayout 1 4294967296).Arrange ⟨0, 0, 300, 300⟩ gridExampleChildren = none ∧
    (NewGridLayout 1 4294967296).Arrange ⟨0, 0, 300, 300⟩ [] = none :=
  ⟨by decide, by decide, by decide, by decide, rfl, rfl⟩

/-- C13 (counterexample): a VBox with padding 1073741825 in the container
(0, 0, 0, 0) gives its child the width 2147483646, while W - 2p is
-2147483650; an HBox gives the height 2147483646.  In the container
(2147483647, 0, 100, 100) with padding 1 the child is placed at
x = -2147483648, while X + p is 2147483648. -/
theorem C13_box_width_wraps :
    (VBoxLayout.Arrange ⟨0, 1073741825⟩ ⟨0, 0, 0, 0⟩
        [⟨0, ⟨0, 0, 10, 10⟩, true, fun _ => (40, 30)⟩]).map (fun c => c.Bounds) =
      [⟨1073741825, 1073741825, 2147483646, 30⟩] ∧
    (HBoxLayout.Arrange ⟨0, 1073741825⟩ ⟨0, 0, 0, 0⟩
        [⟨0, ⟨0, 0, 10, 10⟩, true, fun _ => (40, 30)⟩]).map (fun c => c.Bounds) =
      [⟨1073741825, 1073741825, 40, 2147483646⟩] ∧
    (0 : Int) - 2 * 1073741825 = -2147483650 ∧
    (VBoxLayout.Arrange ⟨0, 1⟩ ⟨2147483647, 0, 100, 100⟩
        [⟨0, ⟨0, 0, 10, 10⟩, true, fun _ => (40, 30)⟩]).map (fun c => c.Bounds) =
      [⟨-2147483648, 1, 98, 30⟩] :=
  ⟨by decide, by decide, by decide, by decide⟩

/-- C22 (failing input): `NewTextArea(100, 60)` (height 60, line height 20)
gets the focus and three Enter keys, which leave the caret on line 3 and
scrollY = 25.  The application then assigns `Text = ""` (the field is
exported; the New button of the notepad example does so).  The next key
event, Right, moves the caret from 3 to 0 in the clamp at the head of the
key case and returns true, without calling ensureCursorVisible: scrollY is
still 25 and the caret's line 0, whose top is at 5, lies above the view. -/
theorem C22_clamped_caret_not_scrolled :
    TextArea.run (NewTextArea 100 60).OnFocus
        (List.replicate 3 ⟨.EventKeyPress, 0, .key ⟨13, 0, 0⟩⟩) = some scrolledArea ∧
    scrolledArea.caretLineVisible ∧
    ({ scrolledArea with Text := [] }).lineHeight ≤
      ({ scrolledArea with Text := [] }).Bounds.Height ∧
    TextArea.OnEvent { scrolledArea with Text := [] } ⟨.EventKeyPress, 0, .key ⟨39, 0, 0⟩⟩ =
      some ({ scrolledArea with Text := [], cursorPos := 0 }, true) ∧
    ({ scrolledArea with Text := [], cursorPos := 0 }).scrollY = 25 ∧
    (({ scrolledArea with Text := [], cursorPos := 0 }).getLineCol 0).1 = 0 ∧
    ¬ ({ scrolledArea with Text := [], cursorPos := 0 }).caretLineVisible :=
  ⟨by decide, by decide, by decide, by decide, by decide, by decide, by decide⟩

/-- C23 (failing input): a visible text area of height 100 with ten lines of
height 20 (content height 210), scrollY = 0.  A wheel event with the
positive delta 4294967176 scrolls down, to scrollY = 40, because the code
reads int32(Delta) = -120; the claim and the comment in the code have the
view move up (here: stay at 0) for a positive delta.  With the negative
delta -2147483648 the view, scrolled to 40, moves up to 0 instead of down to
80, because -int32(Delta) wraps to a negative number. -/
theorem C23_wheel_delta_truncated :
    tenLineArea.Visible = true ∧
    tenLineArea.OnEvent ⟨.EventMouseWheel, 0, .mouse ⟨0, 0, 0, 4294967176⟩⟩ =
      some ({ tenLineArea with scrollY := 40, RepaintRequested := true }, true) ∧
    wheelScrollSpec 0 4294967176 10 20 100 = 0 ∧
    TextArea.OnEvent { tenLineArea with scrollY := 40 }
        ⟨.EventMouseWheel, 0, .mouse ⟨0, 0, 0, -2147483648⟩⟩ =
      some ({ tenLineArea with scrollY := 0, RepaintRequested := true }, true) ∧
    wheelScrollSpec 40 (-2147483648) 10 20 100 = 80 :=
  ⟨by decide, by decide, by decide, by decide, by decide⟩

/-- C25 (counterexample): a flex row with FlexEnd, spacing 5 and no grow
factor, in the container (2147483647, 0, 205, 50) with two children of
measured widths 40 and 60: the main-axis start is S = 2147483647, the
leftover L = 205 - 105 = 100, and the first child is placed at
x = -2147483549, while S + L is 2147483747. -/
theorem C25_flex_end_wraps :
    (justifyExample .FlexEnd).remaining 205
        ((justifyExample .FlexEnd).measureRow boxExampleChildren ⟨0, 0, 0⟩) = 100 ∧
    ((justifyExample .FlexEnd).Arrange ⟨2147483647, 0, 205, 50⟩ boxExampleChildren).map
        (fun out => out.map (fun c => c.Bounds.X)) = some [-2147483549, -2147483504] ∧
    flexFirstSpec .FlexEnd 2147483647 100 2 = 2147483747 :=
  ⟨by decide, by decide, by decide⟩

/-! ### Render: what it writes besides the repaint flag -/

theorem renderChildren_spec {α : Type} (ops : ComponentOps α) :
    ∀ (cs out : List α), renderChildren ops cs = some out →
      out.length = cs.length ∧
      ∀ (i : Nat) (a : α), cs[i]? = some a →
        ∃ a1, ops.Render a = some a1 ∧ out[i]? = some a1 := by
  intro cs
  induction cs with
  | nil =>
    intro out h
    simp only [renderChildren, Option.some.injEq] at h
    subst h
    exact ⟨rfl, by simp⟩
  | cons c cs ih =>
    intro out h
    unfold renderChildren at h
    cases h1 : ops.Render c with
    | none => rw [h1] at h; simp at h
    | some c1 =>
      cases h2 : renderChildren ops cs with
      | none => rw [h1, h2] at h; simp at h
      | some cs1 =>
        rw [h1, h2] at h
        simp only [Option.some.injEq] at h
        subst h
        obtain ⟨hl, hi⟩ := ih cs1 h2
        refine ⟨by simp [hl], ?_⟩
        intro i a ha
        cases i with
        | zero =>
          simp only [List.getElem?_cons_zero, Option.some.injEq] at ha
          subst ha
          exact ⟨c1, h1, by simp⟩
        | succ i =>
          simp only [List.getElem?_cons_succ] at ha ⊢
          exact hi i a ha

theorem renderChildren_returns {α : Type} (ops : ComponentOps α) (cs : List α)
    (h : ∀ a ∈ cs, (ops.Render a).isSome = true) :
    ∃ out, renderChildren ops cs = some out := by
  induction cs with
  | nil => exact ⟨[], rfl⟩
  | cons c cs ih =>
    obtain ⟨out, hout⟩ := ih (fun a ha => h a (List.mem_cons_of_mem _ ha))
    have hc := h c (List.mem_cons_self _ _)
    obtain ⟨c1, hc1⟩ := Option.isSome_iff_exists.mp hc
    exact ⟨c1 :: out, by simp [renderChildren, hc1, hout]⟩

theorem setChildBounds_spec {α : Type} (ops : ComponentOps α) :
    ∀ (cs : List α) (arranged : List Child) (out : List α),
      setChildBounds ops cs arranged = some out →
      out.length = cs.length ∧
      ∀ (i : Nat) (a : α) (c : Child), cs[i]? = some a → arranged[i]? = some c →
        ((ops.toChild a).Visible = true →
          ∃ a1, ops.SetBounds a c.Bounds = some a1 ∧ out[i]? = some a1) ∧
        ((ops.toChild a).Visible = false → out[i]? = some a) := by
  intro cs
  induction cs with
  | nil =>
    intro arranged out h
    simp only [setChildBounds, Option.some.injEq] at h
    subst h
    exact ⟨rfl, by simp⟩
  | cons a0 cs ih =>
    intro arranged out h
    cases arranged with
    | nil =>
      simp only [setChildBounds, Option.some.injEq] at h
      subst h
      exact ⟨rfl, by simp⟩
    | cons c0 arranged =>
      unfold setChildBounds at h
      cases hrest : setChildBounds ops cs arranged with
      | none =>
        rw [hrest] at h
        split_ifs at h
        cases ops.SetBounds a0 c0.Bounds <;> simp at h
      | some rest =>
        rw [hrest] at h
        obtain ⟨hl, hi⟩ := ih arranged rest hrest
        by_cases hv : (ops.toChild a0).Visible = true
        · rw [if_pos hv] at h
          cases hs : ops.SetBounds a0 c0.Bounds with
          | none => rw [hs] at h; simp at h
          | some a1 =>
            rw [hs] at h
            simp only [Option.some.injEq] at h
            subst h
            refine ⟨by simp [hl], ?_⟩
            intro i a c ha hc
            cases i with
            | zero =>
              simp only [List.getElem?_cons_zero, Option.some.injEq] at ha hc
              subst ha; subst hc
              exact ⟨fun _ => ⟨a1, hs, by simp⟩, fun hf => by rw [hf] at hv; simp at hv⟩
            | succ i =>
              simp only [List.getElem?_cons_succ] at ha hc ⊢
              exact hi i a c ha hc
        · rw [if_neg hv] at h
          simp only [Option.some.injEq] at h
          subst h
          refine ⟨by simp [hl], ?_⟩
          intro i a c ha hc
          cases i with
          | zero =>
            simp only [List.getElem?_cons_zero, Option.some.injEq] at ha hc
            subst ha; subst hc
            exact ⟨fun ht => absurd ht hv, fun _ => by simp⟩
          | succ i =>
            simp only [List.getElem?_cons_succ] at ha hc ⊢
            exact hi i a c ha hc

theorem setChildBounds_returns {α : Type} (ops : ComponentOps α)
    (h : ∀ (a : α) (r : Rect), (ops.SetBounds a r).isSome = true) :
    ∀ (cs : List α) (arranged : List Child), ∃ out, setChildBounds ops cs arranged = some out := by
  intro cs
  induction cs with
  | nil => intro arranged; exact ⟨[], by simp [setChildBounds]⟩
  | cons a0 cs ih =>
    intro arranged
    cases arranged with
    | nil => exact ⟨a0 :: cs, by simp [setChildBounds]⟩
    | cons c0 arranged =>
      obtain ⟨rest, hrest⟩ := ih arranged
      obtain ⟨a1, ha1⟩ := Option.isSome_iff_exists.mp (h a0 c0.Bounds)
      by_cases hv : (ops.toChild a0).Visible = true
      · exact ⟨a1 :: rest, by simp [setChildBounds, hv, ha1, hrest]⟩
      · exact ⟨a0 :: rest, by simp [setChildBounds, hv, hrest]⟩

theorem LayoutPanel.LayoutChildren_spec {α : Type} (ops : ComponentOps α)
    (p p1 : LayoutPanel α) (h : p.LayoutChildren ops = some p1) :
    p1.Bounds = p.Bounds ∧ p1.Visible = p.Visible ∧
    p1.RepaintRequested = p.RepaintRequested ∧ p1.Layout = p.Layout ∧
    p1.Children.length = p.Children.length ∧
    ∀ (l : LayoutImpl) (arranged : List Child), p.Layout = some l → l.reachesLoop = true →
      l.Arrange p.Bounds (p.Children.map ops.toChild) = some arranged →
      ∀ (i : Nat) (a : α) (r : Child), p.Children[i]? = some a → arranged[i]? = some r →
        (ops.toChild a).Visible = true →
        ∃ a1, ops.SetBounds a r.Bounds = some a1 ∧ p1.Children[i]? = some a1 := by
  unfold LayoutPanel.LayoutChildren at h
  cases hl : p.Layout with
  | none =>
    rw [hl] at h
    simp only [Option.some.injEq] at h
    subst h
    exact ⟨rfl, rfl, rfl, hl, rfl, fun l arranged h1 => by simp at h1⟩
  | some l0 =>
    rw [hl] at h
    dsimp only at h
    cases harr : l0.Arrange p.Bounds (p.Children.map ops.toChild) with
    | none => rw [harr] at h; simp at h
    | some arr =>
      rw [harr] at h
      dsimp only at h
      by_cases hreach : l0.reachesLoop = true
      · rw [if_pos hreach] at h
        cases hset : setChildBounds ops p.Children arr with
        | none => rw [hset] at h; simp at h
        | some cs =>
          rw [hset] at h
          simp only [Option.some.injEq] at h
          subst h
          obtain ⟨hlen, hi⟩ := setChildBounds_spec ops p.Children arr cs hset
          refine ⟨rfl, rfl, rfl, rfl, hlen, ?_⟩
          intro l arranged h1 _ h3 i a r ha hr hvis
          simp only [Option.some.injEq] at h1
          subst h1
          rw [harr] at h3
          simp only [Option.some.injEq] at h3
          subst h3
          exact (hi i a r ha hr).1 hvis
      · rw [if_neg hreach] at h
        simp only [Option.some.injEq] at h
        subst h
        refine ⟨rfl, rfl, rfl, hl, rfl, ?_⟩
        intro l arranged h1 h2
        simp only [Option.some.injEq] at h1
        subst h1
        exact absurd h2 hreach

theorem LayoutPanel.LayoutChildren_returns {α : Type} (ops : ComponentOps α)
    (p : LayoutPanel α) (hs : ∀ (a : α) (r : Rect), (ops.SetBounds a r).isSome = true)
    (hl : ∀ l, p.Layout = some l →
      (l.Arrange p.Bounds (p.Children.map ops.toChild)).isSome = true) :
    ∃ p1, p.LayoutChildren ops = some p1 := by
  unfold LayoutPanel.LayoutChildren
  cases hlay : p.Layout with
  | none => exact ⟨p, rfl⟩
  | some l0 =>
    obtain ⟨arr, harr⟩ := Option.isSome_iff_exists.mp (hl l0 hlay)
    obtain ⟨cs, hcs⟩ := setChildBounds_returns ops hs p.Children arr
    dsimp only
    rw [harr]
    dsimp only
    rw [hcs]
    split_ifs
    · exact ⟨_, rfl⟩
    · exact ⟨_, rfl⟩

theorem LayoutPanel.Render_invisible {α : Type} (ops : ComponentOps α) (p : LayoutPanel α)
    (hv : p.Visible = false) : p.Render ops = some p := by
  simp [LayoutPanel.Render, hv]

theorem LayoutPanel.Render_returns {α : Type} (ops : ComponentOps α) (p : LayoutPanel α)
    (h : ∀ a ∈ p.Children, (ops.Render a).isSome = true) : ∃ p1, p.Render ops = some p1 := by
  obtain ⟨cs, hcs⟩ := renderChildren_returns ops p.Children h
  unfold LayoutPanel.Render
  rw [hcs]
  split_ifs
  · exact ⟨_, rfl⟩
  · exact ⟨_, rfl⟩

theorem LayoutPanel.Render_spec {α : Type} (ops : ComponentOps α) (p p1 : LayoutPanel α)
    (h : p.Render ops = some p1) :
    p1.Bounds = p.Bounds ∧ p1.Visible = p.Visible ∧ p1.Layout = p.Layout ∧
    p1.Children.length = p.Children.length ∧
    (p.Visible = true → ∀ (i : Nat) (a : α), p.Children[i]? = some a →
      ∃ a1, ops.Render a = some a1 ∧ p1.Children[i]? = some a1) := by
  unfold LayoutPanel.Render at h
  by_cases hv : p.Visible = true
  · simp only [hv, Bool.not_true, Bool.false_eq_true, if_false] at h
    cases hcs : renderChildren ops p.Children with
    | none => rw [hcs] at h; simp at h
    | some cs =>
      rw [hcs] at h
      simp only [Option.some.injEq] at h
      subst h
      obtain ⟨hlen, hi⟩ := renderChildren_spec ops p.Children cs hcs
      exact ⟨rfl, hv.symm, rfl, hlen, fun _ => hi⟩
  · have hv1 : p.Visible = false := by simpa using hv
    simp only [hv1, Bool.not_false, if_true, Option.some.injEq] at h
    subst h
    exact ⟨rfl, rfl, rfl, rfl, fun h => by rw [h] at hv1; simp at hv1⟩

/-- C24 (counterexample): Render resolves a pending click and a card's Render
moves its children.  The text box "hello" is left by a click at x = 30 in
the state clickedBox, the text area by a click at (21, 30) in the state
clickedArea.  The text box comes out of Render (on a canvas with a font 8
pixels wide) with the cursor and the anchor at 3 and the pending position
cleared; the text area comes out with the cursor at 5, the pending position
cleared and the line height recomputed.  A button added to the card
`NewCard(200, 100, ...)` gets the bounds (10, 35, 180, 24); after the card
is moved to (50, 50), Render sets the bounds of the inner panel to
(60, 85, 180, 55) and the bounds of the button to (60, 85, 180, 24). -/
theorem C24_Render_writes_state :
    TextBox.run ({ NewTextBox 100 with Text := runes "hello" }).OnFocus
        [⟨.EventMouseClick, 0, .mouse ⟨30, 5, 1, 0⟩⟩,
          ⟨.EventMouseRelease, 0, .mouse ⟨30, 5, 1, 0⟩⟩] = some clickedBox ∧
    TextArea.OnEvent { NewTextArea 100 100 with Text := runes "ab\ncd" }
        ⟨.EventMouseClick, 0, .mouse ⟨21, 30, 1, 0⟩⟩ = some (clickedArea, true) ∧
    clickedBox.Render monoMeasure 27 0 =
      some { clickedBox with cursorPos := 3, selStart := 3, pendingMouseX := 0,
                             RepaintRequested := false } ∧
    clickedArea.Render monoMeasure 14 0 =
      some { clickedArea with cursorPos := 5, pendingMouseX := 0, pendingMouseY := 0,
                              lineHeight := 18, RepaintRequested := false } ∧
    ((NewLayoutCard Button 200 100).Add (buttonOps (36, 24)) plainButton).map
        (fun c => (c.InnerPanel.Bounds, c.InnerPanel.Children.map (fun b => b.Bounds))) =
      some (⟨10, 35, 180, 55⟩, [⟨10, 35, 180, 24⟩]) ∧
    (((NewLayoutCard Button 200 100).Add (buttonOps (36, 24)) plainButton).bind
        (fun c => (c.SetBounds ⟨50, 50, 200, 100⟩).Render (buttonOps (36, 24)))).map
        (fun c => (c.InnerPanel.Bounds, c.InnerPanel.Children.map (fun b => b.Bounds))) =
      some (⟨60, 85, 180, 55⟩, [⟨60, 85, 180, 24⟩]) := by
  refine ⟨by decide, by decide, by decide, by decide, by decide, by decide⟩

theorem TextBox.resolvePending_box_frame (t t1 : TextBox) (measure : List Int → Int)
    (h : t.resolvePending measure = some t1) :
    t1.Text = t.Text ∧ t1.Placeholder = t.Placeholder ∧ t1.Bounds = t.Bounds ∧
    t1.Visible = t.Visible ∧ t1.ReadOnly = t.ReadOnly ∧ t1.isFocused = t.isFocused ∧
    t1.isDragging = t.isDragging := by
  unfold TextBox.resolvePending at h
  cases hi : t.getIndexFromX measure t.pendingMouseX with
  | none =>
    rw [hi] at h
    split_ifs at h <;>
      (simp only [Option.some.injEq] at h; subst h; exact ⟨rfl, rfl, rfl, rfl, rfl, rfl, rfl⟩)
  | some idx =>
    rw [hi] at h
    dsimp only at h
    split_ifs at h <;>
      (simp only [Option.some.injEq] at h; subst h; exact ⟨rfl, rfl, rfl, rfl, rfl, rfl, rfl⟩)

theorem TextBox.resolvePending_none_pending (t : TextBox) (measure : List Int → Int)
    (hd : t.isDragging = false) (hp : t.pendingMouseX = 0 ∨ t.selStart ≠ -1) :
    t.resolvePending measure = some t := by
  unfold TextBox.resolvePending
  rcases hp with hp | hp
  · simp [hd, hp]
  · simp [hd, hp]

theorem TextBox.blink_box_frame (t : TextBox) (now : Int) :
    (t.blink now).Text = t.Text ∧ (t.blink now).Placeholder = t.Placeholder ∧
    (t.blink now).Bounds = t.Bounds ∧ (t.blink now).Visible = t.Visible ∧
    (t.blink now).ReadOnly = t.ReadOnly ∧ (t.blink now).isFocused = t.isFocused ∧
    (t.blink now).isDragging = t.isDragging ∧ (t.blink now).cursorPos = t.cursorPos ∧
    (t.blink now).selStart = t.selStart ∧ (t.blink now).pendingMouseX = t.pendingMouseX := by
  unfold TextBox.blink
  split_ifs <;> exact ⟨rfl, rfl, rfl, rfl, rfl, rfl, rfl, rfl, rfl, rfl⟩

theorem TextBox.highlightReturns_of_inRange (t : TextBox) (spare : Nat)
    (hc : cursorInRange t.cursorPos t.Text)
    (hs : t.selStart = -1 ∨ cursorInRange t.selStart t.Text) :
    t.highlightReturns spare = true := by
  unfold cursorInRange at hc hs
  unfold TextBox.highlightReturns
  rcases hs with hs | hs
  · simp [hs]
  · by_cases hg : (t.isFocused && t.selStart != t.cursorPos && t.selStart != -1) = true
    · rw [if_pos hg]
      dsimp only
      rw [Bool.and_eq_true, decide_eq_true_eq, decide_eq_true_eq]
      constructor <;> constructor <;> split_ifs <;> omega
    · rw [if_neg hg]

theorem TextArea.getIndexFromXY_frame (t t1 : TextArea) (measure : List Int → Int)
    (textH x y idx : Int) (h : t.getIndexFromXY measure textH x y = some (idx, t1)) :
    t1 = t ∨ t1 = { t with lineHeight := wrap32 (textH + 4) } := by
  unfold TextArea.getIndexFromXY at h
  dsimp only at h
  split_ifs at h with h1
  · simp only [Option.some.injEq, Prod.mk.injEq] at h
    exact Or.inl h.2.symm
  · cases hq : div32 (wrap32 (wrap32 (y - wrap32 (t.Bounds.Y + 5)) + t.scrollY))
        (wrap32 (textH + 4)) with
    | none => rw [hq] at h; simp at h
    | some q =>
      rw [hq] at h
      dsimp only at h
      split_ifs at h
      · simp only [Option.some.injEq, Prod.mk.injEq] at h
        exact Or.inr h.2.symm
      · simp only [Option.some.injEq, Prod.mk.injEq] at h
        exact Or.inr h.2.symm

theorem TextArea.resolvePending_area_frame (t t1 : TextArea) (measure : List Int → Int)
    (textH : Int) (h : t.resolvePending measure textH = some t1) :
    t1.Text = t.Text ∧ t1.Placeholder = t.Placeholder ∧ t1.Bounds = t.Bounds ∧
    t1.Visible = t.Visible ∧ t1.ReadOnly = t.ReadOnly ∧ t1.isFocused = t.isFocused ∧
    t1.isDragging = t.isDragging ∧ t1.selStart = t.selStart ∧ t1.scrollY = t.scrollY := by
  unfold TextArea.resolvePending at h
  split_ifs at h
  · cases hi : t.getIndexFromXY measure textH t.pendingMouseX t.pendingMouseY with
    | none => rw [hi] at h; simp at h
    | some p =>
      obtain ⟨idx, t0⟩ := p
      rw [hi] at h
      simp only [Option.some.injEq] at h
      subst h
      rcases TextArea.getIndexFromXY_frame t t0 measure textH _ _ idx hi with h0 | h0 <;>
        (subst h0; exact ⟨rfl, rfl, rfl, rfl, rfl, rfl, rfl, rfl, rfl⟩)
  · simp only [Option.some.injEq] at h
    subst h; exact ⟨rfl, rfl, rfl, rfl, rfl, rfl, rfl, rfl, rfl⟩

theorem TextArea.blink_area_frame (t : TextArea) (now : Int) :
    (t.blink now).Text = t.Text ∧ (t.blink now).Placeholder = t.Placeholder ∧
    (t.blink now).Bounds = t.Bounds ∧ (t.blink now).Visible = t.Visible ∧
    (t.blink now).ReadOnly = t.ReadOnly ∧ (t.blink now).isFocused = t.isFocused ∧
    (t.blink now).isDragging = t.isDragging ∧ (t.blink now).selStart = t.selStart ∧
    (t.blink now).scrollY = t.scrollY ∧ (t.blink now).cursorPos = t.cursorPos ∧
    (t.blink now).pendingMouseX = t.pendingMouseX ∧
    (t.blink now).pendingMouseY = t.pendingMouseY ∧
    (t.blink now).lineHeight = t.lineHeight := by
  unfold TextArea.blink
  split_ifs <;> exact ⟨rfl, rfl, rfl, rfl, rfl, rfl, rfl, rfl, rfl, rfl, rfl, rfl, rfl⟩

/-- C24 (amended): Render of a Button, a CheckBox, a Label or an Image writes
nothing but the repaint flag, Render of a ProgressBar or a LineChart writes
nothing at all.  Render of a TextBox never changes the text, the
placeholder, the bounds, the visibility, the read-only flag, the focus or the
dragging flag; when no mouse position is pending (not dragging, and
pendingMouseX = 0 or an anchor other than -1) and cursor and anchor are in
range it returns and leaves the cursor, the anchor and pendingMouseX as they
were, so that only the blink state (cursorBlink, lastBlink) and the flag can
differ.  Render of a TextArea never changes the text, the bounds, the anchor
or the scroll offset; when no click is pending
(pendingMouseX = pendingMouseY = 0) it returns and leaves the cursor as it
was, and it sets lineHeight to the measured text height + 4.  Render of a
Panel keeps the bounds, the visibility, the layout and the number of
children of the panel; a visible panel calls Render on every child (and
returns when each of these calls does), an invisible one does nothing.
Render of a Card keeps the card's own fields, the repaint flag included; a
visible card sets the bounds of its inner panel to the card's bounds inset by
(10, 35, -20, -45) and runs the layout of the inner panel, so that every
visible child receives a SetBounds call with the bounds the layout assigns,
and then renders the inner panel (it returns when the layout and the calls
on the children do); an invisible card does nothing. -/
theorem C24_Render_frame :
    (∀ b : Button, b.Render = b ∨ b.Render = { b with RepaintRequested := false }) ∧
    (∀ c : CheckBox, c.Render = c ∨ c.Render = { c with RepaintRequested := false }) ∧
    (∀ p : ProgressBar, p.Render = p) ∧
    (∀ (α : Type) (l : LineChart α), l.Render = l) ∧
    (∀ (t t1 : TextBox) (measure : List Int → Int) (spare : Nat) (now : Int),
      t.Render measure spare now = some t1 →
        t1.Text = t.Text ∧ t1.Placeholder = t.Placeholder ∧ t1.Bounds = t.Bounds ∧
        t1.Visible = t.Visible ∧ t1.ReadOnly = t.ReadOnly ∧ t1.isFocused = t.isFocused ∧
        t1.isDragging = t.isDragging) ∧
    (∀ (t : TextBox) (measure : List Int → Int) (spare : Nat) (now : Int),
      t.isDragging = false → (t.pendingMouseX = 0 ∨ t.selStart ≠ -1) →
      cursorInRange t.cursorPos t.Text →
      (t.selStart = -1 ∨ cursorInRange t.selStart t.Text) →
        ∃ t1, t.Render measure spare now = some t1 ∧ t1.cursorPos = t.cursorPos ∧
          t1.selStart = t.selStart ∧ t1.pendingMouseX = t.pendingMouseX) ∧
    (∀ (t t1 : TextArea) (measure : List Int → Int) (textH now : Int),
      t.Render measure textH now = some t1 →
        t1.Text = t.Text ∧ t1.Placeholder = t.Placeholder ∧ t1.Bounds = t.Bounds ∧
        t1.Visible = t.Visible ∧ t1.ReadOnly = t.ReadOnly ∧ t1.isFocused = t.isFocused ∧
        t1.isDragging = t.isDragging ∧ t1.selStart = t.selStart ∧ t1.scrollY = t.scrollY) ∧
    (∀ (t : TextArea) (measure : List Int → Int) (textH now : Int),
      t.pendingMouseX = 0 → t.pendingMouseY = 0 →
        ∃ t1, t.Render measure textH now = some t1 ∧ t1.cursorPos = t.cursorPos ∧
          t1.pendingMouseX = 0 ∧ t1.pendingMouseY = 0 ∧
          (t.Visible = true → t1.lineHeight = wrap32 (textH + 4))) ∧
    (∀ l : Label, l.Render = l ∨ l.Render = { l with RepaintRequested := false }) ∧
    (∀ c : Image, c.Render = c ∨ c.Render = { c with RepaintRequested := false }) ∧
    (∀ (α : Type) (ops : ComponentOps α) (p : LayoutPanel α),
      (p.Visible = false → p.Render ops = some p) ∧
      ((∀ a ∈ p.Children, (ops.Render a).isSome = true) → ∃ p1, p.Render ops = some p1) ∧
      (∀ p1, p.Render ops = some p1 →
        p1.Bounds = p.Bounds ∧ p1.Visible = p.Visible ∧ p1.Layout = p.Layout ∧
        p1.Children.length = p.Children.length ∧
        (p.Visible = true → ∀ (i : Nat) (a : α), p.Children[i]? = some a →
          ∃ a1, ops.Render a = some a1 ∧ p1.Children[i]? = some a1))) ∧
    (∀ (α : Type) (ops : ComponentOps α) (c : LayoutCard α),
      (c.Visible = false → c.Render ops = some c) ∧
      ((∀ (a : α) (r : Rect), (ops.SetBounds a r).isSome = true) →
        (∀ a : α, (ops.Render a).isSome = true) →
        (∀ l, c.InnerPanel.Layout = some l →
          (l.Arrange c.innerBounds (c.InnerPanel.Children.map ops.toChild)).isSome = true) →
        ∃ c1, c.Render ops = some c1) ∧
      (∀ c1, c.Render ops = some c1 →
        c1.Bounds = c.Bounds ∧ c1.Visible = c.Visible ∧
        c1.RepaintRequested = c.RepaintRequested ∧
        c1.InnerPanel.Visible = c.InnerPanel.Visible ∧
        c1.InnerPanel.Layout = c.InnerPanel.Layout ∧
        c1.InnerPanel.Children.length = c.InnerPanel.Children.length ∧
        (c.Visible = true →
          c1.InnerPanel.Bounds = c.innerBounds ∧
          ∀ (l : LayoutImpl) (arranged : List Child), c.InnerPanel.Layout = some l →
            l.reachesLoop = true →
            l.Arrange c.innerBounds (c.InnerPanel.Children.map ops.toChild) = some arranged →
            ∀ (i : Nat) (a : α) (r : Child), c.InnerPanel.Children[i]? = some a →
              arranged[i]? = some r → (ops.toChild a).Visible = true →
              ∃ a1, ops.SetBounds a r.Bounds = some a1 ∧
                (c.InnerPanel.Visible = true →
                  ∃ a2, ops.Render a1 = some a2 ∧ c1.InnerPanel.Children[i]? = some a2) ∧
                (c.InnerPanel.Visible = false → c1.InnerPanel.Children[i]? = some a1)))) := by
  refine ⟨?_, ?_, ?_, ?_, ?_, ?_, ?_, ?_, ?_, ?_, ?_, ?_⟩
  · intro b
    unfold Button.Render
    split_ifs
    · exact Or.inl rfl
    · exact Or.inr rfl
  · intro c
    unfold CheckBox.Render
    split_ifs
    · exact Or.inl rfl
    · exact Or.inr rfl
  · intro p
    unfold ProgressBar.Render
    split_ifs <;> rfl
  · intro α l
    unfold LineChart.Render
    split_ifs <;> rfl
  · intro t t1 measure spare now h
    unfold TextBox.Render at h
    split_ifs at h with hv
    · simp only [Option.some.injEq] at h
      subst h; exact ⟨rfl, rfl, rfl, rfl, rfl, rfl, rfl⟩
    · cases hp : t.resolvePending measure with
      | none => rw [hp] at h; simp at h
      | some t0 =>
        rw [hp] at h
        dsimp only at h
        split_ifs at h
        simp only [Option.some.injEq] at h
        subst h
        obtain ⟨a1, a2, a3, a4, a5, a6, a7⟩ := TextBox.resolvePending_box_frame t t0 measure hp
        obtain ⟨b1, b2, b3, b4, b5, b6, b7, _⟩ := TextBox.blink_box_frame t0 now
        exact ⟨b1.trans a1, b2.trans a2, b3.trans a3, b4.trans a4, b5.trans a5, b6.trans a6,
          b7.trans a7⟩
  · intro t measure spare now hd hp hc hs
    unfold TextBox.Render
    split_ifs with hv
    · exact ⟨t, rfl, rfl, rfl, rfl⟩
    · rw [TextBox.resolvePending_none_pending t measure hd hp]
      dsimp only
      rw [if_pos (TextBox.highlightReturns_of_inRange t spare hc hs)]
      obtain ⟨_, _, _, _, _, _, _, b8, b9, b10⟩ := TextBox.blink_box_frame t now
      exact ⟨_, rfl, b8, b9, b10⟩
  · intro t t1 measure textH now h
    unfold TextArea.Render at h
    split_ifs at h with hv
    · simp only [Option.some.injEq] at h
      subst h; exact ⟨rfl, rfl, rfl, rfl, rfl, rfl, rfl, rfl, rfl⟩
    · cases hp : t.resolvePending measure textH with
      | none => rw [hp] at h; simp at h
      | some t0 =>
        rw [hp] at h
        simp only [Option.some.injEq] at h
        subst h
        obtain ⟨a1, a2, a3, a4, a5, a6, a7, a8, a9⟩ :=
          TextArea.resolvePending_area_frame t t0 measure textH hp
        obtain ⟨b1, b2, b3, b4, b5, b6, b7, b8, b9, _⟩ :=
          TextArea.blink_area_frame ({ t0 with lineHeight := wrap32 (textH + 4) }) now
        exact ⟨b1.trans a1, b2.trans a2, b3.trans a3, b4.trans a4, b5.trans a5, b6.trans a6,
          b7.trans a7, b8.trans a8, b9.trans a9⟩
  · intro t measure textH now hx hy
    have hp : t.resolvePending measure textH = some t := by
      simp [TextArea.resolvePending, hx, hy]
    unfold TextArea.Render
    split_ifs with hv
    · refine ⟨t, rfl, rfl, hx, hy, ?_⟩
      intro h
      rw [h] at hv
      exact absurd hv (by decide)
    · rw [hp]
      obtain ⟨_, _, _, _, _, _, _, _, _, b10, b11, b12, b13⟩ :=
        TextArea.blink_area_frame ({ t with lineHeight := wrap32 (textH + 4) }) now
      exact ⟨_, rfl, b10, b11.trans hx, b12.trans hy, fun _ => b13⟩
  · intro l
    unfold Label.Render
    split_ifs
    · exact Or.inl rfl
    · exact Or.inr rfl
  · intro c
    unfold Image.Render
    split_ifs
    · exact Or.inl rfl
    · exact Or.inr rfl
  · intro α ops p
    exact ⟨LayoutPanel.Render_invisible ops p, LayoutPanel.Render_returns ops p,
      LayoutPanel.Render_spec ops p⟩
  · intro α ops c
    refine ⟨?_, ?_, ?_⟩
    · intro hv
      simp [LayoutCard.Render, hv]
    · intro hs hr hl
      by_cases hv : c.Visible = true
      · obtain ⟨p1, hp1⟩ := LayoutPanel.LayoutChildren_returns ops
          { c.InnerPanel with Bounds := c.innerBounds } hs hl
        obtain ⟨p2, hp2⟩ := LayoutPanel.Render_returns ops p1 (fun a _ => hr a)
        exact ⟨{ c with InnerPanel := p2 },
          by simp [LayoutCard.Render, hv, LayoutPanel.SetBounds, hp1, hp2]⟩
      · exact ⟨c, by simp [LayoutCard.Render, hv]⟩
    · intro c1 h
      unfold LayoutCard.Render at h
      by_cases hv : c.Visible = true
      · simp only [hv, Bool.not_true, Bool.false_eq_true, if_false] at h
        cases hp1 : c.InnerPanel.SetBounds ops c.innerBounds with
        | none => rw [hp1] at h; simp at h
        | some p1 =>
          rw [hp1] at h
          dsimp only at h
          cases hp2 : p1.Render ops with
          | none => rw [hp2] at h; simp at h
          | some p2 =>
            rw [hp2] at h
            simp only [Option.some.injEq] at h
            subst h
            obtain ⟨l1, l2, l3, l4, l5, l6⟩ := LayoutPanel.LayoutChildren_spec ops
              { c.InnerPanel with Bounds := c.innerBounds } p1 hp1
            obtain ⟨r1, r2, r3, r4, r5⟩ := LayoutPanel.Render_spec ops p1 p2 hp2
            refine ⟨rfl, hv.symm, rfl, r2.trans l2, r3.trans l4, r4.trans l5, ?_⟩
            intro _
            refine ⟨r1.trans l1, ?_⟩
            intro l arranged hl hreach harr i a r ha hr hvis
            obtain ⟨a1, hs1, hget⟩ := l6 l arranged hl hreach harr i a r ha hr hvis
            refine ⟨a1, hs1, ?_, ?_⟩
            · intro hpv
              exact r5 (l2.trans hpv) i a1 hget
            · intro hpv
              have hp1v : p1.Visible = false := l2.trans hpv
              have : p2 = p1 := by
                have := LayoutPanel.Render_invisible ops p1 hp1v
                rw [hp2] at this
                exact Option.some.inj this
              rw [this]
              exact hget
      · have hv1 : c.Visible = false := by simpa using hv
        simp only [hv1, Bool.not_false, if_true, Option.some.injEq] at h
        subst h
        exact ⟨rfl, rfl, rfl, rfl, rfl, rfl, fun h => by rw [h] at hv1; simp at hv1⟩

/-- C24 (witness): the text box "hello world" with anchor 2 and cursor 5 has
no mouse position pending; Render returns and leaves cursor, anchor and
pending position as they were.  On the text box "ab" with the anchor 3 and
the cursor 4 behind the text, Render returns when the slice of the runes has
spare capacity (30 for the capacity 32) and panics when it has none. -/
theorem C24_Render_frame_witness :
    (∃ t1, helloWorldBox.Render monoMeasure 21 0 = some t1 ∧ t1.cursorPos = 5 ∧
      t1.selStart = 2 ∧ t1.pendingMouseX = 0) ∧
    staleBox.Render monoMeasure 30 0 = some { staleBox with RepaintRequested := false } ∧
    staleBox.Render monoMeasure 0 0 = none :=
  ⟨C24_Render_frame.2.2.2.2.2.1 helloWorldBox monoMeasure 21 0 rfl (Or.inl rfl) (by decide)
    (Or.inr (by decide)), by decide, by decide⟩

end Goui
